import Mathlib

/-!
A shallow embedding of `src/aes/naes.asm.js`.

Conventions of the embedding.

* A 32-bit machine integer (asm.js `int`, the result of a JavaScript bitwise
  operator, an element of a `Uint32Array`) is represented by its bit pattern, a
  natural number below `2^32`.  `toSigned` gives the signed reading where the
  source compares or returns a signed value.
* The `ArrayBuffer` is a size and a byte store; `DATA` (the `Uint8Array` view)
  and `HEAP` (the `Uint32Array` view, little-endian as on every mainstream
  platform) are accessors over it.  A read outside the buffer yields `undefined`,
  which every use in the source coerces to `0`; a write outside is dropped.
* A sparse JavaScript array is a list; a hole is represented by `0`.
* A loop whose trip count depends on run-time data takes fuel and returns
  `none` when it does not terminate.
-/

namespace NAes

/-! ## 32-bit integers -/

/-- The coercion `x|0` of a JavaScript integer, as a 32-bit pattern. -/
def i32 (x : Int) : Nat := (x % 4294967296).toNat

/-- The coercion `x|0` of a value that already is a 32-bit pattern. -/
def u32 (x : Nat) : Nat := x % 4294967296

/-- Signed reading of a 32-bit pattern. -/
def toSigned (x : Nat) : Int := if x < 2147483648 then (x : Int) else (x : Int) - 4294967296

/-- JavaScript `x << n` on 32-bit patterns. -/
def shl32 (x n : Nat) : Nat := (x <<< n) % 4294967296

/-- JavaScript `x >> n` (sign-propagating) on 32-bit patterns, `n < 32`. -/
def sar32 (x n : Nat) : Nat :=
  if x < 2147483648 then x >>> n else (x >>> n) ||| ((4294967295 >>> (32 - n)) <<< (32 - n))

/-- JavaScript `(x + y)|0` on 32-bit patterns. -/
def add32 (x y : Nat) : Nat := (x + y) % 4294967296

/-- JavaScript `(x - y)|0` on 32-bit patterns. -/
def sub32 (x y : Nat) : Nat := (x + (4294967296 - y % 4294967296)) % 4294967296

/-! ## JavaScript arrays -/

/-- Read `xs[i]`; a hole or an index past the end (`undefined`) reads as `0`. -/
def arrGet (xs : List Nat) (i : Nat) : Nat := xs.getD i 0

/-- The assignment `xs[i] = v`, growing the array when `i` is past the end. -/
def arrSet (xs : List Nat) (i v : Nat) : List Nat :=
  if i < xs.length then xs.set i v else xs ++ List.replicate (i - xs.length) 0 ++ [v]

/-- Read `xs[t][i]` of an array of arrays. -/
def arr2Get (xs : List (List Nat)) (t i : Nat) : Nat := arrGet (xs.getD t []) i

/-- The assignment `xs[t][i] = v` of an array of arrays. -/
def arr2Set (xs : List (List Nat)) (t i v : Nat) : List (List Nat) :=
  xs.set t (arrSet (xs.getD t []) i v)

/-! ## Galois field tables -/

/-- The two tables `gexp3`, `glog3` of the module. -/
structure GF where
  gexp3 : List Nat
  glog3 : List Nat
deriving DecidableEq, Repr

/-- Body of the loop `for ( c = 0; c < 255; c++ )` of `ginit`; the first argument
counts the iterations left. -/
def ginitLoop : Nat → Nat → Nat → GF → GF
  | 0, _, _, g => g
  | n + 1, c, a, g =>
    let gexp3 := arrSet g.gexp3 c a
    let d := a &&& 0x80
    let a1 := (a <<< 1) &&& 255
    let a2 := if d = 0x80 then a1 ^^^ 0x1b else a1
    let a3 := a2 ^^^ arrGet gexp3 c
    let glog3 := arrSet g.glog3 (arrGet gexp3 c) c
    ginitLoop n (c + 1) a3 { gexp3 := gexp3, glog3 := glog3 }

/-- The function `ginit`: the tables after the call. -/
def ginit : GF :=
  let g := ginitLoop 255 0 1 { gexp3 := [], glog3 := [] }
  { gexp3 := arrSet g.gexp3 255 (arrGet g.gexp3 0), glog3 := arrSet g.glog3 0 0 }

/-- The function `gmul`. -/
def gmul (g : GF) (a b : Nat) : Nat :=
  let c := arrGet g.gexp3 ((arrGet g.glog3 a + arrGet g.glog3 b) % 255)
  if a = 0 ∨ b = 0 then 0 else c

/-- The function `ginv`. -/
def ginv (g : GF) (a : Nat) : Nat :=
  let i := arrGet g.gexp3 (255 - arrGet g.glog3 a)
  if a = 0 then 0 else i

/-! ## S-box and round tables -/

/-- The tables `aes_sbox`, `aes_sinv`, `aes_enc`, `aes_dec` of the module. -/
structure Tables where
  aes_sbox : List Nat
  aes_sinv : List Nat
  aes_enc : List (List Nat)
  aes_dec : List (List Nat)
deriving DecidableEq, Repr

/-- Loop `for ( c = 0; c < 4; c++ )` of `_s`, on the pair `(s, x)`. -/
def sLoop : Nat → Nat → Nat → Nat
  | 0, _, x => x
  | n + 1, s, x =>
    let s1 := ((s <<< 1) ||| (s >>> 7)) &&& 255
    sLoop n s1 (x ^^^ s1)

/-- The local function `_s` of `aes_init`: the S-box value of `a`. -/
def _s (g : GF) (a : Nat) : Nat :=
  let x := ginv g a
  sLoop 4 x x ^^^ 99

/-- Loop `for ( var t = 1; t < 4; t++ )` of `aes_init` (rotation of the tables),
for the table entry `i` of `aes_enc` and `s` of `aes_dec`. -/
def rotLoop : Nat → Nat → Nat → Nat → Tables → Tables
  | 0, _, _, _, T => T
  | n + 1, t, i, s, T =>
    let enc := arr2Set T.aes_enc t i
      ((arr2Get T.aes_enc (t - 1) i >>> 8) ||| shl32 (arr2Get T.aes_enc (t - 1) i) 24)
    let dec := arr2Set T.aes_dec t s
      ((arr2Get T.aes_dec (t - 1) s >>> 8) ||| shl32 (arr2Get T.aes_dec (t - 1) s) 24)
    rotLoop n (t + 1) i s { T with aes_enc := enc, aes_dec := dec }

/-- Loop `for ( var i = 0; i < 256; i++ )` of `aes_init`. -/
def aesInitLoop (g : GF) : Nat → Nat → Tables → Tables
  | 0, _, T => T
  | n + 1, i, T =>
    let s := _s g i
    let sbox := arrSet T.aes_sbox i s
    let sinv := arrSet T.aes_sinv s i
    let enc := arr2Set T.aes_enc 0 i
      (shl32 (gmul g 2 s) 24 ||| shl32 s 16 ||| shl32 s 8 ||| gmul g 3 s)
    let dec := arr2Set T.aes_dec 0 s
      (shl32 (gmul g 14 i) 24 ||| shl32 (gmul g 9 i) 16 ||| shl32 (gmul g 13 i) 8 ||| gmul g 11 i)
    aesInitLoop g n (i + 1)
      (rotLoop 3 1 i s { aes_sbox := sbox, aes_sinv := sinv, aes_enc := enc, aes_dec := dec })

/-- The function `aes_init`: the tables after the call (`ginit` has run). -/
def aes_init : Tables :=
  aesInitLoop ginit 256 0
    { aes_sbox := [], aes_sinv := [], aes_enc := [[], [], [], []], aes_dec := [[], [], [], []] }

end NAes

namespace NAes

/-! ## The buffer and its two views -/

/-- The `ArrayBuffer`: its byte length and its cells (a cell is read modulo 256). -/
structure Arena where
  size : Nat
  mem : Nat → Nat

/-- Read `DATA[p]` for a 32-bit index pattern `p`; a pattern from `2^31` on is a
negative index.  Outside the buffer the read is `undefined`, here `0`. -/
def DATA_get (a : Arena) (p : Nat) : Nat :=
  if p < 2147483648 ∧ p < a.size then a.mem p % 256 else 0

/-- The store `DATA[p] = v`; dropped outside the buffer. -/
def DATA_set (a : Arena) (p v : Nat) : Arena :=
  if p < 2147483648 ∧ p < a.size then
    { a with mem := fun j => if j = p then v % 256 else a.mem j }
  else a

/-- Read element `i` of the `Uint32Array` over the buffer (little-endian). -/
def HEAP_get (a : Arena) (i : Nat) : Nat :=
  if i < a.size / 4 then
    a.mem (4 * i) % 256 + 256 * (a.mem (4 * i + 1) % 256)
      + 65536 * (a.mem (4 * i + 2) % 256) + 16777216 * (a.mem (4 * i + 3) % 256)
  else 0

/-- Store `v` into element `i` of the `Uint32Array` over the buffer. -/
def HEAP_set (a : Arena) (i v : Nat) : Arena :=
  if i < a.size / 4 then
    { a with mem := fun j =>
        if j = 4 * i then v % 256
        else if j = 4 * i + 1 then v / 256 % 256
        else if j = 4 * i + 2 then v / 65536 % 256
        else if j = 4 * i + 3 then v / 16777216 % 256
        else a.mem j }
  else a

/-- The asm.js read `HEAP[e>>2]` for a 32-bit pattern `e`. -/
def HEAPat (a : Arena) (e : Nat) : Nat :=
  if sar32 e 2 < 2147483648 then HEAP_get a (sar32 e 2) else 0

/-- The call `heap.set( xs, off )` of the wrapper: `none` is the `RangeError`
thrown when the source array does not fit. -/
def heapSetArr (a : Arena) (xs : List Nat) (off : Nat) : Option Arena :=
  if off + xs.length ≤ a.size / 4 then
    some ((List.range xs.length).foldl (fun h i => HEAP_set h (off + i) (arrGet xs i)) a)
  else none

/-! ## Module state -/

/-- The buffer together with the eight module-level variables of the asm module. -/
structure Asm where
  heap : Arena
  S0 : Nat
  S1 : Nat
  S2 : Nat
  S3 : Nat
  T0 : Nat
  T1 : Nat
  T2 : Nat
  T3 : Nat

/-- The body of `asm_wrapper` up to the creation of the asm module: the tables are
copied into the buffer and the registers start at zero.  The result is `none` when
the `Uint32Array` cannot be created over the buffer or a table does not fit
(`RangeError`). -/
def asm_wrapper (buffer : Arena) : Option Asm :=
  if buffer.size % 4 ≠ 0 then none
  else
    (heapSetArr buffer aes_init.aes_sbox (0x0800 >>> 2)).bind fun h =>
    (heapSetArr h aes_init.aes_sinv (0x0c00 >>> 2)).bind fun h =>
    (heapSetArr h (aes_init.aes_enc.getD 0 []) ((0x1000 + 0x400 * 0) >>> 2)).bind fun h =>
    (heapSetArr h (aes_init.aes_dec.getD 0 []) ((0x2000 + 0x400 * 0) >>> 2)).bind fun h =>
    (heapSetArr h (aes_init.aes_enc.getD 1 []) ((0x1000 + 0x400 * 1) >>> 2)).bind fun h =>
    (heapSetArr h (aes_init.aes_dec.getD 1 []) ((0x2000 + 0x400 * 1) >>> 2)).bind fun h =>
    (heapSetArr h (aes_init.aes_enc.getD 2 []) ((0x1000 + 0x400 * 2) >>> 2)).bind fun h =>
    (heapSetArr h (aes_init.aes_dec.getD 2 []) ((0x2000 + 0x400 * 2) >>> 2)).bind fun h =>
    (heapSetArr h (aes_init.aes_enc.getD 3 []) ((0x1000 + 0x400 * 3) >>> 2)).bind fun h =>
    (heapSetArr h (aes_init.aes_dec.getD 3 []) ((0x2000 + 0x400 * 3) >>> 2)).bind fun h =>
    some { heap := h, S0 := 0, S1 := 0, S2 := 0, S3 := 0, T0 := 0, T1 := 0, T2 := 0, T3 := 0 }

/-! ## Key schedules -/

/-- Read `ekeys[i]`, `ekeys = heap.subarray( 0x000, 60 )`. -/
def ekeys_get (a : Arena) (i : Nat) : Nat := if i < 60 then HEAP_get a i else 0

/-- Store `ekeys[i] = v`. -/
def ekeys_set (a : Arena) (i v : Nat) : Arena := if i < 60 then HEAP_set a i v else a

/-- Read `dkeys[i]`, `dkeys = heap.subarray( 0x100, 0x100+60 )`. -/
def dkeys_get (a : Arena) (i : Nat) : Nat := if i < 60 then HEAP_get a (0x100 + i) else 0

/-- Store `dkeys[i] = v`. -/
def dkeys_set (a : Arena) (i v : Nat) : Arena := if i < 60 then HEAP_set a (0x100 + i) v else a

/-- The expression
`aes_sbox[k>>>24]<<24 ^ aes_sbox[k>>>16&255]<<16 ^ aes_sbox[k>>>8&255]<<8 ^ aes_sbox[k&255]`. -/
def subWord (T : Tables) (k : Nat) : Nat :=
  shl32 (arrGet T.aes_sbox (k >>> 24)) 24 ^^^ shl32 (arrGet T.aes_sbox (k >>> 16 &&& 255)) 16
    ^^^ shl32 (arrGet T.aes_sbox (k >>> 8 &&& 255)) 8 ^^^ arrGet T.aes_sbox (k &&& 255)

/-- Loop `for ( var i = ks, rcon = 1; i < 4*ks+28; i++ )` of `set_key`; the first
argument counts the iterations left.  The guards `ks ≠ 0` and `i = 0` stand for
the `NaN` of `i % 0` and the `undefined` of `ekeys[-1]`. -/
def ekeysLoop (T : Tables) (ks : Nat) : Nat → Nat → Nat → Arena → Arena
  | 0, _, _, a => a
  | n + 1, i, rcon, a =>
    let k := if i = 0 then 0 else ekeys_get a (i - 1)
    let k1 := if (ks ≠ 0 ∧ i % ks = 0) ∨ (ks = 8 ∧ i % ks = 4) then subWord T k else k
    let k2 := if ks ≠ 0 ∧ i % ks = 0 then shl32 k1 8 ^^^ (k1 >>> 24) ^^^ shl32 rcon 24 else k1
    let rcon1 := if ks ≠ 0 ∧ i % ks = 0
      then shl32 rcon 1 ^^^ (if rcon &&& 0x80 ≠ 0 then 0x1b else 0) else rcon
    ekeysLoop T ks n (i + 1) rcon1 (ekeys_set a i (ekeys_get a (i - ks) ^^^ k2))

/-- Loop `for ( var jj = 0; jj < 4; jj++ )` of `set_key`, for the group `j`;
`i` is the schedule length left by the first loop. -/
def dkeysInner (T : Tables) (i j : Nat) : Nat → Nat → Arena → Arena
  | 0, _, a => a
  | n + 1, jj, a =>
    let k := ekeys_get a (i - (4 + j) + (4 - jj) % 4)
    let v := if j < 4 ∨ j ≥ i - 4 then k
      else arr2Get T.aes_dec 0 (arrGet T.aes_sbox (k >>> 24))
        ^^^ arr2Get T.aes_dec 1 (arrGet T.aes_sbox (k >>> 16 &&& 255))
        ^^^ arr2Get T.aes_dec 2 (arrGet T.aes_sbox (k >>> 8 &&& 255))
        ^^^ arr2Get T.aes_dec 3 (arrGet T.aes_sbox (k &&& 255))
    dkeysInner T i j n (jj + 1) (dkeys_set a (j + jj) v)

/-- Loop `for ( var j = 0; j < i; j += 4 )` of `set_key`; the first argument
counts the groups left. -/
def dkeysLoop (T : Tables) (i : Nat) : Nat → Nat → Arena → Arena
  | 0, _, a => a
  | n + 1, j, a => dkeysLoop T i n (j + 4) (dkeysInner T i j 4 0 a)

/-- The function `set_key` for a key size `ks` that is a natural number; the key
words are stored modulo `2^32` by the typed array. -/
def set_key (st : Asm) (ks k0 k1 k2 k3 k4 k5 k6 k7 : Nat) : Asm :=
  let a0 := ([k0, k1, k2, k3, k4, k5, k6, k7].enum).foldl
    (fun h p => ekeys_set h p.1 p.2) st.heap
  let a1 := ekeysLoop aes_init ks (4 * ks + 28 - ks) ks 1 a0
  let i := 4 * ks + 28
  { st with heap := dkeysLoop aes_init i ((i + 3) / 4) 0 a1 }

/-! ## The block core -/

/-- One pass of the loop body of `_core`: the four words `y0..y3`. -/
def coreRound (a : Arena) (k t i x0 x1 x2 x3 : Nat) : Nat × Nat × Nat × Nat :=
  let t1 := t ||| 0x400
  let t2 := t ||| 0x800
  let t3 := t ||| 0xc00
  (HEAPat a (t ||| (sar32 x0 22 &&& 1020)) ^^^ HEAPat a (t1 ||| (sar32 x1 14 &&& 1020))
      ^^^ HEAPat a (t2 ||| (sar32 x2 6 &&& 1020)) ^^^ HEAPat a (t3 ||| (shl32 x3 2 &&& 1020))
      ^^^ HEAPat a (k ||| i ||| 0),
   HEAPat a (t ||| (sar32 x1 22 &&& 1020)) ^^^ HEAPat a (t1 ||| (sar32 x2 14 &&& 1020))
      ^^^ HEAPat a (t2 ||| (sar32 x3 6 &&& 1020)) ^^^ HEAPat a (t3 ||| (shl32 x0 2 &&& 1020))
      ^^^ HEAPat a (k ||| i ||| 4),
   HEAPat a (t ||| (sar32 x2 22 &&& 1020)) ^^^ HEAPat a (t1 ||| (sar32 x3 14 &&& 1020))
      ^^^ HEAPat a (t2 ||| (sar32 x0 6 &&& 1020)) ^^^ HEAPat a (t3 ||| (shl32 x1 2 &&& 1020))
      ^^^ HEAPat a (k ||| i ||| 8),
   HEAPat a (t ||| (sar32 x3 22 &&& 1020)) ^^^ HEAPat a (t1 ||| (sar32 x0 14 &&& 1020))
      ^^^ HEAPat a (t2 ||| (sar32 x1 6 &&& 1020)) ^^^ HEAPat a (t3 ||| (shl32 x2 2 &&& 1020))
      ^^^ HEAPat a (k ||| i ||| 12))

/-- Loop `for ( i = 16; (i|0) <= (r<<4); i = (i+16)|0 )` of `_core`, with fuel:
the result is the final `i` and `x0..x3`, or `none` when the fuel runs out. -/
def coreLoop (a : Arena) (k t r : Nat) : Nat → Nat → Nat → Nat → Nat → Nat →
    Option (Nat × Nat × Nat × Nat × Nat)
  | 0, _, _, _, _, _ => none
  | fuel + 1, i, x0, x1, x2, x3 =>
    if toSigned i ≤ toSigned (shl32 r 4) then
      let y := coreRound a k t i x0 x1 x2 x3
      coreLoop a k t r fuel (add32 i 16) y.1 y.2.1 y.2.2.1 y.2.2.2
    else some (i, x0, x1, x2, x3)

/-- Fuel given to the loops of the asm module.  A loop variable moves through the
32-bit integers in steps of 16, so a loop that ends does so within `2^28` passes. -/
def loopFuel : Nat := 268435457

/-- The function `_core`; `none` when its loop does not end. -/
def _core (st : Asm) (k s t r x0 x1 x2 x3 : Nat) : Option Asm :=
  let a := st.heap
  let k := u32 k
  let s := u32 s
  let t := u32 t
  let r := u32 r
  let x0 := u32 x0 ^^^ HEAPat a (k ||| 0)
  let x1 := u32 x1 ^^^ HEAPat a (k ||| 4)
  let x2 := u32 x2 ^^^ HEAPat a (k ||| 8)
  let x3 := u32 x3 ^^^ HEAPat a (k ||| 12)
  match coreLoop a k t r loopFuel 16 x0 x1 x2 x3 with
  | none => none
  | some (i, x0, x1, x2, x3) =>
    some { st with
      S0 := shl32 (HEAPat a (s ||| (sar32 x0 22 &&& 1020))) 24
        ^^^ shl32 (HEAPat a (s ||| (sar32 x1 14 &&& 1020))) 16
        ^^^ shl32 (HEAPat a (s ||| (sar32 x2 6 &&& 1020))) 8
        ^^^ HEAPat a (s ||| (shl32 x3 2 &&& 1020)) ^^^ HEAPat a (k ||| i ||| 0)
      S1 := shl32 (HEAPat a (s ||| (sar32 x1 22 &&& 1020))) 24
        ^^^ shl32 (HEAPat a (s ||| (sar32 x2 14 &&& 1020))) 16
        ^^^ shl32 (HEAPat a (s ||| (sar32 x3 6 &&& 1020))) 8
        ^^^ HEAPat a (s ||| (shl32 x0 2 &&& 1020)) ^^^ HEAPat a (k ||| i ||| 4)
      S2 := shl32 (HEAPat a (s ||| (sar32 x2 22 &&& 1020))) 24
        ^^^ shl32 (HEAPat a (s ||| (sar32 x3 14 &&& 1020))) 16
        ^^^ shl32 (HEAPat a (s ||| (sar32 x0 6 &&& 1020))) 8
        ^^^ HEAPat a (s ||| (shl32 x1 2 &&& 1020)) ^^^ HEAPat a (k ||| i ||| 8)
      S3 := shl32 (HEAPat a (s ||| (sar32 x3 22 &&& 1020))) 24
        ^^^ shl32 (HEAPat a (s ||| (sar32 x0 14 &&& 1020))) 16
        ^^^ shl32 (HEAPat a (s ||| (sar32 x1 6 &&& 1020))) 8
        ^^^ HEAPat a (s ||| (shl32 x2 2 &&& 1020)) ^^^ HEAPat a (k ||| i ||| 12) }

/-! ## Mode drivers

Each driver starts with the coercions `r = r|0, x0 = x0|0, ...`, here `u32`. -/

/-- The function `_ecb_enc`. -/
def _ecb_enc (st : Asm) (r x0 x1 x2 x3 : Nat) : Option Asm :=
  _core st 0x0000 0x0800 0x1000 (u32 r) (u32 x0) (u32 x1) (u32 x2) (u32 x3)

/-- The function `_ecb_dec`. -/
def _ecb_dec (st : Asm) (r x0 x1 x2 x3 : Nat) : Option Asm :=
  (_core st 0x0400 0x0c00 0x2000 (u32 r) (u32 x0) (u32 x3) (u32 x2) (u32 x1)).map fun c =>
    { c with S1 := c.S3, S3 := c.S1 }

/-- The function `_cbc_enc`. -/
def _cbc_enc (st : Asm) (r x0 x1 x2 x3 : Nat) : Option Asm :=
  (_core st 0x0000 0x0800 0x1000 (u32 r) (st.T0 ^^^ u32 x0) (st.T1 ^^^ u32 x1)
    (st.T2 ^^^ u32 x2) (st.T3 ^^^ u32 x3)).map fun c =>
    { c with T0 := c.S0, T1 := c.S1, T2 := c.S2, T3 := c.S3 }

/-- The function `_cbc_dec`. -/
def _cbc_dec (st : Asm) (r x0 x1 x2 x3 : Nat) : Option Asm :=
  (_core st 0x0400 0x0c00 0x2000 (u32 r) (u32 x0) (u32 x3) (u32 x2) (u32 x1)).map fun c =>
    { c with
      S0 := c.S0 ^^^ c.T0, S1 := c.S3 ^^^ c.T1, S2 := c.S2 ^^^ c.T2, S3 := c.S1 ^^^ c.T3
      T0 := u32 x0, T1 := u32 x1, T2 := u32 x2, T3 := u32 x3 }

/-- The function `_cfb_enc`. -/
def _cfb_enc (st : Asm) (r x0 x1 x2 x3 : Nat) : Option Asm :=
  (_core st 0x0000 0x0800 0x1000 (u32 r) st.T0 st.T1 st.T2 st.T3).map fun c =>
    { c with
      S0 := c.S0 ^^^ u32 x0, S1 := c.S1 ^^^ u32 x1, S2 := c.S2 ^^^ u32 x2, S3 := c.S3 ^^^ u32 x3
      T0 := c.S0 ^^^ u32 x0, T1 := c.S1 ^^^ u32 x1, T2 := c.S2 ^^^ u32 x2, T3 := c.S3 ^^^ u32 x3 }

/-- The function `_cfb_dec`. -/
def _cfb_dec (st : Asm) (r x0 x1 x2 x3 : Nat) : Option Asm :=
  (_core st 0x0000 0x0800 0x1000 (u32 r) st.T0 st.T1 st.T2 st.T3).map fun c =>
    { c with
      S0 := c.S0 ^^^ u32 x0, S1 := c.S1 ^^^ u32 x1, S2 := c.S2 ^^^ u32 x2, S3 := c.S3 ^^^ u32 x3
      T0 := u32 x0, T1 := u32 x1, T2 := u32 x2, T3 := u32 x3 }

/-- The function `_ofb`. -/
def _ofb (st : Asm) (r x0 x1 x2 x3 : Nat) : Option Asm :=
  (_core st 0x0000 0x0800 0x1000 (u32 r) st.T0 st.T1 st.T2 st.T3).map fun c =>
    { c with
      T0 := c.S0, T1 := c.S1, T2 := c.S2, T3 := c.S3
      S0 := c.S0 ^^^ u32 x0, S1 := c.S1 ^^^ u32 x1, S2 := c.S2 ^^^ u32 x2, S3 := c.S3 ^^^ u32 x3 }

/-- The function `_ctr`. -/
def _ctr (st : Asm) (r x0 x1 x2 x3 : Nat) : Option Asm :=
  (_core st 0x0000 0x0800 0x1000 (u32 r) st.T0 st.T1 st.T2 st.T3).map fun c =>
    let T3 := add32 c.T3 1
    let T2 := if T3 = 0 then add32 c.T2 1 else c.T2
    { c with
      T2 := T2, T3 := T3
      S0 := c.S0 ^^^ u32 x0, S1 := c.S1 ^^^ u32 x1, S2 := c.S2 ^^^ u32 x2, S3 := c.S3 ^^^ u32 x3 }

/-- The table `_modes`, indexed by `mode&7`. -/
def _modes (m : Nat) : Asm → Nat → Nat → Nat → Nat → Nat → Option Asm :=
  match m with
  | 0 => _ecb_enc
  | 1 => _ecb_dec
  | 2 => _cbc_enc
  | 3 => _cbc_dec
  | 4 => _cfb_enc
  | 5 => _cfb_dec
  | 6 => _ofb
  | _ => _ctr

/-! ## Exported functions -/

/-- The function `set_state`. -/
def set_state (st : Asm) (x0 x1 x2 x3 : Int) : Asm :=
  { st with S0 := i32 x0, S1 := i32 x1, S2 := i32 x2, S3 := i32 x3 }

/-- The function `set_iv`. -/
def set_iv (st : Asm) (x0 x1 x2 x3 : Int) : Asm :=
  { st with T0 := i32 x0, T1 := i32 x1, T2 := i32 x2, T3 := i32 x3 }

/-- The sixteen stores `DATA[pos|0] = S0>>>24, ..., DATA[pos|15] = S3&255`. -/
def storeState (st : Asm) (pos : Nat) : Arena :=
  let a := DATA_set st.heap (pos ||| 0) (st.S0 >>> 24)
  let a := DATA_set a (pos ||| 1) (st.S0 >>> 16 &&& 255)
  let a := DATA_set a (pos ||| 2) (st.S0 >>> 8 &&& 255)
  let a := DATA_set a (pos ||| 3) (st.S0 &&& 255)
  let a := DATA_set a (pos ||| 4) (st.S1 >>> 24)
  let a := DATA_set a (pos ||| 5) (st.S1 >>> 16 &&& 255)
  let a := DATA_set a (pos ||| 6) (st.S1 >>> 8 &&& 255)
  let a := DATA_set a (pos ||| 7) (st.S1 &&& 255)
  let a := DATA_set a (pos ||| 8) (st.S2 >>> 24)
  let a := DATA_set a (pos ||| 9) (st.S2 >>> 16 &&& 255)
  let a := DATA_set a (pos ||| 10) (st.S2 >>> 8 &&& 255)
  let a := DATA_set a (pos ||| 11) (st.S2 &&& 255)
  let a := DATA_set a (pos ||| 12) (st.S3 >>> 24)
  let a := DATA_set a (pos ||| 13) (st.S3 >>> 16 &&& 255)
  let a := DATA_set a (pos ||| 14) (st.S3 >>> 8 &&& 255)
  DATA_set a (pos ||| 15) (st.S3 &&& 255)

/-- The function `flush_state`: the returned value and the state after. -/
def flush_state (st : Asm) (pos : Int) : Int × Asm :=
  let pos := i32 pos
  if pos &&& 15 ≠ 0 then (-1, st)
  else (16, { st with heap := storeState st pos })

/-- The expression `DATA[pos|c]<<24 | DATA[pos|c+1]<<16 | DATA[pos|c+2]<<8 | DATA[pos|c+3]`. -/
def loadWord (a : Arena) (pos c : Nat) : Nat :=
  shl32 (DATA_get a (pos ||| c)) 24 ||| shl32 (DATA_get a (pos ||| (c + 1))) 16
    ||| shl32 (DATA_get a (pos ||| (c + 2))) 8 ||| DATA_get a (pos ||| (c + 3))

/-- Loop `while ( (len|0) >= 16 )` of `process`, with fuel. -/
def processLoop (r mode : Nat) : Nat → Asm → Nat → Nat → Nat → Option (Int × Asm)
  | 0, _, _, _, _ => none
  | fuel + 1, st, pos, len, ret =>
    if toSigned len ≥ 16 then
      match _modes (mode &&& 7) st r (loadWord st.heap pos 0) (loadWord st.heap pos 4)
          (loadWord st.heap pos 8) (loadWord st.heap pos 12) with
      | none => none
      | some c =>
        processLoop r mode fuel { c with heap := storeState c pos }
          (add32 pos 16) (sub32 len 16) (add32 ret 16)
    else some (toSigned ret, st)

/-- The function `process`: the returned value and the state after, or `none`
when the call does not return. -/
def process (st : Asm) (ks mode pos len : Int) : Option (Int × Asm) :=
  let ks := i32 ks
  let mode := i32 mode
  let pos := i32 pos
  let len := i32 len
  if pos &&& 15 ≠ 0 then some (-1, st)
  else
    let r := add32 ks 5
    processLoop r mode loopFuel st pos len 0

end NAes

namespace NAes

/-! ## Words as four bytes -/

/-- The word with bytes `a b c d`, most significant first. -/
def pack (a b c d : Nat) : Nat := a * 16777216 + b * 65536 + c * 256 + d

/-- Byte `0` (most significant) of a word. -/
def byte0 (w : Nat) : Nat := w / 16777216 % 256

/-- Byte `1` of a word. -/
def byte1 (w : Nat) : Nat := w / 65536 % 256

/-- Byte `2` of a word. -/
def byte2 (w : Nat) : Nat := w / 256 % 256

/-- Byte `3` (least significant) of a word. -/
def byte3 (w : Nat) : Nat := w % 256

/-- The sixteen bytes of the state register `S0..S3`, big-endian. -/
def regBytes (st : Asm) : List Nat :=
  [byte0 st.S0, byte1 st.S0, byte2 st.S0, byte3 st.S0,
   byte0 st.S1, byte1 st.S1, byte2 st.S1, byte3 st.S1,
   byte0 st.S2, byte1 st.S2, byte2 st.S2, byte3 st.S2,
   byte0 st.S3, byte1 st.S3, byte2 st.S3, byte3 st.S3]

/-- The big-endian word made of the four bytes at `p..p+3`. -/
def wordAt (a : Arena) (p : Nat) : Nat :=
  pack (DATA_get a p) (DATA_get a (p + 1)) (DATA_get a (p + 2)) (DATA_get a (p + 3))

/-- Successive byte stores `DATA[p] = b0, DATA[p+1] = b1, ...`. -/
def writeBytes : Arena → Nat → List Nat → Arena
  | a, _, [] => a
  | a, p, b :: bs => writeBytes (DATA_set a p b) (p + 1) bs

/-! ## The loops of the asm module, unrolled -/

/-- Number of passes of the loop of `_core` for the round argument `r`, when the
loop ends: `(r<<4) / 16` if `r<<4` is not negative. -/
def innerRounds (r : Nat) : Nat := if shl32 r 4 < 2147483648 then shl32 r 4 / 16 else 0

/-- The loop of `_core` ends unless `r<<4` is `0x7FFFFFF0`, the largest multiple
of 16 among the 32-bit integers. -/
def CoreEnds (r : Nat) : Prop := shl32 (u32 r) 4 ≠ 2147483632

instance (r : Nat) : Decidable (CoreEnds r) := by unfold CoreEnds; infer_instance

/-- The words `x0..x3` after `m` passes of the loop of `_core` starting at `i`. -/
def coreIter (a : Arena) (k t : Nat) : Nat → Nat → Nat × Nat × Nat × Nat → Nat × Nat × Nat × Nat
  | 0, _, x => x
  | m + 1, i, x => coreIter a k t m (i + 16) (coreRound a k t i x.1 x.2.1 x.2.2.1 x.2.2.2)

/-- The final round of `_core`: the four words stored into `S0..S3`. -/
def coreFinal (a : Arena) (k s i : Nat) (x : Nat × Nat × Nat × Nat) : Nat × Nat × Nat × Nat :=
  (shl32 (HEAPat a (s ||| (sar32 x.1 22 &&& 1020))) 24
        ^^^ shl32 (HEAPat a (s ||| (sar32 x.2.1 14 &&& 1020))) 16
        ^^^ shl32 (HEAPat a (s ||| (sar32 x.2.2.1 6 &&& 1020))) 8
        ^^^ HEAPat a (s ||| (shl32 x.2.2.2 2 &&& 1020)) ^^^ HEAPat a (k ||| i ||| 0),
   shl32 (HEAPat a (s ||| (sar32 x.2.1 22 &&& 1020))) 24
        ^^^ shl32 (HEAPat a (s ||| (sar32 x.2.2.1 14 &&& 1020))) 16
        ^^^ shl32 (HEAPat a (s ||| (sar32 x.2.2.2 6 &&& 1020))) 8
        ^^^ HEAPat a (s ||| (shl32 x.1 2 &&& 1020)) ^^^ HEAPat a (k ||| i ||| 4),
   shl32 (HEAPat a (s ||| (sar32 x.2.2.1 22 &&& 1020))) 24
        ^^^ shl32 (HEAPat a (s ||| (sar32 x.2.2.2 14 &&& 1020))) 16
        ^^^ shl32 (HEAPat a (s ||| (sar32 x.1 6 &&& 1020))) 8
        ^^^ HEAPat a (s ||| (shl32 x.2.1 2 &&& 1020)) ^^^ HEAPat a (k ||| i ||| 8),
   shl32 (HEAPat a (s ||| (sar32 x.2.2.2 22 &&& 1020))) 24
        ^^^ shl32 (HEAPat a (s ||| (sar32 x.1 14 &&& 1020))) 16
        ^^^ shl32 (HEAPat a (s ||| (sar32 x.2.1 6 &&& 1020))) 8
        ^^^ HEAPat a (s ||| (shl32 x.2.2.1 2 &&& 1020)) ^^^ HEAPat a (k ||| i ||| 12))

/-- The four words `_core` leaves in `S0..S3` when its loop ends. -/
def coreOut (a : Arena) (k s t r x0 x1 x2 x3 : Nat) : Nat × Nat × Nat × Nat :=
  coreFinal a (u32 k) (u32 s) (16 * (innerRounds (u32 r) + 1))
    (coreIter a (u32 k) (u32 t) (innerRounds (u32 r)) 16
      (u32 x0 ^^^ HEAPat a (u32 k ||| 0), u32 x1 ^^^ HEAPat a (u32 k ||| 4),
       u32 x2 ^^^ HEAPat a (u32 k ||| 8), u32 x3 ^^^ HEAPat a (u32 k ||| 12)))

/-- One pass of the loop body of `process` on the block at `pos`. -/
def blockStep (r mode : Nat) (st : Asm) (pos : Nat) : Option Asm :=
  match _modes (mode &&& 7) st r (loadWord st.heap pos 0) (loadWord st.heap pos 4)
      (loadWord st.heap pos 8) (loadWord st.heap pos 12) with
  | none => none
  | some c => some { c with heap := storeState c pos }

/-- Passes of the loop body of `process` on `n` successive blocks from `pos`. -/
def blocksRun (r mode : Nat) : Nat → Asm → Nat → Option Asm
  | 0, st, _ => some st
  | n + 1, st, pos =>
    match blockStep r mode st pos with
    | none => none
    | some c => blocksRun r mode n c (add32 pos 16)

/-- The block transform `E` of the encrypting drivers: the words `_core` computes
with the encryption schedule and tables of the buffer `a`. -/
def encOut (a : Arena) (r x0 x1 x2 x3 : Nat) : Nat × Nat × Nat × Nat :=
  coreOut a 0x0000 0x0800 0x1000 r x0 x1 x2 x3

/-- The block transform `D` of the decrypting drivers: `_core` with the decryption
schedule and tables on the words in the order `x0 x3 x2 x1`, words 1 and 3 of the
result exchanged. -/
def decOut (a : Arena) (r x0 x1 x2 x3 : Nat) : Nat × Nat × Nat × Nat :=
  let o := coreOut a 0x0400 0x0c00 0x2000 r x0 x3 x2 x1
  (o.1, o.2.2.2, o.2.2.1, o.2.1)

end NAes

namespace NAes

/-! ## The tables, written out -/

/-- The table `gexp3` after `ginit`. -/
def GEXP3 : List Nat :=
  [1, 3, 5, 15, 17, 51, 85, 255, 26, 46, 114, 150, 161, 248, 19, 53, 95, 225, 56, 72, 216, 115,
   149, 164, 247, 2, 6, 10, 30, 34, 102, 170, 229, 52, 92, 228, 55, 89, 235, 38, 106, 190, 217,
   112, 144, 171, 230, 49, 83, 245, 4, 12, 20, 60, 68, 204, 79, 209, 104, 184, 211, 110, 178, 205,
   76, 212, 103, 169, 224, 59, 77, 215, 98, 166, 241, 8, 24, 40, 120, 136, 131, 158, 185, 208,
   107, 189, 220, 127, 129, 152, 179, 206, 73, 219, 118, 154, 181, 196, 87, 249, 16, 48, 80, 240,
   11, 29, 39, 105, 187, 214, 97, 163, 254, 25, 43, 125, 135, 146, 173, 236, 47, 113, 147, 174,
   233, 32, 96, 160, 251, 22, 58, 78, 210, 109, 183, 194, 93, 231, 50, 86, 250, 21, 63, 65, 195,
   94, 226, 61, 71, 201, 64, 192, 91, 237, 44, 116, 156, 191, 218, 117, 159, 186, 213, 100, 172,
   239, 42, 126, 130, 157, 188, 223, 122, 142, 137, 128, 155, 182, 193, 88, 232, 35, 101, 175,
   234, 37, 111, 177, 200, 67, 197, 84, 252, 31, 33, 99, 165, 244, 7, 9, 27, 45, 119, 153, 176,
   203, 70, 202, 69, 207, 74, 222, 121, 139, 134, 145, 168, 227, 62, 66, 198, 81, 243, 14, 18, 54,
   90, 238, 41, 123, 141, 140, 143, 138, 133, 148, 167, 242, 13, 23, 57, 75, 221, 124, 132, 151,
   162, 253, 28, 36, 108, 180, 199, 82, 246, 1]

/-- The table `glog3` after `ginit`. -/
def GLOG3 : List Nat :=
  [0, 0, 25, 1, 50, 2, 26, 198, 75, 199, 27, 104, 51, 238, 223, 3, 100, 4, 224, 14, 52, 141, 129,
   239, 76, 113, 8, 200, 248, 105, 28, 193, 125, 194, 29, 181, 249, 185, 39, 106, 77, 228, 166,
   114, 154, 201, 9, 120, 101, 47, 138, 5, 33, 15, 225, 36, 18, 240, 130, 69, 53, 147, 218, 142,
   150, 143, 219, 189, 54, 208, 206, 148, 19, 92, 210, 241, 64, 70, 131, 56, 102, 221, 253, 48,
   191, 6, 139, 98, 179, 37, 226, 152, 34, 136, 145, 16, 126, 110, 72, 195, 163, 182, 30, 66, 58,
   107, 40, 84, 250, 133, 61, 186, 43, 121, 10, 21, 155, 159, 94, 202, 78, 212, 172, 229, 243,
   115, 167, 87, 175, 88, 168, 80, 244, 234, 214, 116, 79, 174, 233, 213, 231, 230, 173, 232, 44,
   215, 117, 122, 235, 22, 11, 245, 89, 203, 95, 176, 156, 169, 81, 160, 127, 12, 246, 111, 23,
   196, 73, 236, 216, 67, 31, 45, 164, 118, 123, 183, 204, 187, 62, 90, 251, 96, 177, 134, 59, 82,
   161, 108, 170, 85, 41, 157, 151, 178, 135, 144, 97, 190, 220, 252, 188, 149, 207, 205, 55, 63,
   91, 209, 83, 57, 132, 60, 65, 162, 109, 71, 20, 42, 158, 93, 86, 242, 211, 171, 68, 17, 146,
   217, 35, 32, 46, 137, 180, 124, 184, 38, 119, 153, 227, 165, 103, 74, 237, 222, 197, 49, 254,
   24, 13, 99, 140, 128, 192, 247, 112, 7]

/-- The table `aes_sbox` after `aes_init`. -/
def SBOX : List Nat :=
  [99, 124, 119, 123, 242, 107, 111, 197, 48, 1, 103, 43, 254, 215, 171, 118, 202, 130, 201, 125,
   250, 89, 71, 240, 173, 212, 162, 175, 156, 164, 114, 192, 183, 253, 147, 38, 54, 63, 247, 204,
   52, 165, 229, 241, 113, 216, 49, 21, 4, 199, 35, 195, 24, 150, 5, 154, 7, 18, 128, 226, 235,
   39, 178, 117, 9, 131, 44, 26, 27, 110, 90, 160, 82, 59, 214, 179, 41, 227, 47, 132, 83, 209, 0,
   237, 32, 252, 177, 91, 106, 203, 190, 57, 74, 76, 88, 207, 208, 239, 170, 251, 67, 77, 51, 133,
   69, 249, 2, 127, 80, 60, 159, 168, 81, 163, 64, 143, 146, 157, 56, 245, 188, 182, 218, 33, 16,
   255, 243, 210, 205, 12, 19, 236, 95, 151, 68, 23, 196, 167, 126, 61, 100, 93, 25, 115, 96, 129,
   79, 220, 34, 42, 144, 136, 70, 238, 184, 20, 222, 94, 11, 219, 224, 50, 58, 10, 73, 6, 36, 92,
   194, 211, 172, 98, 145, 149, 228, 121, 231, 200, 55, 109, 141, 213, 78, 169, 108, 86, 244, 234,
   101, 122, 174, 8, 186, 120, 37, 46, 28, 166, 180, 198, 232, 221, 116, 31, 75, 189, 139, 138,
   112, 62, 181, 102, 72, 3, 246, 14, 97, 53, 87, 185, 134, 193, 29, 158, 225, 248, 152, 17, 105,
   217, 142, 148, 155, 30, 135, 233, 206, 85, 40, 223, 140, 161, 137, 13, 191, 230, 66, 104, 65,
   153, 45, 15, 176, 84, 187, 22]

/-- The table `aes_sinv` after `aes_init`. -/
def SINV : List Nat :=
  [82, 9, 106, 213, 48, 54, 165, 56, 191, 64, 163, 158, 129, 243, 215, 251, 124, 227, 57, 130,
   155, 47, 255, 135, 52, 142, 67, 68, 196, 222, 233, 203, 84, 123, 148, 50, 166, 194, 35, 61,
   238, 76, 149, 11, 66, 250, 195, 78, 8, 46, 161, 102, 40, 217, 36, 178, 118, 91, 162, 73, 109,
   139, 209, 37, 114, 248, 246, 100, 134, 104, 152, 22, 212, 164, 92, 204, 93, 101, 182, 146, 108,
   112, 72, 80, 253, 237, 185, 218, 94, 21, 70, 87, 167, 141, 157, 132, 144, 216, 171, 0, 140,
   188, 211, 10, 247, 228, 88, 5, 184, 179, 69, 6, 208, 44, 30, 143, 202, 63, 15, 2, 193, 175,
   189, 3, 1, 19, 138, 107, 58, 145, 17, 65, 79, 103, 220, 234, 151, 242, 207, 206, 240, 180, 230,
   115, 150, 172, 116, 34, 231, 173, 53, 133, 226, 249, 55, 232, 28, 117, 223, 110, 71, 241, 26,
   113, 29, 41, 197, 137, 111, 183, 98, 14, 170, 24, 190, 27, 252, 86, 62, 75, 198, 210, 121, 32,
   154, 219, 192, 254, 120, 205, 90, 244, 31, 221, 168, 51, 136, 7, 199, 49, 177, 18, 16, 89, 39,
   128, 236, 95, 96, 81, 127, 169, 25, 181, 74, 13, 45, 229, 122, 159, 147, 201, 156, 239, 160,
   224, 59, 77, 174, 42, 245, 176, 200, 235, 187, 60, 131, 83, 153, 97, 23, 43, 4, 126, 186, 119,
   214, 38, 225, 105, 20, 99, 85, 33, 12, 125]

/-- The loop of `ginit` returning the accumulator `a` as well as the tables. -/
def ginitState : Nat → Nat → Nat → GF → Nat × GF
  | 0, _, a, g => (a, g)
  | n + 1, c, a, g =>
    let gexp3 := arrSet g.gexp3 c a
    let d := a &&& 0x80
    let a1 := (a <<< 1) &&& 255
    let a2 := if d = 0x80 then a1 ^^^ 0x1b else a1
    let a3 := a2 ^^^ arrGet gexp3 c
    let glog3 := arrSet g.glog3 (arrGet gexp3 c) c
    ginitState n (c + 1) a3 { gexp3 := gexp3, glog3 := glog3 }

/-- The table `glog3` after 64 passes of the loop of `ginit`. -/
def GLOG3_64 : List Nat :=
  [0, 0, 25, 1, 50, 2, 26, 0, 0, 0, 27, 0, 51, 0, 0, 3, 0, 4, 0, 14, 52, 0, 0, 0, 0, 0, 8, 0, 0,
   0, 28, 0, 0, 0, 29, 0, 0, 0, 39, 0, 0, 0, 0, 0, 0, 0, 9, 0, 0, 47, 0, 5, 33, 15, 0, 36, 18, 0,
   0, 0, 53, 0, 0, 0, 0, 0, 0, 0, 54, 0, 0, 0, 19, 0, 0, 0, 0, 0, 0, 56, 0, 0, 0, 48, 0, 6, 0, 0,
   0, 37, 0, 0, 34, 0, 0, 16, 0, 0, 0, 0, 0, 0, 30, 0, 58, 0, 40, 0, 0, 0, 61, 0, 43, 0, 10, 21,
   0, 0, 0, 0, 0, 0, 0, 0, 0, 0, 0, 0, 0, 0] ++
  [0, 0, 0, 0, 0, 0, 0, 0, 0, 0, 0, 0, 0, 0, 44, 0, 0,
   0, 0, 22, 11, 0, 0, 0, 0, 0, 0, 0, 0, 0, 0, 12, 0, 0, 23, 0, 0, 0, 0, 0, 31, 45, 0, 0, 0, 0, 0,
   0, 62, 0, 0, 0, 0, 0, 59, 0, 0, 0, 0, 0, 41, 0, 0, 0, 0, 0, 0, 0, 0, 0, 0, 0, 0, 0, 55, 63, 0,
   0, 0, 57, 0, 60, 0, 0, 0, 0, 20, 42, 0, 0, 0, 0, 0, 0, 0, 17, 0, 0, 35, 32, 46, 0, 0, 0, 0, 38,
   0, 0, 0, 0, 0, 0, 0, 0, 0, 49, 0, 24, 13, 0, 0, 0, 0, 0, 0, 7]

/-- The table `glog3` after 128 passes of the loop of `ginit`. -/
def GLOG3_128 : List Nat :=
  [0, 0, 25, 1, 50, 2, 26, 0, 75, 0, 27, 104, 51, 0, 0, 3, 100, 4, 0, 14, 52, 0, 0, 0, 76, 113, 8,
   0, 0, 105, 28, 0, 125, 0, 29, 0, 0, 0, 39, 106, 77, 0, 0, 114, 0, 0, 9, 120, 101, 47, 0, 5, 33,
   15, 0, 36, 18, 0, 0, 69, 53, 0, 0, 0, 0, 0, 0, 0, 54, 0, 0, 0, 19, 92, 0, 0, 64, 70, 0, 56,
   102, 0, 0, 48, 0, 6, 0, 98, 0, 37, 0, 0, 34, 0, 0, 16, 126, 110, 72, 0, 0, 0, 30, 66, 58, 107,
   40, 84, 0, 0, 61, 0, 43, 121, 10, 21, 0, 0, 94, 0, 78, 0, 0, 0, 0, 115, 0, 87, 0, 88, 0, 80, 0,
   0, 0, 116, 79, 0, 0, 0, 0, 0, 0, 0, 44, 0, 117, 122, 0, 22, 11, 0, 89, 0, 95, 0, 0, 0, 81, 0,
   127, 12, 0, 111, 23, 0, 73, 0, 0, 67, 31, 45, 0, 118, 123, 0, 0, 0, 62, 90, 0, 96, 0, 0, 59,
   82, 0, 108, 0, 85, 41, 0, 0, 0, 0, 0, 97, 0, 0, 0, 0, 0, 0, 0, 55, 63, 91, 0, 83, 57, 0, 60,
   65, 0, 109, 71, 20, 42, 0, 93, 86, 0, 0, 0, 68, 17, 0, 0, 35, 32, 46, 0, 0, 124, 0, 38, 119, 0,
   0, 0, 103, 74, 0, 0, 0, 49, 0, 24, 13, 99, 0, 0, 0, 0, 112, 7]

/-- The table `glog3` after 192 passes of the loop of `ginit`. -/
def GLOG3_192 : List Nat :=
  [0, 0, 25, 1, 50, 2, 26, 0, 75, 0, 27, 104, 51, 0, 0, 3, 100, 4, 0, 14, 52, 141, 129, 0, 76,
   113, 8, 0, 0, 105, 28, 0, 125, 0, 29, 181, 0, 185, 39, 106, 77, 0, 166, 114, 154, 0, 9, 120,
   101, 47, 138, 5, 33, 15, 0, 36, 18, 0, 130, 69, 53, 147, 0, 142, 150, 143, 0, 189, 54, 0, 0,
   148, 19, 92, 0, 0, 64, 70, 131, 56, 102, 0, 0, 48, 191, 6, 139, 98, 179, 37, 0, 152, 34, 136,
   145, 16, 126, 110, 72, 0, 163, 182, 30, 66, 58, 107, 40, 84, 0, 133, 61, 186, 43, 121, 10, 21,
   155, 159, 94, 0, 78, 0, 172, 0, 0, 115, 167, 87, 175, 88, 168, 80, 0, 0, 0, 116, 79, 174, 0, 0,
   0, 0, 173, 0, 44, 0, 117, 122, 0, 22, 11, 0, 89, 0, 95, 176, 156, 169, 81, 160, 127, 12, 0,
   111, 23, 0, 73, 0, 0, 67, 31, 45, 164, 118, 123, 183, 0, 187, 62, 90, 0, 96, 177, 134, 59, 82,
   161, 108, 170, 85, 41, 157, 151, 178, 135, 144, 97, 190, 0, 0, 188, 149, 0, 0, 55, 63, 91, 0,
   83, 57, 132, 60, 65, 162, 109, 71, 20, 42, 158, 93, 86, 0, 0, 171, 68, 17, 146, 0, 35, 32, 46,
   137, 180, 124, 184, 38, 119, 153, 0, 165, 103, 74, 0, 0, 0, 49, 0, 24, 13, 99, 140, 128, 0, 0,
   112, 7]

/-- The rotation `( w >>> 8 ) | ( w << 24 )` of `aes_init`. -/
def rotr8 (w : Nat) : Nat := (w >>> 8) ||| shl32 w 24

/-- The entry `aes_enc[t][i]` that `aes_init` computes from `s = aes_sbox[i]`. -/
def encWord (g : GF) : Nat → Nat → Nat
  | 0, s => shl32 (gmul g 2 s) 24 ||| shl32 s 16 ||| shl32 s 8 ||| gmul g 3 s
  | t + 1, s => rotr8 (encWord g t s)

/-- The entry `aes_dec[t][aes_sbox[i]]` that `aes_init` computes from `i`. -/
def decWord (g : GF) : Nat → Nat → Nat
  | 0, i => shl32 (gmul g 14 i) 24 ||| shl32 (gmul g 9 i) 16 ||| shl32 (gmul g 13 i) 8
      ||| gmul g 11 i
  | t + 1, i => rotr8 (decWord g t i)

/-- The tables before the loop of `aes_init`. -/
def emptyTables : Tables :=
  { aes_sbox := [], aes_sinv := [], aes_enc := [[], [], [], []], aes_dec := [[], [], [], []] }

/-- The tables `gexp3`, `glog3` after `ginit`, written out. -/
def GFT : GF := { gexp3 := GEXP3, glog3 := GLOG3 }

/-- The body of the loop of `aes_init` for the index `i`. -/
def aesInitBody (g : GF) (i : Nat) (T : Tables) : Tables :=
  let s := _s g i
  let sbox := arrSet T.aes_sbox i s
  let sinv := arrSet T.aes_sinv s i
  let enc := arr2Set T.aes_enc 0 i
    (shl32 (gmul g 2 s) 24 ||| shl32 s 16 ||| shl32 s 8 ||| gmul g 3 s)
  let dec := arr2Set T.aes_dec 0 s
    (shl32 (gmul g 14 i) 24 ||| shl32 (gmul g 9 i) 16 ||| shl32 (gmul g 13 i) 8 ||| gmul g 11 i)
  rotLoop 3 1 i s { aes_sbox := sbox, aes_sinv := sinv, aes_enc := enc, aes_dec := dec }

/-- The length of an array after the stores at the indices `_s g i, ..., _s g (i+n-1)`. -/
def maxIdx (g : GF) : Nat → Nat → Nat → Nat
  | 0, _, l => l
  | n + 1, i, l => maxIdx g n (i + 1) (max l (_s g i + 1))

end NAes

namespace NAes

/-! ## Arithmetic of GF(2^8), modulo `x^8 + x^4 + x^3 + x + 1` (0x11b) -/

/-- Multiplication by `x` (the byte 02): shift left, and subtract the polynomial
0x11b when the bit of weight 128 was set. -/
def xtime (b : Nat) : Nat := (2 * b) % 256 ^^^ 27 * (b / 128 % 2)

/-- Multiplication by the byte 03. -/
def mul3 (b : Nat) : Nat := xtime b ^^^ b

/-- Multiplication by the byte 09. -/
def mul9 (b : Nat) : Nat := xtime (xtime (xtime b)) ^^^ b

/-- Multiplication by the byte 0b. -/
def mul11 (b : Nat) : Nat := xtime (xtime (xtime b)) ^^^ xtime b ^^^ b

/-- Multiplication by the byte 0d. -/
def mul13 (b : Nat) : Nat := xtime (xtime (xtime b)) ^^^ xtime (xtime b) ^^^ b

/-- Multiplication by the byte 0e. -/
def mul14 (b : Nat) : Nat := xtime (xtime (xtime b)) ^^^ xtime (xtime b) ^^^ xtime b

/-- Product of two field elements by shift-and-add over the eight bits of `b`. -/
def gfMul (a b : Nat) : Nat :=
  (List.range 8).foldl
    (fun acc i => if b / 2 ^ i % 2 = 1 then acc ^^^ (xtime^[i]) a else acc) 0

/-- Power `a^n` in the field. -/
def gfPow (a : Nat) : Nat → Nat
  | 0 => 1
  | n + 1 => gfMul (gfPow a n) a

/-- MixColumns on one column, given as a word (FIPS-197, 5.1.3). -/
def mixW (w : Nat) : Nat :=
  pack (xtime (byte0 w) ^^^ mul3 (byte1 w) ^^^ byte2 w ^^^ byte3 w)
       (byte0 w ^^^ xtime (byte1 w) ^^^ mul3 (byte2 w) ^^^ byte3 w)
       (byte0 w ^^^ byte1 w ^^^ xtime (byte2 w) ^^^ mul3 (byte3 w))
       (mul3 (byte0 w) ^^^ byte1 w ^^^ byte2 w ^^^ xtime (byte3 w))

/-- InvMixColumns on one column, given as a word (FIPS-197, 5.3.3). -/
def invMixW (w : Nat) : Nat :=
  pack (mul14 (byte0 w) ^^^ mul11 (byte1 w) ^^^ mul13 (byte2 w) ^^^ mul9 (byte3 w))
       (mul9 (byte0 w) ^^^ mul14 (byte1 w) ^^^ mul11 (byte2 w) ^^^ mul13 (byte3 w))
       (mul13 (byte0 w) ^^^ mul9 (byte1 w) ^^^ mul14 (byte2 w) ^^^ mul11 (byte3 w))
       (mul11 (byte0 w) ^^^ mul13 (byte1 w) ^^^ mul9 (byte2 w) ^^^ mul14 (byte3 w))

/-- The S-box applied to the four bytes of a word. -/
def subW (S : Nat → Nat) (w : Nat) : Nat :=
  pack (S (byte0 w)) (S (byte1 w)) (S (byte2 w)) (S (byte3 w))

/-- Column `t` of the MixColumns matrix times the byte `s`, as a word. -/
def colE : Nat → Nat → Nat
  | 0, s => pack (xtime s) s s (mul3 s)
  | 1, s => pack (mul3 s) (xtime s) s s
  | 2, s => pack s (mul3 s) (xtime s) s
  | _, s => pack s s (mul3 s) (xtime s)

/-- Column `t` of the InvMixColumns matrix times the byte `s`, as a word. -/
def colD : Nat → Nat → Nat
  | 0, s => pack (mul14 s) (mul9 s) (mul13 s) (mul11 s)
  | 1, s => pack (mul11 s) (mul14 s) (mul9 s) (mul13 s)
  | 2, s => pack (mul13 s) (mul11 s) (mul14 s) (mul9 s)
  | _, s => pack (mul9 s) (mul13 s) (mul11 s) (mul14 s)

end NAes

namespace NAes

/-! ## The state the claims start from -/

/-- The tables of `aes_init` are in their zones of the buffer, as `asm_wrapper`
leaves them, and the buffer reaches the data region. -/
def TablesLoaded (a : Arena) : Prop :=
  0x3000 ≤ a.size ∧
  (∀ j, j < 256 → HEAP_get a (0x200 + j) = arrGet aes_init.aes_sbox j) ∧
  (∀ j, j < 256 → HEAP_get a (0x300 + j) = arrGet aes_init.aes_sinv j) ∧
  (∀ t j, t < 4 → j < 256 →
    HEAP_get a (0x400 + 0x100 * t + j) = arr2Get aes_init.aes_enc t j) ∧
  (∀ t j, t < 4 → j < 256 →
    HEAP_get a (0x800 + 0x100 * t + j) = arr2Get aes_init.aes_dec t j)

/-- A buffer of 16384 zero bytes. -/
def zeroBuffer : Arena := { size := 0x4000, mem := fun _ => 0 }

end NAes

namespace NAes

/-! ## The loops of `set_key`, step by step -/

/-- The word `k` of the first loop of `set_key` after its two conditional
statements, from `k = ekeys[i-1]` and the current `rcon`. -/
def keyTemp (T : Tables) (ks i rcon k : Nat) : Nat :=
  let k1 := if (ks ≠ 0 ∧ i % ks = 0) ∨ (ks = 8 ∧ i % ks = 4) then subWord T k else k
  if ks ≠ 0 ∧ i % ks = 0 then shl32 k1 8 ^^^ (k1 >>> 24) ^^^ shl32 rcon 24 else k1

/-- The variable `rcon` of the first loop of `set_key` after the pass for `i`. -/
def rconNext (ks i rcon : Nat) : Nat :=
  if ks ≠ 0 ∧ i % ks = 0 then shl32 rcon 1 ^^^ (if rcon &&& 0x80 ≠ 0 then 0x1b else 0)
  else rcon

/-- The variable `rcon` after `n` passes of the first loop of `set_key` from `i`. -/
def rconAt (ks : Nat) : Nat → Nat → Nat → Nat
  | 0, _, rcon => rcon
  | n + 1, i, rcon => rconAt ks n (i + 1) (rconNext ks i rcon)

/-- The word stored into `dkeys[j+jj]` by the second loop of `set_key`, from
`k = ekeys[i-(4+j)+(4-jj)%4]`. -/
def dkeyVal (T : Tables) (i j k : Nat) : Nat :=
  if j < 4 ∨ j ≥ i - 4 then k
  else arr2Get T.aes_dec 0 (arrGet T.aes_sbox (k >>> 24))
    ^^^ arr2Get T.aes_dec 1 (arrGet T.aes_sbox (k >>> 16 &&& 255))
    ^^^ arr2Get T.aes_dec 2 (arrGet T.aes_sbox (k >>> 8 &&& 255))
    ^^^ arr2Get T.aes_dec 3 (arrGet T.aes_sbox (k &&& 255))

/-- The buffer after the statement `ekeys.set( [ k0, ..., k7 ] )`. -/
def setRawKey (a : Arena) (ks : List Nat) : Arena :=
  (ks.enum).foldl (fun h p => ekeys_set h p.1 p.2) a

end NAes

namespace NAes

/-! ## The block transform on four words -/

/-- Word-wise exclusive or of two blocks. -/
def xor4 (x y : Nat × Nat × Nat × Nat) : Nat × Nat × Nat × Nat :=
  (x.1 ^^^ y.1, x.2.1 ^^^ y.2.1, x.2.2.1 ^^^ y.2.2.1, x.2.2.2 ^^^ y.2.2.2)

/-- A function applied to each word of a block. -/
def map4 (f : Nat → Nat) (x : Nat × Nat × Nat × Nat) : Nat × Nat × Nat × Nat :=
  (f x.1, f x.2.1, f x.2.2.1, f x.2.2.2)

/-- Exchange of the words 1 and 3 of a block. -/
def swap13 (x : Nat × Nat × Nat × Nat) : Nat × Nat × Nat × Nat :=
  (x.1, x.2.2.2, x.2.2.1, x.2.1)

/-- The byte selection of `_core`: word `p` of the result is made of byte `c` of
word `p + c` (indices modulo 4), each byte sent through `S`.  With `S` the S-box
this is SubBytes followed by ShiftRows on the block as four column words. -/
def subShift (S : Nat → Nat) (x : Nat × Nat × Nat × Nat) : Nat × Nat × Nat × Nat :=
  (pack (S (byte0 x.1)) (S (byte1 x.2.1)) (S (byte2 x.2.2.1)) (S (byte3 x.2.2.2)),
   pack (S (byte0 x.2.1)) (S (byte1 x.2.2.1)) (S (byte2 x.2.2.2)) (S (byte3 x.1)),
   pack (S (byte0 x.2.2.1)) (S (byte1 x.2.2.2)) (S (byte2 x.1)) (S (byte3 x.2.1)),
   pack (S (byte0 x.2.2.2)) (S (byte1 x.1)) (S (byte2 x.2.1)) (S (byte3 x.2.2.1)))

/-- The byte selection in the other direction: word `p` of the result is made of
byte `c` of word `p - c` (InvShiftRows), each byte sent through `S`. -/
def invSubShift (S : Nat → Nat) (x : Nat × Nat × Nat × Nat) : Nat × Nat × Nat × Nat :=
  (pack (S (byte0 x.1)) (S (byte1 x.2.2.2)) (S (byte2 x.2.2.1)) (S (byte3 x.2.1)),
   pack (S (byte0 x.2.1)) (S (byte1 x.1)) (S (byte2 x.2.2.2)) (S (byte3 x.2.2.1)),
   pack (S (byte0 x.2.2.1)) (S (byte1 x.2.1)) (S (byte2 x.1)) (S (byte3 x.2.2.2)),
   pack (S (byte0 x.2.2.2)) (S (byte1 x.2.2.1)) (S (byte2 x.2.1)) (S (byte3 x.1)))

/-- The four words `K[4j], ..., K[4j+3]` of a schedule. -/
def keyGroup (K : Nat → Nat) (j : Nat) : Nat × Nat × Nat × Nat :=
  (K (4 * j), K (4 * j + 1), K (4 * j + 2), K (4 * j + 3))

/-- The rounds `j, ..., j+m-1` of `_core` on a block: byte selection through `S`,
the column transform `mix`, and the round key. -/
def roundsG (S mix : Nat → Nat) (K : Nat → Nat) :
    Nat → Nat → Nat × Nat × Nat × Nat → Nat × Nat × Nat × Nat
  | 0, _, x => x
  | m + 1, j, x => roundsG S mix K m (j + 1) (xor4 (map4 mix (subShift S x)) (keyGroup K j))

/-- The transform of `_core` with `q` inner rounds: round 0, the inner rounds, and
the final round without `mix`. -/
def coreG (S mix : Nat → Nat) (K : Nat → Nat) (q : Nat) (x : Nat × Nat × Nat × Nat) :
    Nat × Nat × Nat × Nat :=
  xor4 (subShift S (roundsG S mix K q 1 (xor4 x (keyGroup K 0)))) (keyGroup K (q + 1))

/-- Reading of the sbox table. -/
def sbox (b : Nat) : Nat := arrGet SBOX b

/-- Reading of the inverse sbox table. -/
def sinv (b : Nat) : Nat := arrGet SINV b

end NAes

namespace NAes

/-- The four words of a block are 32-bit patterns. -/
def Lt4 (x : Nat × Nat × Nat × Nat) : Prop :=
  x.1 < 4294967296 ∧ x.2.1 < 4294967296 ∧ x.2.2.1 < 4294967296 ∧ x.2.2.2 < 4294967296

/-- The block after round `j` of the encrypting transform with schedule `K`. -/
def encState (K : Nat → Nat) (x : Nat × Nat × Nat × Nat) : Nat → Nat × Nat × Nat × Nat
  | 0 => xor4 x (keyGroup K 0)
  | j + 1 => xor4 (map4 mixW (subShift sbox (encState K x j))) (keyGroup K (j + 1))

/-- The decryption schedule `Kd` is the encryption schedule `Ke` of `q` inner rounds
taken in reverse group order, words 1 and 3 exchanged, the groups `1..q` sent
through InvMixColumns. -/
def DecSchedule (Ke Kd : Nat → Nat) (q : Nat) : Prop :=
  keyGroup Kd 0 = swap13 (keyGroup Ke (q + 1)) ∧
  keyGroup Kd (q + 1) = swap13 (keyGroup Ke 0) ∧
  ∀ j, 1 ≤ j → j ≤ q → keyGroup Kd j = swap13 (map4 invMixW (keyGroup Ke (q + 1 - j)))

end NAes

namespace NAes

/-! ## The pass of `process` over the blocks -/

/-- The feedback register `T0..T3` as a block. -/
def Tof (st : Asm) : Nat × Nat × Nat × Nat := (st.T0, st.T1, st.T2, st.T3)

/-- The state register `S0..S3` as a block. -/
def Sof (st : Asm) : Nat × Nat × Nat × Nat := (st.S0, st.S1, st.S2, st.S3)

/-- The four words `process` reads at `pos`. -/
def loadBlock (a : Arena) (pos : Nat) : Nat × Nat × Nat × Nat :=
  (loadWord a pos 0, loadWord a pos 4, loadWord a pos 8, loadWord a pos 12)

/-- The sixteen bytes at `p`, as four big-endian words. -/
def blockAt (a : Arena) (p : Nat) : Nat × Nat × Nat × Nat :=
  (wordAt a p, wordAt a (p + 4), wordAt a (p + 8), wordAt a (p + 12))

/-- The `n` blocks from `p` on. -/
def blocksOf (a : Arena) : Nat → Nat → List (Nat × Nat × Nat × Nat)
  | _, 0 => []
  | p, n + 1 => blockAt a p :: blocksOf a (p + 16) n

/-- The counter step of `_ctr`: `T3 = (T3 + 1)|0; if ( (T3|0) == 0 ) T2 = (T2 + 1)|0`. -/
def ctrInc (T : Nat × Nat × Nat × Nat) : Nat × Nat × Nat × Nat :=
  (T.1, T.2.1, if add32 T.2.2.2 1 = 0 then add32 T.2.2.1 1 else T.2.2.1, add32 T.2.2.2 1)

/-- What a mode driver does with the feedback register `T` and the block `X`, given
the block transforms `E` and `D`: the block written and the new `T`. -/
def modeFn (m : Nat) (E D : Nat × Nat × Nat × Nat → Nat × Nat × Nat × Nat)
    (T X : Nat × Nat × Nat × Nat) : (Nat × Nat × Nat × Nat) × (Nat × Nat × Nat × Nat) :=
  match m with
  | 0 => (E X, T)
  | 1 => (D X, T)
  | 2 => (E (xor4 T X), E (xor4 T X))
  | 3 => (xor4 (D X) T, X)
  | 4 => (xor4 (E T) X, xor4 (E T) X)
  | 5 => (xor4 (E T) X, X)
  | 6 => (xor4 (E T) X, E T)
  | _ => (xor4 (E T) X, ctrInc T)

/-- The blocks written and the final feedback register of a pass over a list of blocks. -/
def runBlocks (m : Nat) (E D : Nat × Nat × Nat × Nat → Nat × Nat × Nat × Nat) :
    Nat × Nat × Nat × Nat → List (Nat × Nat × Nat × Nat) →
      List (Nat × Nat × Nat × Nat) × (Nat × Nat × Nat × Nat)
  | T, [] => ([], T)
  | T, X :: Xs =>
    ((modeFn m E D T X).1 :: (runBlocks m E D (modeFn m E D T X).2 Xs).1,
     (runBlocks m E D (modeFn m E D T X).2 Xs).2)

/-- Two buffers of the same size that agree below the data region. -/
def LowEq (a b : Arena) : Prop := a.size = b.size ∧ ∀ q, q < 0x3000 → a.mem q = b.mem q

/-- The encrypting block transform of the drivers over the buffer `a`. -/
def encFn (a : Arena) (r : Nat) (x : Nat × Nat × Nat × Nat) : Nat × Nat × Nat × Nat :=
  encOut a r x.1 x.2.1 x.2.2.1 x.2.2.2

/-- The decrypting block transform of the drivers over the buffer `a`. -/
def decFn (a : Arena) (r : Nat) (x : Nat × Nat × Nat × Nat) : Nat × Nat × Nat × Nat :=
  decOut a r x.1 x.2.1 x.2.2.1 x.2.2.2

/-- The state after one pass of the loop body of `process`: the block `S` is stored
at `p` and left in `S0..S3`, and `T` is the new feedback register. -/
def withBlock (st : Asm) (p : Nat) (S T : Nat × Nat × Nat × Nat) : Asm :=
  { heap := storeState
      { heap := st.heap, S0 := S.1, S1 := S.2.1, S2 := S.2.2.1, S3 := S.2.2.2,
        T0 := T.1, T1 := T.2.1, T2 := T.2.2.1, T3 := T.2.2.2 } p,
    S0 := S.1, S1 := S.2.1, S2 := S.2.2.1, S3 := S.2.2.2,
    T0 := T.1, T1 := T.2.1, T2 := T.2.2.1, T3 := T.2.2.2 }

end NAes

namespace NAes

/-! ## The block transforms under the key in the buffer -/

/-- The encrypting block transform with `q` inner rounds under the encryption schedule
of the buffer `a`, the S-box and MixColumns. -/
def encKey (a : Arena) (q : Nat) (x : Nat × Nat × Nat × Nat) : Nat × Nat × Nat × Nat :=
  coreG sbox mixW (fun w => HEAP_get a w) q (map4 u32 x)

/-- The decrypting block transform with `q` inner rounds under the decryption schedule
of the buffer `a`, the inverse S-box and InvMixColumns. -/
def decKey (a : Arena) (q : Nat) (x : Nat × Nat × Nat × Nat) : Nat × Nat × Nat × Nat :=
  swap13 (coreG sinv invMixW (fun w => HEAP_get a (256 + w)) q (swap13 (map4 u32 x)))

/-- The module state `asm_wrapper` makes over a zero buffer of 16384 bytes. -/
def initState : Asm :=
  (asm_wrapper zeroBuffer).getD
    { heap := zeroBuffer, S0 := 0, S1 := 0, S2 := 0, S3 := 0, T0 := 0, T1 := 0, T2 := 0, T3 := 0 }

end NAes

namespace NAes

/-- Rotation of a 32-bit word to the right by `n` bits, `0 < n < 32`. -/
def rotr32 (w n : Nat) : Nat := w / 2 ^ n + w % 2 ^ n * 2 ^ (32 - n)

end NAes

namespace NAes

/-! ## The key expansion, in the words of FIPS-197 -/

/-- RotWord: rotation of a word to the left by 8 bits. -/
def rotWord (w : Nat) : Nat := pack (byte1 w) (byte2 w) (byte3 w) (byte0 w)

/-- The round constant of the `j`-th firing, `j >= 1`: the byte obtained from 1 by
`j - 1` doublings in GF(2^8). -/
def rconByte (j : Nat) : Nat := (xtime^[j - 1]) 1

/-- The transform `g_i` of the word `e[i-1]` in the key expansion with `ks` key words:
SubWord, RotWord and the round constant in the most significant byte when `i` is a
multiple of `ks`; SubWord alone when `ks = 8` and `i mod 8 = 4`; the identity otherwise.
`S` is the S-box. -/
def schedG (S : Nat → Nat) (ks i w : Nat) : Nat :=
  if i % ks = 0 then rotWord (subW S w) ^^^ (rconByte (i / ks) * 16777216)
  else if ks = 8 ∧ i % 8 = 4 then subW S w
  else w

/-- A module state over the zero buffer, all registers zero (no table loaded). -/
def zeroState : Asm :=
  { heap := zeroBuffer, S0 := 0, S1 := 0, S2 := 0, S3 := 0, T0 := 0, T1 := 0, T2 := 0, T3 := 0 }

end NAes

namespace NAes

/-- A module state over a buffer of 16384 bytes, all zero but the byte at 0x3000,
which is 1; all registers zero. -/
def oneByteState : Asm :=
  { heap := { size := 0x4000, mem := fun q => if q = 0x3000 then 1 else 0 },
    S0 := 0, S1 := 0, S2 := 0, S3 := 0, T0 := 0, T1 := 0, T2 := 0, T3 := 0 }

end NAes

namespace NAes

/-! ## AES encryption as in FIPS-197, written from the standard

The state is four column words; byte 0 (most significant) of a word is row 0. -/

end NAes

namespace NAes

end NAes

namespace NAes

/-! ## The reads of `_core`

Every `HEAP[e>>2]` of `_core` with the byte address `e` it is made at, in program
order, tagged by what the source reads there. -/

end NAes

namespace NAes

/-! ## Bit-level facts -/

theorem and_255 (x : Nat) : x &&& 255 = x % 256 :=
  Nat.and_pow_two_sub_one_eq_mod x 8

theorem and_15 (x : Nat) : x &&& 15 = x % 16 :=
  Nat.and_pow_two_sub_one_eq_mod x 4

theorem and_7 (x : Nat) : x &&& 7 = x % 8 :=
  Nat.and_pow_two_sub_one_eq_mod x 3

theorem and_128 (x : Nat) : x &&& 128 = x / 128 % 2 * 128 := by
  apply Nat.eq_of_testBit_eq
  intro i
  have h1 : (128 : Nat) = 2 ^ 7 := by norm_num
  have h2 : x / 128 % 2 * 128 = 2 ^ 7 * (x / 2 ^ 7 % 2 ^ 1) := by norm_num; omega
  rw [h2, Nat.testBit_and, Nat.testBit_mul_pow_two, Nat.testBit_mod_two_pow, h1,
    Nat.testBit_two_pow, ← Nat.shiftRight_eq_div_pow, Nat.testBit_shiftRight]
  by_cases h : 7 = i
  · subst h; simp
  · have : ¬ (i - 7 < 1 ∧ i ≥ 7) := by omega
    by_cases h7 : i ≥ 7 <;> by_cases h8 : i - 7 < 1 <;> simp [h, h7, h8]
    omega

theorem and_1020 (y : Nat) : y &&& 1020 = y / 4 % 256 * 4 := by
  apply Nat.eq_of_testBit_eq
  intro i
  have h1 : (1020 : Nat) = (2 ^ 8 - 1) <<< 2 := by decide
  have h2 : y / 4 % 256 * 4 = ((y >>> 2) % 2 ^ 8) <<< 2 := by
    rw [Nat.shiftLeft_eq, Nat.shiftRight_eq_div_pow]; norm_num
  rw [h1, h2]
  simp only [Nat.testBit_and, Nat.testBit_shiftLeft, Nat.testBit_two_pow_sub_one,
    Nat.testBit_mod_two_pow, Nat.testBit_shiftRight]
  by_cases h : i ≥ 2
  · have : 2 + (i - 2) = i := by omega
    simp [h, this, Bool.and_comm]
  · simp [h]

theorem or_eq_add (n a b : Nat) (ha : a % 2 ^ n = 0) (hb : b < 2 ^ n) : a ||| b = a + b := by
  have h := Nat.mul_add_lt_is_or hb (a / 2 ^ n)
  have e : 2 ^ n * (a / 2 ^ n) = a := by
    have := Nat.div_add_mod a (2 ^ n)
    omega
  rw [e] at h
  exact h.symm

theorem xor_eq_add (n a b : Nat) (ha : a % 2 ^ n = 0) (hb : b < 2 ^ n) : a ^^^ b = a + b := by
  have e : 2 ^ n * (a / 2 ^ n) = a := by
    have := Nat.div_add_mod a (2 ^ n)
    omega
  apply Nat.eq_of_testBit_eq
  intro j
  rw [← e, Nat.testBit_mul_pow_two_add _ hb, Nat.testBit_xor, Nat.testBit_mul_pow_two]
  by_cases h : j < n
  · have : ¬ j ≥ n := by omega
    simp [h, this]
  · have h' : j ≥ n := by omega
    have : b.testBit j = false :=
      Nat.testBit_lt_two_pow (Nat.lt_of_lt_of_le hb (Nat.pow_le_pow_right (by norm_num) h'))
    simp [h, h', this]

theorem xor_shiftRight (a b n : Nat) : (a ^^^ b) >>> n = (a >>> n) ^^^ (b >>> n) := by
  apply Nat.eq_of_testBit_eq
  intro j
  simp

theorem xor_div_pow (a b n : Nat) : (a ^^^ b) / 2 ^ n = (a / 2 ^ n) ^^^ (b / 2 ^ n) := by
  simpa [Nat.shiftRight_eq_div_pow] using xor_shiftRight a b n

theorem xor_mod_pow (a b n : Nat) : (a ^^^ b) % 2 ^ n = (a % 2 ^ n) ^^^ (b % 2 ^ n) := by
  apply Nat.eq_of_testBit_eq
  intro j
  simp only [Nat.testBit_mod_two_pow, Nat.testBit_xor]
  by_cases h : j < n <;> simp [h]

theorem xor_lt_256 {a b : Nat} (ha : a < 256) (hb : b < 256) : a ^^^ b < 256 :=
  Nat.xor_lt_two_pow (n := 8) ha hb

theorem xor_lt_u32 {a b : Nat} (ha : a < 4294967296) (hb : b < 4294967296) :
    a ^^^ b < 4294967296 :=
  Nat.xor_lt_two_pow (n := 32) ha hb

theorem byte0_xor (a b : Nat) : byte0 (a ^^^ b) = byte0 a ^^^ byte0 b := by
  unfold byte0
  have := xor_div_pow a b 24
  have h2 := xor_mod_pow (a / 2 ^ 24) (b / 2 ^ 24) 8
  norm_num at this h2
  rw [this, h2]

theorem byte1_xor (a b : Nat) : byte1 (a ^^^ b) = byte1 a ^^^ byte1 b := by
  unfold byte1
  have := xor_div_pow a b 16
  have h2 := xor_mod_pow (a / 2 ^ 16) (b / 2 ^ 16) 8
  norm_num at this h2
  rw [this, h2]

theorem byte2_xor (a b : Nat) : byte2 (a ^^^ b) = byte2 a ^^^ byte2 b := by
  unfold byte2
  have := xor_div_pow a b 8
  have h2 := xor_mod_pow (a / 2 ^ 8) (b / 2 ^ 8) 8
  norm_num at this h2
  rw [this, h2]

theorem byte3_xor (a b : Nat) : byte3 (a ^^^ b) = byte3 a ^^^ byte3 b := by
  unfold byte3
  have h2 := xor_mod_pow a b 8
  norm_num at h2
  rw [h2]

theorem byte0_lt (w : Nat) : byte0 w < 256 := Nat.mod_lt _ (by norm_num)
theorem byte1_lt (w : Nat) : byte1 w < 256 := Nat.mod_lt _ (by norm_num)
theorem byte2_lt (w : Nat) : byte2 w < 256 := Nat.mod_lt _ (by norm_num)
theorem byte3_lt (w : Nat) : byte3 w < 256 := Nat.mod_lt _ (by norm_num)

theorem pack_lt {a b c d : Nat} (ha : a < 256) (hb : b < 256) (hc : c < 256) (hd : d < 256) :
    pack a b c d < 4294967296 := by
  unfold pack; omega

theorem byte0_pack {a b c d : Nat} (ha : a < 256) (hb : b < 256) (hc : c < 256) (hd : d < 256) :
    byte0 (pack a b c d) = a := by
  unfold pack byte0; omega

theorem byte1_pack {a b c d : Nat} (hb : b < 256) (hc : c < 256) (hd : d < 256) :
    byte1 (pack a b c d) = b := by
  unfold pack byte1; omega

theorem byte2_pack {a b c d : Nat} (hc : c < 256) (hd : d < 256) :
    byte2 (pack a b c d) = c := by
  unfold pack byte2; omega

theorem byte3_pack {a b c d : Nat} (hd : d < 256) :
    byte3 (pack a b c d) = d := by
  unfold pack byte3; omega

theorem pack_bytes {w : Nat} (hw : w < 4294967296) :
    pack (byte0 w) (byte1 w) (byte2 w) (byte3 w) = w := by
  unfold pack byte0 byte1 byte2 byte3; omega

/-- Two words with the same four bytes are equal. -/
theorem word_ext {u v : Nat} (hu : u < 4294967296) (hv : v < 4294967296)
    (h0 : byte0 u = byte0 v) (h1 : byte1 u = byte1 v) (h2 : byte2 u = byte2 v)
    (h3 : byte3 u = byte3 v) : u = v := by
  unfold byte0 byte1 byte2 byte3 at *; omega

theorem pack_xor {a b c d a' b' c' d' : Nat} (ha : a < 256) (hb : b < 256) (hc : c < 256)
    (hd : d < 256) (ha' : a' < 256) (hb' : b' < 256) (hc' : c' < 256) (hd' : d' < 256) :
    pack a b c d ^^^ pack a' b' c' d' = pack (a ^^^ a') (b ^^^ b') (c ^^^ c') (d ^^^ d') := by
  have x0 := xor_lt_256 ha ha'
  have x1 := xor_lt_256 hb hb'
  have x2 := xor_lt_256 hc hc'
  have x3 := xor_lt_256 hd hd'
  apply word_ext (xor_lt_u32 (pack_lt ha hb hc hd) (pack_lt ha' hb' hc' hd'))
    (pack_lt x0 x1 x2 x3)
  · rw [byte0_xor, byte0_pack ha hb hc hd, byte0_pack ha' hb' hc' hd', byte0_pack x0 x1 x2 x3]
  · rw [byte1_xor, byte1_pack hb hc hd, byte1_pack hb' hc' hd', byte1_pack x1 x2 x3]
  · rw [byte2_xor, byte2_pack hc hd, byte2_pack hc' hd', byte2_pack x2 x3]
  · rw [byte3_xor, byte3_pack hd, byte3_pack hd', byte3_pack x3]

/-! ### The shifts of the source -/

theorem shl32_eq (x n : Nat) : shl32 x n = x * 2 ^ n % 4294967296 := by
  unfold shl32; rw [Nat.shiftLeft_eq]

theorem shl32_lt (x n : Nat) : shl32 x n < 4294967296 := Nat.mod_lt _ (by norm_num)

theorem sar32_and_1020 (x n : Nat) (hn : n = 22 ∨ n = 14 ∨ n = 6) :
    sar32 x n &&& 1020 = x / 2 ^ n / 4 % 256 * 4 := by
  unfold sar32
  split
  · rw [and_1020, Nat.shiftRight_eq_div_pow]
  · rw [Nat.and_distrib_right, and_1020, Nat.shiftRight_eq_div_pow]
    have : (4294967295 >>> (32 - n)) <<< (32 - n) &&& 1020 = 0 := by
      rcases hn with h | h | h <;> subst h <;> decide
    rw [this, Nat.or_zero]

theorem sar32_22 (x : Nat) : sar32 x 22 &&& 1020 = 4 * byte0 x := by
  rw [sar32_and_1020 x 22 (Or.inl rfl)]; unfold byte0; omega

theorem sar32_14 (x : Nat) : sar32 x 14 &&& 1020 = 4 * byte1 x := by
  rw [sar32_and_1020 x 14 (Or.inr (Or.inl rfl))]; unfold byte1; omega

theorem sar32_6 (x : Nat) : sar32 x 6 &&& 1020 = 4 * byte2 x := by
  rw [sar32_and_1020 x 6 (Or.inr (Or.inr rfl))]; unfold byte2; omega

theorem shl32_2 (x : Nat) : shl32 x 2 &&& 1020 = 4 * byte3 x := by
  rw [and_1020, shl32_eq]; unfold byte3; omega

theorem or_small (p k : Nat) (hp : p % 16 = 0) (hk : k < 16) : p ||| k = p + k :=
  or_eq_add 4 p k hp hk

theorem sar32_2 (e : Nat) (he : e < 2147483648) : sar32 e 2 = e / 4 := by
  unfold sar32; rw [if_pos he, Nat.shiftRight_eq_div_pow]

end NAes

namespace NAes

/-! ## The buffer: reads after writes -/

theorem DATA_get_lt (a : Arena) (p : Nat) : DATA_get a p < 256 := by
  unfold DATA_get; split
  · exact Nat.mod_lt _ (by norm_num)
  · norm_num

theorem HEAP_get_lt (a : Arena) (i : Nat) : HEAP_get a i < 4294967296 := by
  unfold HEAP_get; split
  · omega
  · norm_num

theorem HEAPat_lt (a : Arena) (e : Nat) : HEAPat a e < 4294967296 := by
  unfold HEAPat; split
  · exact HEAP_get_lt _ _
  · norm_num

theorem HEAP_set_size (a : Arena) (i v : Nat) : (HEAP_set a i v).size = a.size := by
  unfold HEAP_set; split <;> rfl

theorem DATA_set_size (a : Arena) (p v : Nat) : (DATA_set a p v).size = a.size := by
  unfold DATA_set; split <;> rfl

theorem HEAP_set_mem (a : Arena) (i v q : Nat) (hq : q / 4 ≠ i) :
    (HEAP_set a i v).mem q = a.mem q := by
  unfold HEAP_set; split
  · simp only
    rw [if_neg (by omega), if_neg (by omega), if_neg (by omega), if_neg (by omega)]
  · rfl

theorem HEAP_get_set_same (a : Arena) (i v : Nat) (hi : i < a.size / 4) :
    HEAP_get (HEAP_set a i v) i = v % 4294967296 := by
  unfold HEAP_get
  rw [HEAP_set_size, if_pos hi]
  unfold HEAP_set
  rw [if_pos hi]
  simp only
  rw [if_pos trivial, if_neg (by omega), if_pos trivial, if_neg (by omega), if_neg (by omega),
    if_pos trivial, if_neg (by omega), if_neg (by omega), if_neg (by omega), if_pos trivial]
  omega

theorem HEAP_get_set_other (a : Arena) (i v j : Nat) (h : j ≠ i) :
    HEAP_get (HEAP_set a i v) j = HEAP_get a j := by
  unfold HEAP_get
  rw [HEAP_set_size, HEAP_set_mem _ _ _ _ (by omega), HEAP_set_mem _ _ _ _ (by omega),
    HEAP_set_mem _ _ _ _ (by omega), HEAP_set_mem _ _ _ _ (by omega)]

theorem DATA_get_HEAP_set (a : Arena) (i v q : Nat) (hq : q / 4 ≠ i) :
    DATA_get (HEAP_set a i v) q = DATA_get a q := by
  unfold DATA_get
  rw [HEAP_set_size, HEAP_set_mem _ _ _ _ hq]

theorem DATA_set_mem (a : Arena) (p v q : Nat) (hq : q ≠ p) :
    (DATA_set a p v).mem q = a.mem q := by
  unfold DATA_set; split
  · simp only; rw [if_neg hq]
  · rfl

theorem DATA_set_mem_same (a : Arena) (p v : Nat) (h1 : p < 2147483648) (h2 : p < a.size) :
    (DATA_set a p v).mem p = v % 256 := by
  unfold DATA_set; rw [if_pos ⟨h1, h2⟩]; simp

theorem or_k (p k : Nat) (hp : p &&& 15 = 0) (hk : k < 16) : p ||| k = p + k := by
  rw [and_15] at hp
  exact or_small p k hp hk

theorem writeBytes_size (bs : List Nat) (a : Arena) (p : Nat) :
    (writeBytes a p bs).size = a.size := by
  induction bs generalizing a p with
  | nil => rfl
  | cons b bs ih => simp only [writeBytes]; rw [ih, DATA_set_size]

theorem writeBytes_mem (bs : List Nat) (a : Arena) (p q : Nat)
    (h1 : p + bs.length ≤ 2147483648) (h2 : p + bs.length ≤ a.size) :
    (writeBytes a p bs).mem q =
      if p ≤ q ∧ q < p + bs.length then (bs.map (· % 256)).getD (q - p) 0 else a.mem q := by
  induction bs generalizing a p with
  | nil =>
    simp only [writeBytes, List.length_nil, Nat.add_zero]
    rw [if_neg (by omega)]
  | cons b bs ih =>
    simp only [writeBytes, List.length_cons] at *
    rw [ih _ _ (by omega) (by rw [DATA_set_size]; omega)]
    by_cases hq : q = p
    · subst hq
      rw [if_neg (by omega), if_pos (by omega), DATA_set_mem_same _ _ _ (by omega) (by omega)]
      simp
    · rw [DATA_set_mem _ _ _ _ hq]
      by_cases hr : p + 1 ≤ q ∧ q < p + 1 + bs.length
      · rw [if_pos hr, if_pos (by omega)]
        obtain ⟨k, rfl⟩ : ∃ k, q = p + 1 + k := ⟨q - (p + 1), by omega⟩
        have e1 : p + 1 + k - (p + 1) = k := by omega
        have e2 : p + 1 + k - p = k + 1 := by omega
        rw [e1, e2]
        simp
      · rw [if_neg hr, if_neg (by omega)]

theorem storeState_eq (st : Asm) (p : Nat) (hp : p % 16 = 0) :
    storeState st p = writeBytes st.heap p
      [st.S0 >>> 24, st.S0 >>> 16 &&& 255, st.S0 >>> 8 &&& 255, st.S0 &&& 255,
       st.S1 >>> 24, st.S1 >>> 16 &&& 255, st.S1 >>> 8 &&& 255, st.S1 &&& 255,
       st.S2 >>> 24, st.S2 >>> 16 &&& 255, st.S2 >>> 8 &&& 255, st.S2 &&& 255,
       st.S3 >>> 24, st.S3 >>> 16 &&& 255, st.S3 >>> 8 &&& 255, st.S3 &&& 255] := by
  unfold storeState
  simp only [or_small p _ hp (by norm_num : (0:Nat) < 16), or_small p 1 hp (by norm_num),
    or_small p 2 hp (by norm_num), or_small p 3 hp (by norm_num), or_small p 4 hp (by norm_num),
    or_small p 5 hp (by norm_num), or_small p 6 hp (by norm_num), or_small p 7 hp (by norm_num),
    or_small p 8 hp (by norm_num), or_small p 9 hp (by norm_num), or_small p 10 hp (by norm_num),
    or_small p 11 hp (by norm_num), or_small p 12 hp (by norm_num),
    or_small p 13 hp (by norm_num), or_small p 14 hp (by norm_num),
    or_small p 15 hp (by norm_num), writeBytes, Nat.add_assoc, Nat.add_zero]

theorem regBytes_eq (st : Asm) :
    ([st.S0 >>> 24, st.S0 >>> 16 &&& 255, st.S0 >>> 8 &&& 255, st.S0 &&& 255,
       st.S1 >>> 24, st.S1 >>> 16 &&& 255, st.S1 >>> 8 &&& 255, st.S1 &&& 255,
       st.S2 >>> 24, st.S2 >>> 16 &&& 255, st.S2 >>> 8 &&& 255, st.S2 &&& 255,
       st.S3 >>> 24, st.S3 >>> 16 &&& 255, st.S3 >>> 8 &&& 255, st.S3 &&& 255].map (· % 256))
      = regBytes st := by
  simp only [List.map, regBytes, byte0, byte1, byte2, byte3, Nat.shiftRight_eq_div_pow, and_255,
    Nat.mod_mod]

/-- What the sixteen stores of `storeState` leave in the buffer. -/
theorem storeState_mem (st : Asm) (p q : Nat) (hp : p % 16 = 0) (h1 : p + 16 ≤ 2147483648)
    (h2 : p + 16 ≤ st.heap.size) :
    (storeState st p).mem q =
      if p ≤ q ∧ q < p + 16 then (regBytes st).getD (q - p) 0 else st.heap.mem q := by
  rw [storeState_eq st p hp, writeBytes_mem _ _ _ _ (by simpa using h1) (by simpa using h2),
    regBytes_eq]
  rfl

theorem storeState_size (st : Asm) (p : Nat) : (storeState st p).size = st.heap.size := by
  unfold storeState
  simp only [DATA_set_size]

end NAes

namespace NAes

/-! ## 32-bit coercions -/

theorem u32_lt (x : Nat) : u32 x < 4294967296 := Nat.mod_lt _ (by norm_num)

theorem u32_of_lt {x : Nat} (h : x < 4294967296) : u32 x = x := Nat.mod_eq_of_lt h

theorem u32_u32 (x : Nat) : u32 (u32 x) = u32 x := u32_of_lt (u32_lt x)

theorem i32_lt (x : Int) : i32 x < 4294967296 := by unfold i32; omega

theorem i32_ofNat {n : Nat} (h : n < 4294967296) : i32 (n : Int) = n := by unfold i32; omega

theorem i32_mod16 (x : Int) : ((i32 x % 16 : Nat) : Int) = x % 16 := by unfold i32; omega

theorem toSigned_of_lt {x : Nat} (h : x < 2147483648) : toSigned x = x := by
  unfold toSigned; rw [if_pos h]

theorem toSigned_of_ge {x : Nat} (h : ¬ x < 2147483648) : toSigned x = (x : Int) - 4294967296 := by
  unfold toSigned; rw [if_neg h]

theorem shl32_4_mod (r : Nat) : shl32 r 4 % 16 = 0 := by
  rw [shl32_eq]; omega

/-! ## The loop of `_core` -/

theorem coreLoop_run (a : Arena) (k t r : Nat) (hR : shl32 r 4 < 2147483632) :
    ∀ (m fuel i : Nat) (x : Nat × Nat × Nat × Nat), i % 16 = 0 → i + 16 * m = shl32 r 4 + 16 →
      m < fuel →
      coreLoop a k t r fuel i x.1 x.2.1 x.2.2.1 x.2.2.2
        = some (shl32 r 4 + 16, coreIter a k t m i x) := by
  have hmod := shl32_4_mod r
  intro m
  induction m with
  | zero =>
    intro fuel i x _ hi hf
    obtain ⟨f, rfl⟩ : ∃ f, fuel = f + 1 := ⟨fuel - 1, by omega⟩
    unfold coreLoop
    rw [toSigned_of_lt (by omega : i < 2147483648), toSigned_of_lt (by omega), if_neg (by omega)]
    simp only [coreIter]
    rw [show i = shl32 r 4 + 16 by omega]
  | succ m ih =>
    intro fuel i x h16 hi hf
    obtain ⟨f, rfl⟩ : ∃ f, fuel = f + 1 := ⟨fuel - 1, by omega⟩
    unfold coreLoop
    rw [toSigned_of_lt (by omega : i < 2147483648), toSigned_of_lt (by omega), if_pos (by omega)]
    simp only [coreIter]
    have e : add32 i 16 = i + 16 := by unfold add32; omega
    rw [e]
    exact ih f (i + 16) (coreRound a k t i x.1 x.2.1 x.2.2.1 x.2.2.2) (by omega) (by omega)
      (by omega)

theorem coreLoop_eq (a : Arena) (k t r : Nat) (x : Nat × Nat × Nat × Nat)
    (hR : shl32 r 4 ≠ 2147483632) :
    coreLoop a k t r loopFuel 16 x.1 x.2.1 x.2.2.1 x.2.2.2
      = some (16 * (innerRounds r + 1), coreIter a k t (innerRounds r) 16 x) := by
  have hmod := shl32_4_mod r
  have hlt := shl32_lt r 4
  unfold innerRounds
  by_cases hneg : shl32 r 4 < 2147483648
  · rw [if_pos hneg]
    have h := coreLoop_run a k t r (by omega) (shl32 r 4 / 16) loopFuel 16 x (by norm_num)
      (by omega) (by unfold loopFuel; omega)
    rw [h]
    congr 2
    omega
  · rw [if_neg hneg]
    unfold loopFuel coreLoop
    rw [toSigned_of_lt (by norm_num : 16 < 2147483648), toSigned_of_ge hneg, if_neg (by omega)]
    rfl

/-- When its loop ends, `_core` changes `S0..S3` only, to the words `coreOut`. -/
theorem _core_eq (st : Asm) (k s t r x0 x1 x2 x3 : Nat) (hr : CoreEnds r) :
    _core st k s t r x0 x1 x2 x3 = some { st with
      S0 := (coreOut st.heap k s t r x0 x1 x2 x3).1
      S1 := (coreOut st.heap k s t r x0 x1 x2 x3).2.1
      S2 := (coreOut st.heap k s t r x0 x1 x2 x3).2.2.1
      S3 := (coreOut st.heap k s t r x0 x1 x2 x3).2.2.2 } := by
  unfold _core
  simp only
  have h := coreLoop_eq st.heap (u32 k) (u32 t) (u32 r)
    (u32 x0 ^^^ HEAPat st.heap (u32 k ||| 0), u32 x1 ^^^ HEAPat st.heap (u32 k ||| 4),
       u32 x2 ^^^ HEAPat st.heap (u32 k ||| 8), u32 x3 ^^^ HEAPat st.heap (u32 k ||| 12)) hr
  simp only at h
  rw [h]
  rfl

theorem CoreEnds_u32 (r : Nat) : CoreEnds (u32 r) ↔ CoreEnds r := by
  unfold CoreEnds; rw [u32_u32]

theorem coreOut_u32_r (a : Arena) (k s t r x0 x1 x2 x3 : Nat) :
    coreOut a k s t (u32 r) x0 x1 x2 x3 = coreOut a k s t r x0 x1 x2 x3 := by
  unfold coreOut; rw [u32_u32]

end NAes

namespace NAes

/-! ## The mode drivers, when the loop of `_core` ends -/

theorem coreOut_u32_x (a : Arena) (k s t r x0 x1 x2 x3 : Nat) :
    coreOut a k s t r (u32 x0) (u32 x1) (u32 x2) (u32 x3) = coreOut a k s t r x0 x1 x2 x3 := by
  unfold coreOut; simp only [u32_u32]

theorem encOut_u32 (a : Arena) (r x0 x1 x2 x3 : Nat) :
    encOut a (u32 r) (u32 x0) (u32 x1) (u32 x2) (u32 x3) = encOut a r x0 x1 x2 x3 := by
  unfold encOut; rw [coreOut_u32_r, coreOut_u32_x]

theorem _ecb_enc_eq (st : Asm) (r x0 x1 x2 x3 : Nat) (hr : CoreEnds r) :
    _ecb_enc st r x0 x1 x2 x3 = some { st with
      S0 := (encOut st.heap r x0 x1 x2 x3).1, S1 := (encOut st.heap r x0 x1 x2 x3).2.1
      S2 := (encOut st.heap r x0 x1 x2 x3).2.2.1, S3 := (encOut st.heap r x0 x1 x2 x3).2.2.2 } := by
  unfold _ecb_enc
  rw [_core_eq _ _ _ _ _ _ _ _ _ ((CoreEnds_u32 r).2 hr), ← encOut_u32]
  rfl

theorem _ecb_dec_eq (st : Asm) (r x0 x1 x2 x3 : Nat) (hr : CoreEnds r) :
    _ecb_dec st r x0 x1 x2 x3 = some { st with
      S0 := (decOut st.heap r x0 x1 x2 x3).1, S1 := (decOut st.heap r x0 x1 x2 x3).2.1
      S2 := (decOut st.heap r x0 x1 x2 x3).2.2.1, S3 := (decOut st.heap r x0 x1 x2 x3).2.2.2 } := by
  unfold _ecb_dec
  rw [_core_eq _ _ _ _ _ _ _ _ _ ((CoreEnds_u32 r).2 hr), coreOut_u32_r, coreOut_u32_x]
  rfl

theorem _cbc_enc_eq (st : Asm) (r x0 x1 x2 x3 : Nat) (hr : CoreEnds r) :
    _cbc_enc st r x0 x1 x2 x3 =
      let o := encOut st.heap r (st.T0 ^^^ u32 x0) (st.T1 ^^^ u32 x1) (st.T2 ^^^ u32 x2)
        (st.T3 ^^^ u32 x3)
      some { st with S0 := o.1, S1 := o.2.1, S2 := o.2.2.1, S3 := o.2.2.2,
                     T0 := o.1, T1 := o.2.1, T2 := o.2.2.1, T3 := o.2.2.2 } := by
  unfold _cbc_enc
  rw [_core_eq _ _ _ _ _ _ _ _ _ ((CoreEnds_u32 r).2 hr), coreOut_u32_r]
  rfl

theorem _cbc_dec_eq (st : Asm) (r x0 x1 x2 x3 : Nat) (hr : CoreEnds r) :
    _cbc_dec st r x0 x1 x2 x3 =
      let o := decOut st.heap r x0 x1 x2 x3
      some { st with S0 := o.1 ^^^ st.T0, S1 := o.2.1 ^^^ st.T1, S2 := o.2.2.1 ^^^ st.T2,
                     S3 := o.2.2.2 ^^^ st.T3,
                     T0 := u32 x0, T1 := u32 x1, T2 := u32 x2, T3 := u32 x3 } := by
  unfold _cbc_dec
  rw [_core_eq _ _ _ _ _ _ _ _ _ ((CoreEnds_u32 r).2 hr), coreOut_u32_r, coreOut_u32_x]
  rfl

theorem _cfb_enc_eq (st : Asm) (r x0 x1 x2 x3 : Nat) (hr : CoreEnds r) :
    _cfb_enc st r x0 x1 x2 x3 =
      let o := encOut st.heap r st.T0 st.T1 st.T2 st.T3
      some { st with S0 := o.1 ^^^ u32 x0, S1 := o.2.1 ^^^ u32 x1, S2 := o.2.2.1 ^^^ u32 x2,
                     S3 := o.2.2.2 ^^^ u32 x3,
                     T0 := o.1 ^^^ u32 x0, T1 := o.2.1 ^^^ u32 x1, T2 := o.2.2.1 ^^^ u32 x2,
                     T3 := o.2.2.2 ^^^ u32 x3 } := by
  unfold _cfb_enc
  rw [_core_eq _ _ _ _ _ _ _ _ _ ((CoreEnds_u32 r).2 hr), coreOut_u32_r]
  rfl

theorem _cfb_dec_eq (st : Asm) (r x0 x1 x2 x3 : Nat) (hr : CoreEnds r) :
    _cfb_dec st r x0 x1 x2 x3 =
      let o := encOut st.heap r st.T0 st.T1 st.T2 st.T3
      some { st with S0 := o.1 ^^^ u32 x0, S1 := o.2.1 ^^^ u32 x1, S2 := o.2.2.1 ^^^ u32 x2,
                     S3 := o.2.2.2 ^^^ u32 x3,
                     T0 := u32 x0, T1 := u32 x1, T2 := u32 x2, T3 := u32 x3 } := by
  unfold _cfb_dec
  rw [_core_eq _ _ _ _ _ _ _ _ _ ((CoreEnds_u32 r).2 hr), coreOut_u32_r]
  rfl

theorem _ofb_eq (st : Asm) (r x0 x1 x2 x3 : Nat) (hr : CoreEnds r) :
    _ofb st r x0 x1 x2 x3 =
      let o := encOut st.heap r st.T0 st.T1 st.T2 st.T3
      some { st with S0 := o.1 ^^^ u32 x0, S1 := o.2.1 ^^^ u32 x1, S2 := o.2.2.1 ^^^ u32 x2,
                     S3 := o.2.2.2 ^^^ u32 x3,
                     T0 := o.1, T1 := o.2.1, T2 := o.2.2.1, T3 := o.2.2.2 } := by
  unfold _ofb
  rw [_core_eq _ _ _ _ _ _ _ _ _ ((CoreEnds_u32 r).2 hr), coreOut_u32_r]
  rfl

theorem _ctr_eq (st : Asm) (r x0 x1 x2 x3 : Nat) (hr : CoreEnds r) :
    _ctr st r x0 x1 x2 x3 =
      let o := encOut st.heap r st.T0 st.T1 st.T2 st.T3
      some { st with S0 := o.1 ^^^ u32 x0, S1 := o.2.1 ^^^ u32 x1, S2 := o.2.2.1 ^^^ u32 x2,
                     S3 := o.2.2.2 ^^^ u32 x3,
                     T2 := if add32 st.T3 1 = 0 then add32 st.T2 1 else st.T2,
                     T3 := add32 st.T3 1 } := by
  unfold _ctr
  rw [_core_eq _ _ _ _ _ _ _ _ _ ((CoreEnds_u32 r).2 hr), coreOut_u32_r]
  rfl

/-- Every driver returns and leaves the buffer as it was, when the loop of `_core` ends. -/
theorem _modes_some (m : Nat) (st : Asm) (r x0 x1 x2 x3 : Nat) (hr : CoreEnds r) :
    ∃ c, _modes m st r x0 x1 x2 x3 = some c ∧ c.heap = st.heap := by
  unfold _modes
  split
  · exact ⟨_, _ecb_enc_eq st r x0 x1 x2 x3 hr, rfl⟩
  · exact ⟨_, _ecb_dec_eq st r x0 x1 x2 x3 hr, rfl⟩
  · exact ⟨_, _cbc_enc_eq st r x0 x1 x2 x3 hr, rfl⟩
  · exact ⟨_, _cbc_dec_eq st r x0 x1 x2 x3 hr, rfl⟩
  · exact ⟨_, _cfb_enc_eq st r x0 x1 x2 x3 hr, rfl⟩
  · exact ⟨_, _cfb_dec_eq st r x0 x1 x2 x3 hr, rfl⟩
  · exact ⟨_, _ofb_eq st r x0 x1 x2 x3 hr, rfl⟩
  · exact ⟨_, _ctr_eq st r x0 x1 x2 x3 hr, rfl⟩

/-! ## The loop of `process` -/

theorem processLoop_eq (r mode : Nat) :
    ∀ (n fuel : Nat) (st : Asm) (pos len ret : Nat), len < 2147483648 → len / 16 = n →
      n < fuel → ret + 16 * n < 2147483648 →
      processLoop r mode fuel st pos len ret
        = (blocksRun r mode n st pos).map (fun c => (((ret + 16 * n : Nat) : Int), c)) := by
  intro n
  induction n with
  | zero =>
    intro fuel st pos len ret hl hn hf hret
    obtain ⟨f, rfl⟩ : ∃ f, fuel = f + 1 := ⟨fuel - 1, by omega⟩
    unfold processLoop
    rw [toSigned_of_lt hl, if_neg (by omega), toSigned_of_lt (by omega)]
    rfl
  | succ n ih =>
    intro fuel st pos len ret hl hn hf hret
    obtain ⟨f, rfl⟩ : ∃ f, fuel = f + 1 := ⟨fuel - 1, by omega⟩
    unfold processLoop
    rw [toSigned_of_lt hl, if_pos (by omega)]
    simp only [blocksRun, blockStep]
    cases _modes (mode &&& 7) st r (loadWord st.heap pos 0) (loadWord st.heap pos 4)
        (loadWord st.heap pos 8) (loadWord st.heap pos 12) with
    | none => rfl
    | some c =>
      simp only
      have e1 : sub32 len 16 = len - 16 := by unfold sub32; omega
      have e2 : add32 ret 16 = ret + 16 := by unfold add32; omega
      rw [e1, e2, ih f _ _ (len - 16) (ret + 16) (by omega) (by omega) (by omega) (by omega)]
      have e3 : ret + 16 + 16 * n = ret + 16 * (n + 1) := by omega
      rw [e3]

theorem processLoop_neg (r mode fuel : Nat) (st : Asm) (pos len ret : Nat)
    (hl : ¬ len < 2147483648) (hlt : len < 4294967296) :
    processLoop r mode (fuel + 1) st pos len ret = some (toSigned ret, st) := by
  unfold processLoop
  rw [toSigned_of_ge hl, if_neg (by omega)]

theorem process_aligned (st : Asm) (ks mode pos len : Int) (hp : i32 pos % 16 = 0) :
    process st ks mode pos len
      = processLoop (add32 (i32 ks) 5) (i32 mode) loopFuel st (i32 pos) (i32 len) 0 := by
  unfold process
  simp only [and_15]
  rw [if_neg (by omega)]

theorem process_unaligned (st : Asm) (ks mode pos len : Int) (hp : pos % 16 ≠ 0) :
    process st ks mode pos len = some (-1, st) := by
  unfold process
  simp only [and_15]
  have := i32_mod16 pos
  rw [if_pos (by omega)]

/-- A call of `process` on an aligned `pos` and a length `len` from `0` to `2^31-1`
runs the loop body on `len / 16` successive blocks and returns `16 * (len / 16)`. -/
theorem process_blocks (st : Asm) (ks mode : Int) (pos len : Nat) (hp : pos % 16 = 0)
    (hpos : pos < 4294967296) (hl : len < 2147483648) :
    process st ks mode pos len
      = (blocksRun (add32 (i32 ks) 5) (i32 mode) (len / 16) st pos).map
          (fun c => (((16 * (len / 16) : Nat) : Int), c)) := by
  rw [process_aligned _ _ _ _ _ (by rw [i32_ofNat hpos]; exact hp), i32_ofNat hpos,
    i32_ofNat (by omega : len < 4294967296),
    processLoop_eq _ _ (len / 16) loopFuel st pos len 0 hl rfl (by unfold loopFuel; omega)
      (by omega)]
  simp

end NAes

namespace NAes

/-! ## What a pass over `n` blocks touches -/

theorem add32_16 {pos : Nat} (h : pos + 16 ≤ 4294967295) : add32 pos 16 = pos + 16 := by
  unfold add32; omega

/-- When the loop of `_core` ends, `n` passes of the loop body of `process` return,
keep the size of the buffer and change no cell outside the `n` blocks. -/
theorem blocksRun_frame (r mode : Nat) (hr : CoreEnds r) :
    ∀ (n : Nat) (st : Asm) (pos : Nat), pos % 16 = 0 → pos + 16 * n ≤ 2147483648 →
      pos + 16 * n ≤ st.heap.size →
      ∃ c, blocksRun r mode n st pos = some c ∧ c.heap.size = st.heap.size ∧
        ∀ q, (q < pos ∨ pos + 16 * n ≤ q) → c.heap.mem q = st.heap.mem q := by
  intro n
  induction n with
  | zero => intro st pos _ _ _; exact ⟨st, rfl, rfl, fun _ _ => rfl⟩
  | succ n ih =>
    intro st pos hp h1 h2
    obtain ⟨c, hc, hh⟩ := _modes_some (mode &&& 7) st r (loadWord st.heap pos 0)
      (loadWord st.heap pos 4) (loadWord st.heap pos 8) (loadWord st.heap pos 12) hr
    have hsz : (storeState c pos).size = st.heap.size := by rw [storeState_size, hh]
    obtain ⟨c', hc', hs', hm'⟩ := ih { c with heap := storeState c pos } (pos + 16) (by omega)
      (by omega) (by simp only; rw [hsz]; omega)
    refine ⟨c', ?_, ?_, ?_⟩
    · simp only [blocksRun, blockStep, hc]
      rw [add32_16 (by omega)]
      exact hc'
    · rw [hs']; exact hsz
    · intro q hq
      rw [hm' q (by omega)]
      simp only
      rw [storeState_mem c pos q hp (by omega) (by rw [hh]; omega), if_neg (by omega), hh]

end NAes

namespace NAes

/-! ## The Galois field tables -/

theorem ginitState_snd : ∀ (n c a : Nat) (g : GF), (ginitState n c a g).2 = ginitLoop n c a g := by
  intro n
  induction n with
  | zero => intro c a g; rfl
  | succ n ih => intro c a g; simp only [ginitState, ginitLoop]; exact ih _ _ _

theorem ginitState_add : ∀ (m n c a : Nat) (g : GF),
    ginitState (m + n) c a g
      = ginitState n (c + m) (ginitState m c a g).1 (ginitState m c a g).2 := by
  intro m
  induction m with
  | zero => intro n c a g; simp [ginitState]
  | succ m ih =>
    intro n c a g
    have e : m + 1 + n = (m + n) + 1 := by omega
    rw [e]
    simp only [ginitState]
    rw [ih]
    have e2 : c + 1 + m = c + (m + 1) := by omega
    rw [e2]

theorem ginitState_64 :
    ginitState 64 0 1 { gexp3 := [], glog3 := [] } = (76, { gexp3 := GEXP3.take 64, glog3 := GLOG3_64 }) := by
  decide!

theorem ginitState_128 :
    ginitState 64 64 76 { gexp3 := GEXP3.take 64, glog3 := GLOG3_64 } = (251, { gexp3 := GEXP3.take 128, glog3 := GLOG3_128 }) := by
  decide!

theorem ginitState_192 :
    ginitState 64 128 251 { gexp3 := GEXP3.take 128, glog3 := GLOG3_128 } = (252, { gexp3 := GEXP3.take 192, glog3 := GLOG3_192 }) := by
  decide!

theorem ginitState_255 :
    ginitState 63 192 252 { gexp3 := GEXP3.take 192, glog3 := GLOG3_192 } = (1, { gexp3 := GEXP3.take 255, glog3 := GLOG3 }) := by
  decide!

theorem ginitState_all :
    ginitState 255 0 1 { gexp3 := [], glog3 := [] }
      = (1, { gexp3 := GEXP3.take 255, glog3 := GLOG3 }) := by
  have h1 := ginitState_add 64 191 0 1 { gexp3 := [], glog3 := [] }
  have h2 := ginitState_add 64 127 64 76 { gexp3 := GEXP3.take 64, glog3 := GLOG3_64 }
  have h3 := ginitState_add 64 63 128 251 { gexp3 := GEXP3.take 128, glog3 := GLOG3_128 }
  rw [ginitState_64] at h1
  rw [ginitState_128] at h2
  rw [ginitState_192] at h3
  simp only [Nat.zero_add, Nat.reduceAdd] at h1 h2 h3
  rw [h1, h2, h3, ginitState_255]

/-- The tables `ginit` builds. -/
theorem ginit_eq : ginit = { gexp3 := GEXP3, glog3 := GLOG3 } := by
  unfold ginit
  simp only
  rw [← ginitState_snd, ginitState_all]
  decide!

end NAes

namespace NAes

/-! ## JavaScript arrays: reads after writes -/

theorem arrSet_length (xs : List Nat) (i v : Nat) :
    (arrSet xs i v).length = max xs.length (i + 1) := by
  unfold arrSet
  split
  · rw [List.length_set]; omega
  · simp only [List.length_append, List.length_replicate, List.length_singleton]; omega

theorem arrGet_arrSet (xs : List Nat) (i v j : Nat) :
    arrGet (arrSet xs i v) j = if j = i then v else arrGet xs j := by
  unfold arrGet arrSet
  simp only [List.getD_eq_getElem?_getD]
  split
  · rw [List.getElem?_set]
    by_cases h : i = j
    · subst h; simp [*]
    · rw [if_neg h, if_neg (fun e => h e.symm)]
  · rename_i hlt
    by_cases h : j = i
    · subst h
      rw [if_pos rfl, List.getElem?_append_right (by simp; omega)]
      have e : j - (xs ++ List.replicate (j - xs.length) 0).length = 0 := by simp; omega
      rw [e]
      rfl
    · rw [if_neg h]
      by_cases h1 : j < xs.length
      · rw [List.append_assoc, List.getElem?_append_left h1]
      · rw [List.getElem?_eq_none (by omega : xs.length ≤ j)]
        by_cases h2 : j < i
        · rw [List.getElem?_append_left (by simp; omega),
            List.getElem?_append_right (by omega), List.getElem?_replicate]
          split <;> rfl
        · rw [List.getElem?_eq_none (by simp; omega)]

theorem arr2Set_length (xs : List (List Nat)) (t i v : Nat) :
    (arr2Set xs t i v).length = xs.length := by
  unfold arr2Set; rw [List.length_set]

theorem arr2Get_arr2Set (xs : List (List Nat)) (t i v t' j : Nat) (ht : t < xs.length) :
    arr2Get (arr2Set xs t i v) t' j = if t' = t ∧ j = i then v else arr2Get xs t' j := by
  unfold arr2Get arr2Set
  simp only [List.getD_eq_getElem?_getD]
  rw [List.getElem?_set]
  by_cases h : t = t'
  · subst h
    rw [if_pos rfl, if_pos ht]
    simp only [Option.getD_some, true_and]
    rw [arrGet_arrSet]
  · rw [if_neg h]
    have : ¬ (t' = t ∧ j = i) := fun e => h e.1.symm
    rw [if_neg this]

theorem arr2Set_inner_length (xs : List (List Nat)) (t i v t' : Nat) (ht : t < xs.length) :
    ((arr2Set xs t i v).getD t' []).length
      = if t' = t then max (xs.getD t []).length (i + 1) else (xs.getD t' []).length := by
  unfold arr2Set
  simp only [List.getD_eq_getElem?_getD]
  rw [List.getElem?_set]
  by_cases h : t = t'
  · subst h
    rw [if_pos rfl, if_pos ht, if_pos rfl]
    simp only [Option.getD_some]
    rw [arrSet_length]
  · rw [if_neg h, if_neg (fun e => h e.symm)]

end NAes

namespace NAes

/-! ## The loop of `aes_init` -/

theorem aesInitLoop_succ (g : GF) (n i : Nat) (T : Tables) :
    aesInitLoop g (n + 1) i T = aesInitLoop g n (i + 1) (aesInitBody g i T) := rfl

theorem aesInitBody_sbox (g : GF) (i : Nat) (T : Tables) :
    (aesInitBody g i T).aes_sbox = arrSet T.aes_sbox i (_s g i) := rfl

theorem aesInitBody_sinv (g : GF) (i : Nat) (T : Tables) :
    (aesInitBody g i T).aes_sinv = arrSet T.aes_sinv (_s g i) i := rfl

theorem aesInitBody_enc_length (g : GF) (i : Nat) (T : Tables) :
    (aesInitBody g i T).aes_enc.length = T.aes_enc.length := by
  simp only [aesInitBody, rotLoop, arr2Set_length]

theorem aesInitBody_dec_length (g : GF) (i : Nat) (T : Tables) :
    (aesInitBody g i T).aes_dec.length = T.aes_dec.length := by
  simp only [aesInitBody, rotLoop, arr2Set_length]

theorem aesInitBody_enc (g : GF) (i : Nat) (T : Tables) (he : T.aes_enc.length = 4) (t j : Nat) :
    arr2Get (aesInitBody g i T).aes_enc t j
      = if j = i ∧ t < 4 then encWord g t (_s g i) else arr2Get T.aes_enc t j := by
  have h0 : 0 < T.aes_enc.length := by omega
  have h1 : 1 < T.aes_enc.length := by omega
  have h2 : 2 < T.aes_enc.length := by omega
  have h3 : 3 < T.aes_enc.length := by omega
  simp only [aesInitBody, rotLoop, Nat.reduceAdd, Nat.reduceSub]
  simp (disch := first | omega | (simp only [arr2Set_length]; omega)) only [arr2Get_arr2Set]
  by_cases hj : j = i
  · subst hj
    rcases (by omega : t = 0 ∨ t = 1 ∨ t = 2 ∨ t = 3 ∨ 4 ≤ t) with h | h | h | h | h
    · subst h; simp [encWord]
    · subst h; simp [encWord, rotr8]
    · subst h; simp [encWord, rotr8]
    · subst h; simp [encWord, rotr8]
    · have e0 : ¬ t = 0 := by omega
      have e1 : ¬ t = 1 := by omega
      have e2 : ¬ t = 2 := by omega
      have e3 : ¬ t = 3 := by omega
      have e4 : ¬ t < 4 := by omega
      simp [e0, e1, e2, e3, e4]
  · simp [hj]

theorem aesInitBody_dec (g : GF) (i : Nat) (T : Tables) (hd : T.aes_dec.length = 4) (t y : Nat) :
    arr2Get (aesInitBody g i T).aes_dec t y
      = if y = _s g i ∧ t < 4 then decWord g t i else arr2Get T.aes_dec t y := by
  have h0 : 0 < T.aes_dec.length := by omega
  have h1 : 1 < T.aes_dec.length := by omega
  have h2 : 2 < T.aes_dec.length := by omega
  have h3 : 3 < T.aes_dec.length := by omega
  simp only [aesInitBody, rotLoop, Nat.reduceAdd, Nat.reduceSub]
  simp (disch := first | omega | (simp only [arr2Set_length]; omega)) only [arr2Get_arr2Set]
  by_cases hj : y = _s g i
  · subst hj
    rcases (by omega : t = 0 ∨ t = 1 ∨ t = 2 ∨ t = 3 ∨ 4 ≤ t) with h | h | h | h | h
    · subst h; simp [decWord]
    · subst h; simp [decWord, rotr8]
    · subst h; simp [decWord, rotr8]
    · subst h; simp [decWord, rotr8]
    · have e0 : ¬ t = 0 := by omega
      have e1 : ¬ t = 1 := by omega
      have e2 : ¬ t = 2 := by omega
      have e3 : ¬ t = 3 := by omega
      have e4 : ¬ t < 4 := by omega
      simp [e0, e1, e2, e3, e4]
  · simp [hj]

theorem aesInitBody_enc_inner (g : GF) (i : Nat) (T : Tables) (he : T.aes_enc.length = 4)
    (t : Nat) (ht : t < 4) :
    ((aesInitBody g i T).aes_enc.getD t []).length = max (T.aes_enc.getD t []).length (i + 1) := by
  have h0 : 0 < T.aes_enc.length := by omega
  have h1 : 1 < T.aes_enc.length := by omega
  have h2 : 2 < T.aes_enc.length := by omega
  have h3 : 3 < T.aes_enc.length := by omega
  simp only [aesInitBody, rotLoop, Nat.reduceAdd, Nat.reduceSub]
  simp (disch := first | omega | (simp only [arr2Set_length]; omega)) only [arr2Set_inner_length]
  rcases (by omega : t = 0 ∨ t = 1 ∨ t = 2 ∨ t = 3) with h | h | h | h <;> subst h <;> simp

theorem aesInitBody_dec_inner (g : GF) (i : Nat) (T : Tables) (hd : T.aes_dec.length = 4)
    (t : Nat) (ht : t < 4) :
    ((aesInitBody g i T).aes_dec.getD t []).length
      = max (T.aes_dec.getD t []).length (_s g i + 1) := by
  have h0 : 0 < T.aes_dec.length := by omega
  have h1 : 1 < T.aes_dec.length := by omega
  have h2 : 2 < T.aes_dec.length := by omega
  have h3 : 3 < T.aes_dec.length := by omega
  simp only [aesInitBody, rotLoop, Nat.reduceAdd, Nat.reduceSub]
  simp (disch := first | omega | (simp only [arr2Set_length]; omega)) only [arr2Set_inner_length]
  rcases (by omega : t = 0 ∨ t = 1 ∨ t = 2 ∨ t = 3) with h | h | h | h <;> subst h <;> simp

end NAes

namespace NAes

theorem aesInitLoop_lengths (g : GF) : ∀ (n i : Nat) (T : Tables),
    T.aes_enc.length = 4 → T.aes_dec.length = 4 →
    (aesInitLoop g n i T).aes_enc.length = 4 ∧ (aesInitLoop g n i T).aes_dec.length = 4 := by
  intro n
  induction n with
  | zero => intro i T he hd; exact ⟨he, hd⟩
  | succ n ih =>
    intro i T he hd
    rw [aesInitLoop_succ]
    exact ih _ _ (by rw [aesInitBody_enc_length]; exact he)
      (by rw [aesInitBody_dec_length]; exact hd)

theorem aesInitLoop_sbox (g : GF) : ∀ (n i : Nat) (T : Tables) (j : Nat),
    arrGet (aesInitLoop g n i T).aes_sbox j
      = if i ≤ j ∧ j < i + n then _s g j else arrGet T.aes_sbox j := by
  intro n
  induction n with
  | zero => intro i T j; rw [if_neg (by omega)]; rfl
  | succ n ih =>
    intro i T j
    rw [aesInitLoop_succ, ih, aesInitBody_sbox, arrGet_arrSet]
    by_cases h : j = i
    · subst h; rw [if_neg (by omega), if_pos rfl, if_pos (by omega)]
    · rw [if_neg h]
      by_cases h2 : i + 1 ≤ j ∧ j < i + 1 + n
      · rw [if_pos h2, if_pos (by omega)]
      · rw [if_neg h2, if_neg (by omega)]

theorem aesInitLoop_sbox_length (g : GF) : ∀ (n i : Nat) (T : Tables),
    T.aes_sbox.length = i → (aesInitLoop g n i T).aes_sbox.length = i + n := by
  intro n
  induction n with
  | zero => intro i T h; exact h
  | succ n ih =>
    intro i T h
    rw [aesInitLoop_succ, ih _ _ (by rw [aesInitBody_sbox, arrSet_length]; omega)]
    omega

theorem aesInitLoop_enc (g : GF) : ∀ (n i : Nat) (T : Tables), T.aes_enc.length = 4 →
    ∀ (t j : Nat), arr2Get (aesInitLoop g n i T).aes_enc t j
      = if i ≤ j ∧ j < i + n ∧ t < 4 then encWord g t (_s g j) else arr2Get T.aes_enc t j := by
  intro n
  induction n with
  | zero => intro i T _ t j; rw [if_neg (by omega)]; rfl
  | succ n ih =>
    intro i T he t j
    rw [aesInitLoop_succ, ih _ _ (by rw [aesInitBody_enc_length]; exact he),
      aesInitBody_enc g i T he]
    by_cases h2 : i + 1 ≤ j ∧ j < i + 1 + n ∧ t < 4
    · rw [if_pos h2, if_pos (by omega)]
    · rw [if_neg h2]
      by_cases h : j = i ∧ t < 4
      · rw [if_pos h, if_pos (by omega), h.1]
      · rw [if_neg h, if_neg (by omega)]

theorem aesInitLoop_enc_inner (g : GF) : ∀ (n i : Nat) (T : Tables), T.aes_enc.length = 4 →
    ∀ t, t < 4 → (T.aes_enc.getD t []).length = i →
      ((aesInitLoop g n i T).aes_enc.getD t []).length = i + n := by
  intro n
  induction n with
  | zero => intro i T _ t _ h; exact h
  | succ n ih =>
    intro i T he t ht h
    rw [aesInitLoop_succ, ih _ _ (by rw [aesInitBody_enc_length]; exact he) t ht
      (by rw [aesInitBody_enc_inner g i T he t ht]; omega)]
    omega

theorem aesInitLoop_sinv_other (g : GF) : ∀ (n i : Nat) (T : Tables) (y : Nat),
    (∀ j, i ≤ j → j < i + n → _s g j ≠ y) →
    arrGet (aesInitLoop g n i T).aes_sinv y = arrGet T.aes_sinv y := by
  intro n
  induction n with
  | zero => intro i T y _; rfl
  | succ n ih =>
    intro i T y h
    rw [aesInitLoop_succ, ih _ _ _ (fun j h1 h2 => h j (by omega) (by omega)),
      aesInitBody_sinv, arrGet_arrSet, if_neg (fun e => h i (by omega) (by omega) e.symm)]

theorem aesInitLoop_sinv (g : GF) : ∀ (n i : Nat) (T : Tables) (j : Nat), i ≤ j → j < i + n →
    (∀ j', j < j' → j' < i + n → _s g j' ≠ _s g j) →
    arrGet (aesInitLoop g n i T).aes_sinv (_s g j) = j := by
  intro n
  induction n with
  | zero => intro i T j h1 h2; omega
  | succ n ih =>
    intro i T j h1 h2 h
    rw [aesInitLoop_succ]
    by_cases hj : j = i
    · subst hj
      rw [aesInitLoop_sinv_other g n _ _ _ (fun j' a b => h j' (by omega) (by omega)),
        aesInitBody_sinv, arrGet_arrSet, if_pos rfl]
    · exact ih _ _ j (by omega) (by omega) (fun j' a b => h j' a (by omega))

theorem aesInitLoop_sinv_length (g : GF) : ∀ (n i : Nat) (T : Tables),
    (aesInitLoop g n i T).aes_sinv.length = maxIdx g n i T.aes_sinv.length := by
  intro n
  induction n with
  | zero => intro i T; rfl
  | succ n ih =>
    intro i T
    rw [aesInitLoop_succ, ih, aesInitBody_sinv, arrSet_length]
    rfl

theorem aesInitLoop_dec_other (g : GF) : ∀ (n i : Nat) (T : Tables), T.aes_dec.length = 4 →
    ∀ (t y : Nat), (∀ j, i ≤ j → j < i + n → _s g j ≠ y) →
    arr2Get (aesInitLoop g n i T).aes_dec t y = arr2Get T.aes_dec t y := by
  intro n
  induction n with
  | zero => intro i T _ t y _; rfl
  | succ n ih =>
    intro i T hd t y h
    rw [aesInitLoop_succ, ih _ _ (by rw [aesInitBody_dec_length]; exact hd) _ _
      (fun j h1 h2 => h j (by omega) (by omega)),
      aesInitBody_dec g i T hd, if_neg (fun e => h i (by omega) (by omega) e.1.symm)]

theorem aesInitLoop_dec (g : GF) : ∀ (n i : Nat) (T : Tables), T.aes_dec.length = 4 →
    ∀ (t j : Nat), t < 4 → i ≤ j → j < i + n →
    (∀ j', j < j' → j' < i + n → _s g j' ≠ _s g j) →
    arr2Get (aesInitLoop g n i T).aes_dec t (_s g j) = decWord g t j := by
  intro n
  induction n with
  | zero => intro i T _ t j _ h1 h2; omega
  | succ n ih =>
    intro i T hd t j ht h1 h2 h
    rw [aesInitLoop_succ]
    by_cases hj : j = i
    · subst hj
      rw [aesInitLoop_dec_other g n _ _ (by rw [aesInitBody_dec_length]; exact hd) _ _
        (fun j' a b => h j' (by omega) (by omega)),
        aesInitBody_dec g j T hd, if_pos ⟨rfl, ht⟩]
    · exact ih _ _ (by rw [aesInitBody_dec_length]; exact hd) t j ht (by omega) (by omega)
        (fun j' a b => h j' a (by omega))

theorem aesInitLoop_dec_inner (g : GF) : ∀ (n i : Nat) (T : Tables), T.aes_dec.length = 4 →
    ∀ t, t < 4 →
      ((aesInitLoop g n i T).aes_dec.getD t []).length
        = maxIdx g n i (T.aes_dec.getD t []).length := by
  intro n
  induction n with
  | zero => intro i T _ t _; rfl
  | succ n ih =>
    intro i T hd t ht
    rw [aesInitLoop_succ, ih _ _ (by rw [aesInitBody_dec_length]; exact hd) t ht,
      aesInitBody_dec_inner g i T hd t ht]
    rfl

/-! ## The tables of `aes_init`, entry by entry -/

theorem aes_init_eq_loop : aes_init = aesInitLoop GFT 256 0 emptyTables := by
  unfold aes_init; rw [ginit_eq]; rfl

theorem s_GFT : ∀ j, j < 256 → _s GFT j = arrGet SBOX j := by decide!

theorem SBOX_lt : ∀ j, j < 256 → arrGet SBOX j < 256 := by decide!

theorem SINV_lt : ∀ j, j < 256 → arrGet SINV j < 256 := by decide!

theorem SINV_SBOX : ∀ j, j < 256 → arrGet SINV (arrGet SBOX j) = j := by decide!

theorem SBOX_SINV : ∀ j, j < 256 → arrGet SBOX (arrGet SINV j) = j := by decide!

theorem maxIdx_GFT : maxIdx GFT 256 0 0 = 256 := by decide!

theorem s_GFT_inj {j j' : Nat} (hj : j < 256) (hj' : j' < 256) (h : _s GFT j' = _s GFT j) :
    j' = j := by
  rw [s_GFT j hj, s_GFT j' hj'] at h
  have := congrArg (arrGet SINV) h
  rwa [SINV_SBOX j hj, SINV_SBOX j' hj'] at this

end NAes

namespace NAes

theorem list_eq_of_arrGet (xs ys : List Nat) (hl : xs.length = ys.length)
    (h : ∀ j, j < xs.length → arrGet xs j = arrGet ys j) : xs = ys := by
  apply List.ext_getElem hl
  intro n h1 h2
  have := h n h1
  unfold arrGet at this
  rwa [List.getD_eq_getElem _ _ h1, List.getD_eq_getElem _ _ h2] at this

theorem SBOX_length : SBOX.length = 256 := by decide!

theorem SINV_length : SINV.length = 256 := by decide!

/-- The table `aes_sbox` after `aes_init`. -/
theorem aes_sbox_eq : aes_init.aes_sbox = SBOX := by
  rw [aes_init_eq_loop]
  have hl : (aesInitLoop GFT 256 0 emptyTables).aes_sbox.length = 256 := by
    rw [aesInitLoop_sbox_length GFT 256 0 emptyTables rfl]
  apply list_eq_of_arrGet _ _ (by rw [hl, SBOX_length])
  intro j hj
  rw [hl] at hj
  rw [aesInitLoop_sbox, if_pos (by omega), s_GFT j hj]

/-- The table `aes_sinv` after `aes_init`. -/
theorem aes_sinv_eq : aes_init.aes_sinv = SINV := by
  rw [aes_init_eq_loop]
  have hl : (aesInitLoop GFT 256 0 emptyTables).aes_sinv.length = 256 := by
    rw [aesInitLoop_sinv_length]; exact maxIdx_GFT
  apply list_eq_of_arrGet _ _ (by rw [hl, SINV_length])
  intro y hy
  rw [hl] at hy
  have hs := SINV_lt y hy
  have e : _s GFT (arrGet SINV y) = y := by rw [s_GFT _ hs, SBOX_SINV y hy]
  have := aesInitLoop_sinv GFT 256 0 emptyTables (arrGet SINV y) (by omega) (by omega)
    (fun j' h1 h2 h3 => by
      have := s_GFT_inj hs (by omega) h3
      omega)
  rw [e] at this
  exact this

theorem aes_enc_length : aes_init.aes_enc.length = 4 := by
  rw [aes_init_eq_loop]; exact (aesInitLoop_lengths GFT 256 0 emptyTables rfl rfl).1

theorem aes_dec_length : aes_init.aes_dec.length = 4 := by
  rw [aes_init_eq_loop]; exact (aesInitLoop_lengths GFT 256 0 emptyTables rfl rfl).2

/-- The entries of the tables `aes_enc[t]` after `aes_init`. -/
theorem aes_enc_get (t j : Nat) (ht : t < 4) (hj : j < 256) :
    arr2Get aes_init.aes_enc t j = encWord GFT t (arrGet SBOX j) := by
  rw [aes_init_eq_loop, aesInitLoop_enc GFT 256 0 emptyTables rfl, if_pos (by omega),
    s_GFT j hj]

theorem aes_enc_inner_length (t : Nat) (ht : t < 4) :
    (aes_init.aes_enc.getD t []).length = 256 := by
  rw [aes_init_eq_loop, aesInitLoop_enc_inner GFT 256 0 emptyTables rfl t ht]
  rcases (by omega : t = 0 ∨ t = 1 ∨ t = 2 ∨ t = 3) with h | h | h | h <;> subst h <;> rfl

/-- The entries of the tables `aes_dec[t]` after `aes_init`. -/
theorem aes_dec_get (t y : Nat) (ht : t < 4) (hy : y < 256) :
    arr2Get aes_init.aes_dec t y = decWord GFT t (arrGet SINV y) := by
  have hs := SINV_lt y hy
  have e : _s GFT (arrGet SINV y) = y := by rw [s_GFT _ hs, SBOX_SINV y hy]
  have := aesInitLoop_dec GFT 256 0 emptyTables rfl t (arrGet SINV y) ht (by omega) (by omega)
    (fun j' h1 h2 h3 => by
      have := s_GFT_inj hs (by omega) h3
      omega)
  rw [e] at this
  rw [aes_init_eq_loop]
  exact this

theorem aes_dec_inner_length (t : Nat) (ht : t < 4) :
    (aes_init.aes_dec.getD t []).length = 256 := by
  rw [aes_init_eq_loop, aesInitLoop_dec_inner GFT 256 0 emptyTables rfl t ht]
  rcases (by omega : t = 0 ∨ t = 1 ∨ t = 2 ∨ t = 3) with h | h | h | h <;> subst h <;>
    exact maxIdx_GFT

end NAes

namespace NAes

/-! ## Field arithmetic on bytes -/

theorem xtime_lt (b : Nat) : xtime b < 256 := by
  unfold xtime
  apply xor_lt_256 (Nat.mod_lt _ (by norm_num))
  have : b / 128 % 2 < 2 := Nat.mod_lt _ (by norm_num)
  interval_cases (b / 128 % 2) <;> norm_num

theorem two_mul_xor (a b : Nat) : 2 * (a ^^^ b) = 2 * a ^^^ 2 * b := by
  apply Nat.eq_of_testBit_eq
  intro i
  have h : ∀ x : Nat, 2 * x = x <<< 1 := fun x => by rw [Nat.shiftLeft_eq]; omega
  rw [h, h, h]
  simp only [Nat.testBit_shiftLeft, Nat.testBit_xor]
  by_cases hi : i ≥ 1 <;> simp [hi]

theorem xor_lc (a b c : Nat) : a ^^^ (b ^^^ c) = b ^^^ (a ^^^ c) := by
  rw [← Nat.xor_assoc, ← Nat.xor_assoc, Nat.xor_comm a b]

theorem xor_cancel_left (a b : Nat) : a ^^^ (a ^^^ b) = b := by
  rw [← Nat.xor_assoc, Nat.xor_self, Nat.zero_xor]

/-- Multiplication by `x` is additive. -/
theorem xtime_xor (a b : Nat) : xtime (a ^^^ b) = xtime a ^^^ xtime b := by
  unfold xtime
  have h1 := xor_mod_pow (2 * a) (2 * b) 8
  have h2 := xor_div_pow a b 7
  have h3 : (a / 128 ^^^ b / 128) % 2 = a / 128 % 2 ^^^ b / 128 % 2 := by
    have := xor_mod_pow (a / 128) (b / 128) 1
    rwa [Nat.pow_one] at this
  norm_num at h1 h2
  rw [two_mul_xor, h1, h2, h3]
  have ha : a / 128 % 2 < 2 := Nat.mod_lt _ (by norm_num)
  have hb : b / 128 % 2 < 2 := Nat.mod_lt _ (by norm_num)
  clear h1 h2 h3
  generalize a / 128 % 2 = p at *
  generalize b / 128 % 2 = q at *
  generalize 2 * a % 256 = u
  generalize 2 * b % 256 = v
  interval_cases p <;> interval_cases q <;>
    simp [Nat.xor_assoc, Nat.xor_comm, xor_lc, xor_cancel_left]

theorem mul3_xor (a b : Nat) : mul3 (a ^^^ b) = mul3 a ^^^ mul3 b := by
  unfold mul3; simp only [xtime_xor, Nat.xor_assoc, Nat.xor_comm, xor_lc]

theorem mul9_xor (a b : Nat) : mul9 (a ^^^ b) = mul9 a ^^^ mul9 b := by
  unfold mul9; simp only [xtime_xor, Nat.xor_assoc, Nat.xor_comm, xor_lc]

theorem mul11_xor (a b : Nat) : mul11 (a ^^^ b) = mul11 a ^^^ mul11 b := by
  unfold mul11; simp only [xtime_xor, Nat.xor_assoc, Nat.xor_comm, xor_lc]

theorem mul13_xor (a b : Nat) : mul13 (a ^^^ b) = mul13 a ^^^ mul13 b := by
  unfold mul13; simp only [xtime_xor, Nat.xor_assoc, Nat.xor_comm, xor_lc]

theorem mul14_xor (a b : Nat) : mul14 (a ^^^ b) = mul14 a ^^^ mul14 b := by
  unfold mul14; simp only [xtime_xor, Nat.xor_assoc, Nat.xor_comm, xor_lc]

theorem mul3_lt {b : Nat} (h : b < 256) : mul3 b < 256 := xor_lt_256 (xtime_lt _) h

theorem mul9_lt {b : Nat} (h : b < 256) : mul9 b < 256 := xor_lt_256 (xtime_lt _) h

theorem mul11_lt {b : Nat} (h : b < 256) : mul11 b < 256 :=
  xor_lt_256 (xor_lt_256 (xtime_lt _) (xtime_lt _)) h

theorem mul13_lt {b : Nat} (h : b < 256) : mul13 b < 256 :=
  xor_lt_256 (xor_lt_256 (xtime_lt _) (xtime_lt _)) h

theorem mul14_lt (b : Nat) : mul14 b < 256 :=
  xor_lt_256 (xor_lt_256 (xtime_lt _) (xtime_lt _)) (xtime_lt _)

/-! ### The table `gmul` against the shift-and-add arithmetic -/

theorem gmul_2 : ∀ b, b < 256 → gmul GFT 2 b = xtime b := by decide!
theorem gmul_3 : ∀ b, b < 256 → gmul GFT 3 b = mul3 b := by decide!
theorem gmul_9 : ∀ b, b < 256 → gmul GFT 9 b = mul9 b := by decide!
theorem gmul_11 : ∀ b, b < 256 → gmul GFT 11 b = mul11 b := by decide!
theorem gmul_13 : ∀ b, b < 256 → gmul GFT 13 b = mul13 b := by decide!
theorem gmul_14 : ∀ b, b < 256 → gmul GFT 14 b = mul14 b := by decide!

theorem encWord_colE : ∀ t, t < 4 → ∀ s, s < 256 → encWord GFT t s = colE t s := by decide!

theorem decWord_colD : ∀ t, t < 4 → ∀ s, s < 256 → decWord GFT t s = colD t s := by decide!

/-! ### InvMixColumns undoes MixColumns -/

theorem imix_mix_0 : ∀ a, a < 256 →
    mul14 (xtime a) ^^^ mul11 a ^^^ mul13 a ^^^ mul9 (mul3 a) = a := by decide!

theorem imix_mix_1 : ∀ a, a < 256 →
    mul14 (mul3 a) ^^^ mul11 (xtime a) ^^^ mul13 a ^^^ mul9 a = 0 := by decide!

theorem imix_mix_2 : ∀ a, a < 256 →
    mul14 a ^^^ mul11 (mul3 a) ^^^ mul13 (xtime a) ^^^ mul9 a = 0 := by decide!

theorem imix_mix_3 : ∀ a, a < 256 →
    mul14 a ^^^ mul11 a ^^^ mul13 (mul3 a) ^^^ mul9 (xtime a) = 0 := by decide!

theorem mixW_lt (w : Nat) : mixW w < 4294967296 := by
  unfold mixW
  have h0 := byte0_lt w
  have h1 := byte1_lt w
  have h2 := byte2_lt w
  have h3 := byte3_lt w
  exact pack_lt
    (xor_lt_256 (xor_lt_256 (xor_lt_256 (xtime_lt _) (mul3_lt h1)) h2) h3)
    (xor_lt_256 (xor_lt_256 (xor_lt_256 h0 (xtime_lt _)) (mul3_lt h2)) h3)
    (xor_lt_256 (xor_lt_256 (xor_lt_256 h0 h1) (xtime_lt _)) (mul3_lt h3))
    (xor_lt_256 (xor_lt_256 (xor_lt_256 (mul3_lt h0) h1) h2) (xtime_lt _))

theorem invMixW_pack {a b c d : Nat} (ha : a < 256) (hb : b < 256) (hc : c < 256)
    (hd : d < 256) :
    invMixW (pack a b c d) =
      pack (mul14 a ^^^ mul11 b ^^^ mul13 c ^^^ mul9 d)
           (mul9 a ^^^ mul14 b ^^^ mul11 c ^^^ mul13 d)
           (mul13 a ^^^ mul9 b ^^^ mul14 c ^^^ mul11 d)
           (mul11 a ^^^ mul13 b ^^^ mul9 c ^^^ mul14 d) := by
  unfold invMixW
  rw [byte0_pack ha hb hc hd, byte1_pack hb hc hd, byte2_pack hc hd, byte3_pack hd]

theorem invMixW_lt (w : Nat) : invMixW w < 4294967296 := by
  unfold invMixW
  have h0 := byte0_lt w
  have h1 := byte1_lt w
  have h2 := byte2_lt w
  have h3 := byte3_lt w
  exact pack_lt
    (xor_lt_256 (xor_lt_256 (xor_lt_256 (mul14_lt _) (mul11_lt h1)) (mul13_lt h2)) (mul9_lt h3))
    (xor_lt_256 (xor_lt_256 (xor_lt_256 (mul9_lt h0) (mul14_lt _)) (mul11_lt h2)) (mul13_lt h3))
    (xor_lt_256 (xor_lt_256 (xor_lt_256 (mul13_lt h0) (mul9_lt h1)) (mul14_lt _)) (mul11_lt h3))
    (xor_lt_256 (xor_lt_256 (xor_lt_256 (mul11_lt h0) (mul13_lt h1)) (mul9_lt h2)) (mul14_lt _))

/-- InvMixColumns is additive. -/
theorem invMixW_xor (u v : Nat) : invMixW (u ^^^ v) = invMixW u ^^^ invMixW v := by
  have a0 := byte0_lt u
  have a1 := byte1_lt u
  have a2 := byte2_lt u
  have a3 := byte3_lt u
  have b0 := byte0_lt v
  have b1 := byte1_lt v
  have b2 := byte2_lt v
  have b3 := byte3_lt v
  unfold invMixW
  rw [pack_xor
    (xor_lt_256 (xor_lt_256 (xor_lt_256 (mul14_lt _) (mul11_lt a1)) (mul13_lt a2)) (mul9_lt a3))
    (xor_lt_256 (xor_lt_256 (xor_lt_256 (mul9_lt a0) (mul14_lt _)) (mul11_lt a2)) (mul13_lt a3))
    (xor_lt_256 (xor_lt_256 (xor_lt_256 (mul13_lt a0) (mul9_lt a1)) (mul14_lt _)) (mul11_lt a3))
    (xor_lt_256 (xor_lt_256 (xor_lt_256 (mul11_lt a0) (mul13_lt a1)) (mul9_lt a2)) (mul14_lt _))
    (xor_lt_256 (xor_lt_256 (xor_lt_256 (mul14_lt _) (mul11_lt b1)) (mul13_lt b2)) (mul9_lt b3))
    (xor_lt_256 (xor_lt_256 (xor_lt_256 (mul9_lt b0) (mul14_lt _)) (mul11_lt b2)) (mul13_lt b3))
    (xor_lt_256 (xor_lt_256 (xor_lt_256 (mul13_lt b0) (mul9_lt b1)) (mul14_lt _)) (mul11_lt b3))
    (xor_lt_256 (xor_lt_256 (xor_lt_256 (mul11_lt b0) (mul13_lt b1)) (mul9_lt b2)) (mul14_lt _))]
  simp only [byte0_xor, byte1_xor, byte2_xor, byte3_xor, mul9_xor, mul11_xor, mul13_xor,
    mul14_xor, Nat.xor_assoc, Nat.xor_comm, xor_lc]

theorem imix_mix_bytes {a b c d : Nat} (ha : a < 256) (hb : b < 256) (hc : c < 256)
    (hd : d < 256) :
    (mul14 (xtime a ^^^ mul3 b ^^^ c ^^^ d) ^^^ mul11 (a ^^^ xtime b ^^^ mul3 c ^^^ d)
        ^^^ mul13 (a ^^^ b ^^^ xtime c ^^^ mul3 d) ^^^ mul9 (mul3 a ^^^ b ^^^ c ^^^ xtime d) = a)
    ∧ (mul9 (xtime a ^^^ mul3 b ^^^ c ^^^ d) ^^^ mul14 (a ^^^ xtime b ^^^ mul3 c ^^^ d)
        ^^^ mul11 (a ^^^ b ^^^ xtime c ^^^ mul3 d) ^^^ mul13 (mul3 a ^^^ b ^^^ c ^^^ xtime d) = b)
    ∧ (mul13 (xtime a ^^^ mul3 b ^^^ c ^^^ d) ^^^ mul9 (a ^^^ xtime b ^^^ mul3 c ^^^ d)
        ^^^ mul14 (a ^^^ b ^^^ xtime c ^^^ mul3 d) ^^^ mul11 (mul3 a ^^^ b ^^^ c ^^^ xtime d) = c)
    ∧ (mul11 (xtime a ^^^ mul3 b ^^^ c ^^^ d) ^^^ mul13 (a ^^^ xtime b ^^^ mul3 c ^^^ d)
        ^^^ mul9 (a ^^^ b ^^^ xtime c ^^^ mul3 d) ^^^ mul14 (mul3 a ^^^ b ^^^ c ^^^ xtime d) = d) := by
  have a0 := imix_mix_0 a ha
  have a1 := imix_mix_1 a ha
  have a2 := imix_mix_2 a ha
  have a3 := imix_mix_3 a ha
  have b0 := imix_mix_0 b hb
  have b1 := imix_mix_1 b hb
  have b2 := imix_mix_2 b hb
  have b3 := imix_mix_3 b hb
  have c0 := imix_mix_0 c hc
  have c1 := imix_mix_1 c hc
  have c2 := imix_mix_2 c hc
  have c3 := imix_mix_3 c hc
  have d0 := imix_mix_0 d hd
  have d1 := imix_mix_1 d hd
  have d2 := imix_mix_2 d hd
  have d3 := imix_mix_3 d hd
  simp only [mul9_xor, mul11_xor, mul13_xor, mul14_xor]
  refine ⟨?_, ?_, ?_, ?_⟩
  · calc _ = (mul14 (xtime a) ^^^ mul11 a ^^^ mul13 a ^^^ mul9 (mul3 a))
            ^^^ (mul14 (mul3 b) ^^^ mul11 (xtime b) ^^^ mul13 b ^^^ mul9 b)
            ^^^ (mul14 c ^^^ mul11 (mul3 c) ^^^ mul13 (xtime c) ^^^ mul9 c)
            ^^^ (mul14 d ^^^ mul11 d ^^^ mul13 (mul3 d) ^^^ mul9 (xtime d)) := by
          simp only [Nat.xor_assoc, Nat.xor_comm, xor_lc]
      _ = a := by rw [a0, b1, c2, d3]; simp
  · calc _ = (mul14 a ^^^ mul11 a ^^^ mul13 (mul3 a) ^^^ mul9 (xtime a))
            ^^^ (mul14 (xtime b) ^^^ mul11 b ^^^ mul13 b ^^^ mul9 (mul3 b))
            ^^^ (mul14 (mul3 c) ^^^ mul11 (xtime c) ^^^ mul13 c ^^^ mul9 c)
            ^^^ (mul14 d ^^^ mul11 (mul3 d) ^^^ mul13 (xtime d) ^^^ mul9 d) := by
          simp only [Nat.xor_assoc, Nat.xor_comm, xor_lc]
      _ = b := by rw [a3, b0, c1, d2]; simp
  · calc _ = (mul14 a ^^^ mul11 (mul3 a) ^^^ mul13 (xtime a) ^^^ mul9 a)
            ^^^ (mul14 b ^^^ mul11 b ^^^ mul13 (mul3 b) ^^^ mul9 (xtime b))
            ^^^ (mul14 (xtime c) ^^^ mul11 c ^^^ mul13 c ^^^ mul9 (mul3 c))
            ^^^ (mul14 (mul3 d) ^^^ mul11 (xtime d) ^^^ mul13 d ^^^ mul9 d) := by
          simp only [Nat.xor_assoc, Nat.xor_comm, xor_lc]
      _ = c := by rw [a2, b3, c0, d1]; simp
  · calc _ = (mul14 (mul3 a) ^^^ mul11 (xtime a) ^^^ mul13 a ^^^ mul9 a)
            ^^^ (mul14 b ^^^ mul11 (mul3 b) ^^^ mul13 (xtime b) ^^^ mul9 b)
            ^^^ (mul14 c ^^^ mul11 c ^^^ mul13 (mul3 c) ^^^ mul9 (xtime c))
            ^^^ (mul14 (xtime d) ^^^ mul11 d ^^^ mul13 d ^^^ mul9 (mul3 d)) := by
          simp only [Nat.xor_assoc, Nat.xor_comm, xor_lc]
      _ = d := by rw [a1, b2, c3, d0]; simp

/-- InvMixColumns undoes MixColumns on a column. -/
theorem invMixW_mixW {w : Nat} (hw : w < 4294967296) : invMixW (mixW w) = w := by
  have h0 := byte0_lt w
  have h1 := byte1_lt w
  have h2 := byte2_lt w
  have h3 := byte3_lt w
  have hb := imix_mix_bytes h0 h1 h2 h3
  unfold mixW
  rw [invMixW_pack
    (xor_lt_256 (xor_lt_256 (xor_lt_256 (xtime_lt _) (mul3_lt h1)) h2) h3)
    (xor_lt_256 (xor_lt_256 (xor_lt_256 h0 (xtime_lt _)) (mul3_lt h2)) h3)
    (xor_lt_256 (xor_lt_256 (xor_lt_256 h0 h1) (xtime_lt _)) (mul3_lt h3))
    (xor_lt_256 (xor_lt_256 (xor_lt_256 (mul3_lt h0) h1) h2) (xtime_lt _)),
    hb.1, hb.2.1, hb.2.2.1, hb.2.2.2, pack_bytes hw]

/-- The four columns of MixColumns, added, are MixColumns of the packed word. -/
theorem colE_sum {a b c d : Nat} (ha : a < 256) (hb : b < 256) (hc : c < 256) (hd : d < 256) :
    colE 0 a ^^^ colE 1 b ^^^ colE 2 c ^^^ colE 3 d = mixW (pack a b c d) := by
  unfold mixW colE
  rw [byte0_pack ha hb hc hd, byte1_pack hb hc hd, byte2_pack hc hd, byte3_pack hd,
    pack_xor (xtime_lt _) ha ha (mul3_lt ha) (mul3_lt hb) (xtime_lt _) hb hb,
    pack_xor (xor_lt_256 (xtime_lt _) (mul3_lt hb)) (xor_lt_256 ha (xtime_lt _))
      (xor_lt_256 ha hb) (xor_lt_256 (mul3_lt ha) hb) hc (mul3_lt hc) (xtime_lt _) hc,
    pack_xor (xor_lt_256 (xor_lt_256 (xtime_lt _) (mul3_lt hb)) hc)
      (xor_lt_256 (xor_lt_256 ha (xtime_lt _)) (mul3_lt hc))
      (xor_lt_256 (xor_lt_256 ha hb) (xtime_lt _))
      (xor_lt_256 (xor_lt_256 (mul3_lt ha) hb) hc) hd hd (mul3_lt hd) (xtime_lt _)]

/-- The four columns of InvMixColumns, added, are InvMixColumns of the packed word. -/
theorem colD_sum {a b c d : Nat} (ha : a < 256) (hb : b < 256) (hc : c < 256) (hd : d < 256) :
    colD 0 a ^^^ colD 1 b ^^^ colD 2 c ^^^ colD 3 d = invMixW (pack a b c d) := by
  rw [invMixW_pack ha hb hc hd]
  unfold colD
  rw [pack_xor (mul14_lt _) (mul9_lt ha) (mul13_lt ha) (mul11_lt ha) (mul11_lt hb) (mul14_lt _)
      (mul9_lt hb) (mul13_lt hb),
    pack_xor (xor_lt_256 (mul14_lt _) (mul11_lt hb)) (xor_lt_256 (mul9_lt ha) (mul14_lt _))
      (xor_lt_256 (mul13_lt ha) (mul9_lt hb)) (xor_lt_256 (mul11_lt ha) (mul13_lt hb))
      (mul13_lt hc) (mul11_lt hc) (mul14_lt _) (mul9_lt hc),
    pack_xor (xor_lt_256 (xor_lt_256 (mul14_lt _) (mul11_lt hb)) (mul13_lt hc))
      (xor_lt_256 (xor_lt_256 (mul9_lt ha) (mul14_lt _)) (mul11_lt hc))
      (xor_lt_256 (xor_lt_256 (mul13_lt ha) (mul9_lt hb)) (mul14_lt _))
      (xor_lt_256 (xor_lt_256 (mul11_lt ha) (mul13_lt hb)) (mul9_lt hc))
      (mul9_lt hd) (mul13_lt hd) (mul11_lt hd) (mul14_lt _)]

end NAes

namespace NAes

/-! ## Loading the tables -/

theorem colE_lt (t : Nat) {s : Nat} (hs : s < 256) : colE t s < 4294967296 := by
  unfold colE
  split <;> exact pack_lt (by first | exact xtime_lt _ | exact mul3_lt hs | exact hs)
    (by first | exact xtime_lt _ | exact mul3_lt hs | exact hs)
    (by first | exact xtime_lt _ | exact mul3_lt hs | exact hs)
    (by first | exact xtime_lt _ | exact mul3_lt hs | exact hs)

theorem colD_lt (t : Nat) {s : Nat} (hs : s < 256) : colD t s < 4294967296 := by
  unfold colD
  split <;> exact pack_lt
    (by first | exact mul14_lt _ | exact mul9_lt hs | exact mul11_lt hs | exact mul13_lt hs)
    (by first | exact mul14_lt _ | exact mul9_lt hs | exact mul11_lt hs | exact mul13_lt hs)
    (by first | exact mul14_lt _ | exact mul9_lt hs | exact mul11_lt hs | exact mul13_lt hs)
    (by first | exact mul14_lt _ | exact mul9_lt hs | exact mul11_lt hs | exact mul13_lt hs)

theorem aes_enc_colE (t j : Nat) (ht : t < 4) (hj : j < 256) :
    arr2Get aes_init.aes_enc t j = colE t (arrGet SBOX j) := by
  rw [aes_enc_get t j ht hj, encWord_colE t ht _ (SBOX_lt j hj)]

theorem aes_dec_colD (t j : Nat) (ht : t < 4) (hj : j < 256) :
    arr2Get aes_init.aes_dec t j = colD t (arrGet SINV j) := by
  rw [aes_dec_get t j ht hj, decWord_colD t ht _ (SINV_lt j hj)]

theorem heapFold_spec (a : Arena) (xs : List Nat) (off : Nat) : ∀ n, off + n ≤ a.size / 4 →
    ((List.range n).foldl (fun h i => HEAP_set h (off + i) (arrGet xs i)) a).size = a.size ∧
    (∀ j, HEAP_get ((List.range n).foldl (fun h i => HEAP_set h (off + i) (arrGet xs i)) a) j
      = if off ≤ j ∧ j < off + n then arrGet xs (j - off) % 4294967296 else HEAP_get a j) ∧
    (∀ q, (q / 4 < off ∨ off + n ≤ q / 4) →
      ((List.range n).foldl (fun h i => HEAP_set h (off + i) (arrGet xs i)) a).mem q
        = a.mem q) := by
  intro n
  induction n with
  | zero =>
    intro _
    refine ⟨rfl, fun j => ?_, fun q _ => rfl⟩
    rw [if_neg (by omega)]; rfl
  | succ n ih =>
    intro h
    obtain ⟨hs, hg, hm⟩ := ih (by omega)
    rw [List.range_succ, List.foldl_append]
    simp only [List.foldl_cons, List.foldl_nil]
    refine ⟨by rw [HEAP_set_size, hs], fun j => ?_, fun q hq => ?_⟩
    · by_cases hj : j = off + n
      · subst hj
        rw [HEAP_get_set_same _ _ _ (by rw [hs]; omega), if_pos (by omega)]
        congr 2
        omega
      · rw [HEAP_get_set_other _ _ _ _ hj, hg]
        by_cases h2 : off ≤ j ∧ j < off + n
        · rw [if_pos h2, if_pos (by omega)]
        · rw [if_neg h2, if_neg (by omega)]
    · rw [HEAP_set_mem _ _ _ _ (by omega), hm q (by omega)]

theorem heapSetArr_spec (a : Arena) (xs : List Nat) (off : Nat) (h : off + xs.length ≤ a.size / 4)
    (hx : ∀ j, j < xs.length → arrGet xs j < 4294967296) :
    ∃ a', heapSetArr a xs off = some a' ∧ a'.size = a.size ∧
      (∀ j, j < xs.length → HEAP_get a' (off + j) = arrGet xs j) ∧
      (∀ j, (j < off ∨ off + xs.length ≤ j) → HEAP_get a' j = HEAP_get a j) ∧
      (∀ q, (q / 4 < off ∨ off + xs.length ≤ q / 4) → a'.mem q = a.mem q) := by
  obtain ⟨hs, hg, hm⟩ := heapFold_spec a xs off xs.length h
  refine ⟨_, by unfold heapSetArr; rw [if_pos h], hs, fun j hj => ?_, fun j hj => ?_, hm⟩
  · rw [hg, if_pos (by omega), Nat.mod_eq_of_lt]
    · congr 1; omega
    · have := hx j hj
      rwa [show off + j - off = j by omega]
  · rw [hg, if_neg (by omega)]

/-- The wrapper succeeds on a buffer of at least 0x3000 bytes, a multiple of 4: the
tables are loaded, the registers are zero and the data region is untouched. -/
theorem asm_wrapper_spec (buf : Arena) (h4 : buf.size % 4 = 0) (hs : 0x3000 ≤ buf.size) :
    ∃ st, asm_wrapper buf = some st ∧ TablesLoaded st.heap ∧ st.heap.size = buf.size ∧
      st.S0 = 0 ∧ st.S1 = 0 ∧ st.S2 = 0 ∧ st.S3 = 0 ∧
      st.T0 = 0 ∧ st.T1 = 0 ∧ st.T2 = 0 ∧ st.T3 = 0 ∧
      ∀ q, 0x3000 ≤ q → st.heap.mem q = buf.mem q := by
  have lsb : aes_init.aes_sbox.length = 256 := by rw [aes_sbox_eq, SBOX_length]
  have lsi : aes_init.aes_sinv.length = 256 := by rw [aes_sinv_eq, SINV_length]
  have le := aes_enc_inner_length
  have ld := aes_dec_inner_length
  have be : ∀ t, t < 4 → ∀ j, j < (aes_init.aes_enc.getD t []).length →
      arrGet (aes_init.aes_enc.getD t []) j < 4294967296 := by
    intro t ht j hj
    rw [le t ht] at hj
    have := aes_enc_colE t j ht hj
    unfold arr2Get at this
    rw [this]; exact colE_lt t (SBOX_lt j hj)
  have bd : ∀ t, t < 4 → ∀ j, j < (aes_init.aes_dec.getD t []).length →
      arrGet (aes_init.aes_dec.getD t []) j < 4294967296 := by
    intro t ht j hj
    rw [ld t ht] at hj
    have := aes_dec_colD t j ht hj
    unfold arr2Get at this
    rw [this]; exact colD_lt t (SINV_lt j hj)
  obtain ⟨a1, e1, s1, v1, o1, m1⟩ := heapSetArr_spec buf aes_init.aes_sbox 0x200
    (by rw [lsb]; omega)
    (by intro j hj; rw [lsb] at hj; rw [aes_sbox_eq]; have := SBOX_lt j hj; omega)
  obtain ⟨a2, e2, s2, v2, o2, m2⟩ := heapSetArr_spec a1 aes_init.aes_sinv 0x300
    (by rw [lsi]; omega)
    (by intro j hj; rw [lsi] at hj; rw [aes_sinv_eq]; have := SINV_lt j hj; omega)
  obtain ⟨a3, e3, s3, v3, o3, m3⟩ := heapSetArr_spec a2 (aes_init.aes_enc.getD 0 []) 0x400
    (by rw [le 0 (by omega)]; omega) (be 0 (by omega))
  obtain ⟨a4, e4, s4, v4, o4, m4⟩ := heapSetArr_spec a3 (aes_init.aes_dec.getD 0 []) 0x800
    (by rw [ld 0 (by omega)]; omega) (bd 0 (by omega))
  obtain ⟨a5, e5, s5, v5, o5, m5⟩ := heapSetArr_spec a4 (aes_init.aes_enc.getD 1 []) 0x500
    (by rw [le 1 (by omega)]; omega) (be 1 (by omega))
  obtain ⟨a6, e6, s6, v6, o6, m6⟩ := heapSetArr_spec a5 (aes_init.aes_dec.getD 1 []) 0x900
    (by rw [ld 1 (by omega)]; omega) (bd 1 (by omega))
  obtain ⟨a7, e7, s7, v7, o7, m7⟩ := heapSetArr_spec a6 (aes_init.aes_enc.getD 2 []) 0x600
    (by rw [le 2 (by omega)]; omega) (be 2 (by omega))
  obtain ⟨a8, e8, s8, v8, o8, m8⟩ := heapSetArr_spec a7 (aes_init.aes_dec.getD 2 []) 0xa00
    (by rw [ld 2 (by omega)]; omega) (bd 2 (by omega))
  obtain ⟨a9, e9, s9, v9, o9, m9⟩ := heapSetArr_spec a8 (aes_init.aes_enc.getD 3 []) 0x700
    (by rw [le 3 (by omega)]; omega) (be 3 (by omega))
  obtain ⟨a10, e10, s10, v10, o10, m10⟩ := heapSetArr_spec a9 (aes_init.aes_dec.getD 3 []) 0xb00
    (by rw [ld 3 (by omega)]; omega) (bd 3 (by omega))
  rw [le 0 (by omega)] at v3 o3 m3
  rw [ld 0 (by omega)] at v4 o4 m4
  rw [le 1 (by omega)] at v5 o5 m5
  rw [ld 1 (by omega)] at v6 o6 m6
  rw [le 2 (by omega)] at v7 o7 m7
  rw [ld 2 (by omega)] at v8 o8 m8
  rw [le 3 (by omega)] at v9 o9 m9
  rw [ld 3 (by omega)] at v10 o10 m10
  rw [lsb] at v1 o1 m1
  rw [lsi] at v2 o2 m2
  refine ⟨{ heap := a10, S0 := 0, S1 := 0, S2 := 0, S3 := 0, T0 := 0, T1 := 0, T2 := 0,
            T3 := 0 }, ?_, ⟨?_, ?_, ?_, ?_, ?_⟩, ?_, rfl, rfl, rfl, rfl, rfl, rfl, rfl, rfl, ?_⟩
  · unfold asm_wrapper
    rw [if_neg (by omega)]
    have n1 : (0x0800 >>> 2 : Nat) = 0x200 := by decide
    have n2 : (0x0c00 >>> 2 : Nat) = 0x300 := by decide
    have n3 : ((0x1000 + 0x400 * 0) >>> 2 : Nat) = 0x400 := by decide
    have n4 : ((0x2000 + 0x400 * 0) >>> 2 : Nat) = 0x800 := by decide
    have n5 : ((0x1000 + 0x400 * 1) >>> 2 : Nat) = 0x500 := by decide
    have n6 : ((0x2000 + 0x400 * 1) >>> 2 : Nat) = 0x900 := by decide
    have n7 : ((0x1000 + 0x400 * 2) >>> 2 : Nat) = 0x600 := by decide
    have n8 : ((0x2000 + 0x400 * 2) >>> 2 : Nat) = 0xa00 := by decide
    have n9 : ((0x1000 + 0x400 * 3) >>> 2 : Nat) = 0x700 := by decide
    have n10 : ((0x2000 + 0x400 * 3) >>> 2 : Nat) = 0xb00 := by decide
    rw [n1, n2, n3, n4, n5, n6, n7, n8, n9, n10, e1, Option.some_bind, e2, Option.some_bind,
      e3, Option.some_bind, e4, Option.some_bind, e5, Option.some_bind, e6, Option.some_bind,
      e7, Option.some_bind, e8, Option.some_bind, e9, Option.some_bind, e10, Option.some_bind]
  · simp only; omega
  · intro j hj
    simp only
    rw [o10 _ (by omega), o9 _ (by omega), o8 _ (by omega), o7 _ (by omega), o6 _ (by omega),
      o5 _ (by omega), o4 _ (by omega), o3 _ (by omega), o2 _ (by omega), v1 j hj]
  · intro j hj
    simp only
    rw [o10 _ (by omega), o9 _ (by omega), o8 _ (by omega), o7 _ (by omega), o6 _ (by omega),
      o5 _ (by omega), o4 _ (by omega), o3 _ (by omega), v2 j hj]
  · intro t j ht hj
    simp only
    unfold arr2Get
    rcases (by omega : t = 0 ∨ t = 1 ∨ t = 2 ∨ t = 3) with h | h | h | h <;> subst h
    · rw [o10 _ (by omega), o9 _ (by omega), o8 _ (by omega), o7 _ (by omega),
        o6 _ (by omega), o5 _ (by omega), o4 _ (by omega), ← v3 j hj]
    · rw [o10 _ (by omega), o9 _ (by omega), o8 _ (by omega), o7 _ (by omega),
        o6 _ (by omega), ← v5 j hj]
    · rw [o10 _ (by omega), o9 _ (by omega), o8 _ (by omega), ← v7 j hj]
    · rw [o10 _ (by omega), ← v9 j hj]
  · intro t j ht hj
    simp only
    unfold arr2Get
    rcases (by omega : t = 0 ∨ t = 1 ∨ t = 2 ∨ t = 3) with h | h | h | h <;> subst h
    · rw [o10 _ (by omega), o9 _ (by omega), o8 _ (by omega), o7 _ (by omega),
        o6 _ (by omega), o5 _ (by omega), ← v4 j hj]
    · rw [o10 _ (by omega), o9 _ (by omega), o8 _ (by omega), o7 _ (by omega), ← v6 j hj]
    · rw [o10 _ (by omega), o9 _ (by omega), ← v8 j hj]
    · rw [← v10 j hj]
  · simp only; omega
  · intro q hq
    simp only
    rw [m10 q (by omega), m9 q (by omega), m8 q (by omega), m7 q (by omega), m6 q (by omega),
      m5 q (by omega), m4 q (by omega), m3 q (by omega), m2 q (by omega), m1 q (by omega)]

end NAes

namespace NAes

/-! ## The views `ekeys` and `dkeys` -/

theorem ekeys_get_lt (a : Arena) (i : Nat) : ekeys_get a i < 4294967296 := by
  unfold ekeys_get; split
  · exact HEAP_get_lt _ _
  · norm_num

theorem ekeys_set_size (a : Arena) (i v : Nat) : (ekeys_set a i v).size = a.size := by
  unfold ekeys_set; split
  · exact HEAP_set_size _ _ _
  · rfl

theorem dkeys_set_size (a : Arena) (i v : Nat) : (dkeys_set a i v).size = a.size := by
  unfold dkeys_set; split
  · exact HEAP_set_size _ _ _
  · rfl

theorem ekeys_get_set (a : Arena) (i v j : Nat) (hs : 60 ≤ a.size / 4) (hi : i < 60) :
    ekeys_get (ekeys_set a i v) j = if j = i then v % 4294967296 else ekeys_get a j := by
  unfold ekeys_get ekeys_set
  rw [if_pos hi]
  by_cases h : j = i
  · subst h; rw [if_pos hi, if_pos rfl, HEAP_get_set_same _ _ _ (by omega)]
  · rw [if_neg h, HEAP_get_set_other _ _ _ _ h]

theorem dkeys_get_set (a : Arena) (i v j : Nat) (hs : 316 ≤ a.size / 4) (hi : i < 60) :
    dkeys_get (dkeys_set a i v) j = if j = i then v % 4294967296 else dkeys_get a j := by
  unfold dkeys_get dkeys_set
  rw [if_pos hi]
  by_cases h : j = i
  · subst h; rw [if_pos hi, if_pos rfl, HEAP_get_set_same _ _ _ (by omega)]
  · rw [if_neg h, HEAP_get_set_other _ _ _ _ (by omega)]

theorem ekeys_get_dkeys_set (a : Arena) (i v j : Nat) :
    ekeys_get (dkeys_set a i v) j = ekeys_get a j := by
  unfold ekeys_get dkeys_set
  split
  · split
    · rw [HEAP_get_set_other _ _ _ _ (by omega)]
    · rfl
  · rfl

theorem HEAP_get_ekeys_set (a : Arena) (i v j : Nat) (hj : 60 ≤ j) :
    HEAP_get (ekeys_set a i v) j = HEAP_get a j := by
  unfold ekeys_set; split
  · rw [HEAP_get_set_other _ _ _ _ (by omega)]
  · rfl

theorem HEAP_get_dkeys_set (a : Arena) (i v j : Nat) (hj : j < 256 ∨ 316 ≤ j) :
    HEAP_get (dkeys_set a i v) j = HEAP_get a j := by
  unfold dkeys_set; split
  · rw [HEAP_get_set_other _ _ _ _ (by omega)]
  · rfl

theorem ekeys_set_mem (a : Arena) (i v q : Nat) (hq : 240 ≤ q) :
    (ekeys_set a i v).mem q = a.mem q := by
  unfold ekeys_set; split
  · rw [HEAP_set_mem _ _ _ _ (by omega)]
  · rfl

theorem dkeys_set_mem (a : Arena) (i v q : Nat) (hq : q < 1024 ∨ 1264 ≤ q) :
    (dkeys_set a i v).mem q = a.mem q := by
  unfold dkeys_set; split
  · rw [HEAP_set_mem _ _ _ _ (by omega)]
  · rfl

/-! ## The first loop of `set_key` -/

theorem ekeysLoop_succ (T : Tables) (ks n i rcon : Nat) (a : Arena) :
    ekeysLoop T ks (n + 1) i rcon a
      = ekeysLoop T ks n (i + 1) (rconNext ks i rcon)
          (ekeys_set a i (ekeys_get a (i - ks)
            ^^^ keyTemp T ks i rcon (if i = 0 then 0 else ekeys_get a (i - 1)))) := rfl

theorem subWord_lt (T : Tables) (hT : ∀ x, arrGet T.aes_sbox x < 4294967296) (k : Nat) :
    subWord T k < 4294967296 := by
  unfold subWord
  exact xor_lt_u32 (xor_lt_u32 (xor_lt_u32 (shl32_lt _ _) (shl32_lt _ _)) (shl32_lt _ _)) (hT _)

theorem keyTemp_lt (T : Tables) (hT : ∀ x, arrGet T.aes_sbox x < 4294967296) (ks i rcon k : Nat)
    (hk : k < 4294967296) : keyTemp T ks i rcon k < 4294967296 := by
  have h1 : (if (ks ≠ 0 ∧ i % ks = 0) ∨ (ks = 8 ∧ i % ks = 4) then subWord T k else k)
      < 4294967296 := by
    split
    · exact subWord_lt T hT k
    · exact hk
  unfold keyTemp
  simp only
  split
  · refine xor_lt_u32 (xor_lt_u32 (shl32_lt _ _) ?_) (shl32_lt _ _)
    rw [Nat.shiftRight_eq_div_pow]
    exact Nat.lt_of_le_of_lt (Nat.div_le_self _ _) h1
  · exact h1

/-- The first loop of `set_key`: the words below `i` stay, each word from `i` on
satisfies the recurrence of the loop body, and nothing else changes. -/
theorem ekeysLoop_spec (T : Tables) (hT : ∀ x, arrGet T.aes_sbox x < 4294967296) (ks : Nat)
    (hks : 1 ≤ ks) : ∀ (n i rcon : Nat) (a : Arena), ks ≤ i → i + n ≤ 60 → 60 ≤ a.size / 4 →
    (ekeysLoop T ks n i rcon a).size = a.size ∧
    (∀ j, j < i → ekeys_get (ekeysLoop T ks n i rcon a) j = ekeys_get a j) ∧
    (∀ j, i ≤ j → j < i + n →
      ekeys_get (ekeysLoop T ks n i rcon a) j
        = ekeys_get (ekeysLoop T ks n i rcon a) (j - ks)
          ^^^ keyTemp T ks j (rconAt ks (j - i) i rcon)
                (ekeys_get (ekeysLoop T ks n i rcon a) (j - 1))) ∧
    (∀ j, 60 ≤ j → HEAP_get (ekeysLoop T ks n i rcon a) j = HEAP_get a j) ∧
    (∀ q, 240 ≤ q → (ekeysLoop T ks n i rcon a).mem q = a.mem q) := by
  intro n
  induction n with
  | zero =>
    intro i rcon a _ _ _
    exact ⟨rfl, fun _ _ => rfl, fun j h1 h2 => by omega, fun _ _ => rfl, fun _ _ => rfl⟩
  | succ n ih =>
    intro i rcon a hi hn hs
    rw [ekeysLoop_succ]
    have hi0 : ¬ i = 0 := by omega
    rw [if_neg hi0]
    generalize hv : ekeys_get a (i - ks) ^^^ keyTemp T ks i rcon (ekeys_get a (i - 1)) = v
    have hvlt : v < 4294967296 := by
      rw [← hv]
      exact xor_lt_u32 (ekeys_get_lt _ _) (keyTemp_lt T hT _ _ _ _ (ekeys_get_lt _ _))
    obtain ⟨s1, b1, r1, g1, m1⟩ := ih (i + 1) (rconNext ks i rcon) (ekeys_set a i v) (by omega)
      (by omega) (by rw [ekeys_set_size]; exact hs)
    refine ⟨by rw [s1, ekeys_set_size], fun j hj => ?_, fun j h1 h2 => ?_, fun j hj => ?_,
      fun q hq => ?_⟩
    · rw [b1 j (by omega), ekeys_get_set _ _ _ _ hs (by omega), if_neg (by omega)]
    · by_cases hj : j = i
      · subst hj
        rw [b1 j (by omega), b1 (j - ks) (by omega), b1 (j - 1) (by omega),
          ekeys_get_set _ _ _ _ hs (by omega), if_pos rfl,
          ekeys_get_set _ _ _ _ hs (by omega), if_neg (by omega),
          ekeys_get_set _ _ _ _ hs (by omega), if_neg (by omega), Nat.mod_eq_of_lt hvlt, ← hv,
          Nat.sub_self]
        rfl
      · rw [r1 j (by omega) (by omega)]
        have e : j - i = (j - (i + 1)) + 1 := by omega
        rw [e]
        rfl
    · rw [g1 j hj, HEAP_get_ekeys_set _ _ _ _ hj]
    · rw [m1 q hq, ekeys_set_mem _ _ _ _ hq]

end NAes

namespace NAes

/-! ## The second loop of `set_key` -/

theorem dkeysInner_succ (T : Tables) (i j n jj : Nat) (a : Arena) :
    dkeysInner T i j (n + 1) jj a
      = dkeysInner T i j n (jj + 1)
          (dkeys_set a (j + jj) (dkeyVal T i j (ekeys_get a (i - (4 + j) + (4 - jj) % 4)))) :=
  rfl

theorem dkeyVal_lt (T : Tables) (hD : ∀ t x, arr2Get T.aes_dec t x < 4294967296) (i j k : Nat)
    (hk : k < 4294967296) : dkeyVal T i j k < 4294967296 := by
  unfold dkeyVal
  split
  · exact hk
  · exact xor_lt_u32 (xor_lt_u32 (xor_lt_u32 (hD _ _) (hD _ _)) (hD _ _)) (hD _ _)

theorem dkeysInner_spec (T : Tables) (hD : ∀ t x, arr2Get T.aes_dec t x < 4294967296)
    (i j : Nat) : ∀ (n jj : Nat) (a : Arena), j + jj + n ≤ 60 → 316 ≤ a.size / 4 →
    (dkeysInner T i j n jj a).size = a.size ∧
    (∀ x, ekeys_get (dkeysInner T i j n jj a) x = ekeys_get a x) ∧
    (∀ x, dkeys_get (dkeysInner T i j n jj a) x
      = if j + jj ≤ x ∧ x < j + jj + n then
          dkeyVal T i j (ekeys_get a (i - (4 + j) + (4 - (x - j)) % 4))
        else dkeys_get a x) ∧
    (∀ x, (x < 256 ∨ 316 ≤ x) → HEAP_get (dkeysInner T i j n jj a) x = HEAP_get a x) ∧
    (∀ q, (q < 1024 ∨ 1264 ≤ q) → (dkeysInner T i j n jj a).mem q = a.mem q) := by
  intro n
  induction n with
  | zero =>
    intro jj a _ _
    refine ⟨rfl, fun _ => rfl, fun x => ?_, fun _ _ => rfl, fun _ _ => rfl⟩
    rw [if_neg (by omega)]; rfl
  | succ n ih =>
    intro jj a h hs
    rw [dkeysInner_succ]
    generalize hv : dkeyVal T i j (ekeys_get a (i - (4 + j) + (4 - jj) % 4)) = v
    have hvlt : v < 4294967296 := by
      rw [← hv]; exact dkeyVal_lt T hD _ _ _ (ekeys_get_lt _ _)
    obtain ⟨s1, e1, d1, g1, m1⟩ := ih (jj + 1) (dkeys_set a (j + jj) v) (by omega)
      (by rw [dkeys_set_size]; exact hs)
    refine ⟨by rw [s1, dkeys_set_size], fun x => ?_, fun x => ?_, fun x hx => ?_,
      fun q hq => ?_⟩
    · rw [e1, ekeys_get_dkeys_set]
    · rw [d1]
      simp only [ekeys_get_dkeys_set]
      rw [dkeys_get_set _ _ _ _ hs (by omega)]
      by_cases hx : x = j + jj
      · subst hx
        rw [if_neg (by omega), if_pos rfl, if_pos (by omega), Nat.mod_eq_of_lt hvlt, ← hv]
        congr 3
        omega
      · rw [if_neg hx]
        by_cases h2 : j + (jj + 1) ≤ x ∧ x < j + (jj + 1) + n
        · rw [if_pos h2, if_pos (by omega)]
        · rw [if_neg h2, if_neg (by omega)]
    · rw [g1 x hx, HEAP_get_dkeys_set _ _ _ _ hx]
    · rw [m1 q hq, dkeys_set_mem _ _ _ _ hq]

theorem dkeysLoop_succ (T : Tables) (i n j : Nat) (a : Arena) :
    dkeysLoop T i (n + 1) j a = dkeysLoop T i n (j + 4) (dkeysInner T i j 4 0 a) := rfl

/-- The second loop of `set_key`: `ekeys` stays, each word of the groups visited is
`dkeyVal` of a word of `ekeys`, and nothing else changes. -/
theorem dkeysLoop_spec (T : Tables) (hD : ∀ t x, arr2Get T.aes_dec t x < 4294967296)
    (i : Nat) : ∀ (n j : Nat) (a : Arena), j % 4 = 0 → j + 4 * n ≤ 60 → 316 ≤ a.size / 4 →
    (dkeysLoop T i n j a).size = a.size ∧
    (∀ x, ekeys_get (dkeysLoop T i n j a) x = ekeys_get a x) ∧
    (∀ x, dkeys_get (dkeysLoop T i n j a) x
      = if j ≤ x ∧ x < j + 4 * n then
          dkeyVal T i (x / 4 * 4) (ekeys_get a (i - (4 + x / 4 * 4) + (4 - x % 4) % 4))
        else dkeys_get a x) ∧
    (∀ x, (x < 256 ∨ 316 ≤ x) → HEAP_get (dkeysLoop T i n j a) x = HEAP_get a x) ∧
    (∀ q, (q < 1024 ∨ 1264 ≤ q) → (dkeysLoop T i n j a).mem q = a.mem q) := by
  intro n
  induction n with
  | zero =>
    intro j a _ _ _
    refine ⟨rfl, fun _ => rfl, fun x => ?_, fun _ _ => rfl, fun _ _ => rfl⟩
    rw [if_neg (by omega)]; rfl
  | succ n ih =>
    intro j a hj h hs
    rw [dkeysLoop_succ]
    obtain ⟨s0, e0, d0, g0, m0⟩ := dkeysInner_spec T hD i j 4 0 a (by omega) hs
    obtain ⟨s1, e1, d1, g1, m1⟩ := ih (j + 4) (dkeysInner T i j 4 0 a) (by omega) (by omega)
      (by rw [s0]; exact hs)
    refine ⟨by rw [s1, s0], fun x => by rw [e1, e0], fun x => ?_,
      fun x hx => by rw [g1 x hx, g0 x hx], fun q hq => by rw [m1 q hq, m0 q hq]⟩
    rw [d1]
    simp only [e0]
    rw [d0]
    by_cases h2 : j + 4 ≤ x ∧ x < j + 4 + 4 * n
    · rw [if_pos h2, if_pos (by omega)]
    · rw [if_neg h2]
      by_cases h3 : j + 0 ≤ x ∧ x < j + 0 + 4
      · rw [if_pos h3, if_pos (by omega)]
        have e1 : x / 4 * 4 = j := by omega
        have e2 : x - j = x % 4 := by omega
        rw [e1, e2]
      · rw [if_neg h3, if_neg (by omega)]

end NAes

namespace NAes

/-! ## `set_key` as a whole -/

theorem SBOX_get_lt (x : Nat) : arrGet SBOX x < 256 := by
  by_cases h : x < 256
  · exact SBOX_lt x h
  · unfold arrGet
    rw [List.getD_eq_default _ _ (by rw [SBOX_length]; omega)]
    norm_num

theorem SINV_get_lt (x : Nat) : arrGet SINV x < 256 := by
  by_cases h : x < 256
  · exact SINV_lt x h
  · unfold arrGet
    rw [List.getD_eq_default _ _ (by rw [SINV_length]; omega)]
    norm_num

theorem aes_sbox_lt (x : Nat) : arrGet aes_init.aes_sbox x < 4294967296 := by
  rw [aes_sbox_eq]; have := SBOX_get_lt x; omega

theorem aes_dec_lt (t x : Nat) : arr2Get aes_init.aes_dec t x < 4294967296 := by
  by_cases ht : t < 4
  · by_cases hx : x < 256
    · rw [aes_dec_colD t x ht hx]; exact colD_lt t (SINV_lt x hx)
    · unfold arr2Get arrGet
      rw [List.getD_eq_default _ _ (by rw [aes_dec_inner_length t ht]; omega)]
      norm_num
  · unfold arr2Get
    rw [List.getD_eq_default _ _ (by rw [aes_dec_length]; omega)]
    unfold arrGet
    simp

theorem setRawKey_spec (a : Arena) (k0 k1 k2 k3 k4 k5 k6 k7 : Nat) (hs : 60 ≤ a.size / 4) :
    (setRawKey a [k0, k1, k2, k3, k4, k5, k6, k7]).size = a.size ∧
    (∀ i, ekeys_get (setRawKey a [k0, k1, k2, k3, k4, k5, k6, k7]) i
      = if i < 8 then [k0, k1, k2, k3, k4, k5, k6, k7].getD i 0 % 4294967296
        else ekeys_get a i) ∧
    (∀ j, 60 ≤ j → HEAP_get (setRawKey a [k0, k1, k2, k3, k4, k5, k6, k7]) j = HEAP_get a j) ∧
    (∀ q, 240 ≤ q → (setRawKey a [k0, k1, k2, k3, k4, k5, k6, k7]).mem q = a.mem q) := by
  simp only [setRawKey, List.enum, List.enumFrom, List.foldl_cons, List.foldl_nil, Nat.reduceAdd]
  refine ⟨by simp only [ekeys_set_size], fun i => ?_, fun j hj => ?_, fun q hq => ?_⟩
  · simp (disch := first | omega | (simp only [ekeys_set_size]; omega)) only [ekeys_get_set]
    by_cases h : i < 8
    · rw [if_pos h]
      interval_cases i <;> simp
    · rw [if_neg h]
      simp only [show ¬ i = 7 by omega, show ¬ i = 6 by omega, show ¬ i = 5 by omega,
        show ¬ i = 4 by omega, show ¬ i = 3 by omega, show ¬ i = 2 by omega,
        show ¬ i = 1 by omega, show ¬ i = 0 by omega, if_false]
  · simp only [HEAP_get_ekeys_set _ _ _ _ hj]
  · simp only [ekeys_set_mem _ _ _ _ hq]

theorem set_key_heap (st : Asm) (ks k0 k1 k2 k3 k4 k5 k6 k7 : Nat) :
    (set_key st ks k0 k1 k2 k3 k4 k5 k6 k7).heap
      = dkeysLoop aes_init (4 * ks + 28) ((4 * ks + 28 + 3) / 4) 0
          (ekeysLoop aes_init ks (4 * ks + 28 - ks) ks 1
            (setRawKey st.heap [k0, k1, k2, k3, k4, k5, k6, k7])) := rfl

/-- What `set_key` leaves in the buffer, for a key size from 1 to 8 and a buffer
that holds both schedules. -/
theorem set_key_spec (st : Asm) (ks k0 k1 k2 k3 k4 k5 k6 k7 : Nat) (h1 : 1 ≤ ks) (h8 : ks ≤ 8)
    (hs : 1264 ≤ st.heap.size) :
    (set_key st ks k0 k1 k2 k3 k4 k5 k6 k7).heap.size = st.heap.size ∧
    (∀ i, i < ks → ekeys_get (set_key st ks k0 k1 k2 k3 k4 k5 k6 k7).heap i
      = [k0, k1, k2, k3, k4, k5, k6, k7].getD i 0 % 4294967296) ∧
    (∀ i, ks ≤ i → i < 4 * ks + 28 →
      ekeys_get (set_key st ks k0 k1 k2 k3 k4 k5 k6 k7).heap i
        = ekeys_get (set_key st ks k0 k1 k2 k3 k4 k5 k6 k7).heap (i - ks)
          ^^^ keyTemp aes_init ks i (rconAt ks (i - ks) ks 1)
                (ekeys_get (set_key st ks k0 k1 k2 k3 k4 k5 k6 k7).heap (i - 1))) ∧
    (∀ x, x < 4 * ks + 28 →
      dkeys_get (set_key st ks k0 k1 k2 k3 k4 k5 k6 k7).heap x
        = dkeyVal aes_init (4 * ks + 28) (x / 4 * 4)
            (ekeys_get (set_key st ks k0 k1 k2 k3 k4 k5 k6 k7).heap
              (4 * ks + 28 - (4 + x / 4 * 4) + (4 - x % 4) % 4))) ∧
    (∀ x, 316 ≤ x →
      HEAP_get (set_key st ks k0 k1 k2 k3 k4 k5 k6 k7).heap x = HEAP_get st.heap x) ∧
    (∀ q, 1264 ≤ q → (set_key st ks k0 k1 k2 k3 k4 k5 k6 k7).heap.mem q = st.heap.mem q) := by
  rw [set_key_heap]
  obtain ⟨s0, e0, g0, m0⟩ := setRawKey_spec st.heap k0 k1 k2 k3 k4 k5 k6 k7 (by omega)
  obtain ⟨s1, b1, r1, g1, m1⟩ := ekeysLoop_spec aes_init aes_sbox_lt ks h1 (4 * ks + 28 - ks) ks 1
    (setRawKey st.heap [k0, k1, k2, k3, k4, k5, k6, k7]) (by omega) (by omega)
    (by rw [s0]; omega)
  obtain ⟨s2, e2, d2, g2, m2⟩ := dkeysLoop_spec aes_init aes_dec_lt (4 * ks + 28)
    ((4 * ks + 28 + 3) / 4) 0
    (ekeysLoop aes_init ks (4 * ks + 28 - ks) ks 1
      (setRawKey st.heap [k0, k1, k2, k3, k4, k5, k6, k7])) (by omega) (by omega)
    (by rw [s1, s0]; omega)
  refine ⟨by rw [s2, s1, s0], fun i hi => ?_, fun i hi1 hi2 => ?_, fun x hx => ?_,
    fun x hx => ?_, fun q hq => ?_⟩
  · rw [e2, b1 i hi, e0, if_pos (by omega)]
  · rw [e2, e2, e2, r1 i hi1 (by omega)]
  · rw [d2, if_pos (by omega)]
    simp only [e2]
  · rw [g2 x (by omega), g1 x (by omega), g0 x (by omega)]
  · rw [m2 q (by omega), m1 q (by omega), m0 q (by omega)]

theorem set_key_tables (st : Asm) (ks k0 k1 k2 k3 k4 k5 k6 k7 : Nat) (h1 : 1 ≤ ks)
    (h8 : ks ≤ 8) (hT : TablesLoaded st.heap) :
    TablesLoaded (set_key st ks k0 k1 k2 k3 k4 k5 k6 k7).heap := by
  obtain ⟨hs, t1, t2, t3, t4⟩ := hT
  obtain ⟨s, _, _, _, g, _⟩ := set_key_spec st ks k0 k1 k2 k3 k4 k5 k6 k7 h1 h8 (by omega)
  refine ⟨by rw [s]; exact hs, fun j hj => ?_, fun j hj => ?_, fun t j ht hj => ?_,
    fun t j ht hj => ?_⟩
  · rw [g _ (by omega)]; exact t1 j hj
  · rw [g _ (by omega)]; exact t2 j hj
  · rw [g _ (by omega)]; exact t3 t j ht hj
  · rw [g _ (by omega)]; exact t4 t j ht hj

end NAes

namespace NAes

/-! ## `_core` as a transform on four words -/

theorem pack_of_shl_xor {a b c d : Nat} (ha : a < 256) (hb : b < 256) (hc : c < 256)
    (hd : d < 256) : shl32 a 24 ^^^ shl32 b 16 ^^^ shl32 c 8 ^^^ d = pack a b c d := by
  have e1 : shl32 a 24 = a * 16777216 := by rw [shl32_eq]; omega
  have e2 : shl32 b 16 = b * 65536 := by rw [shl32_eq]; omega
  have e3 : shl32 c 8 = c * 256 := by rw [shl32_eq]; omega
  rw [e1, e2, e3, xor_eq_add 24 (a * 16777216) (b * 65536) (by omega) (by omega),
    xor_eq_add 16 (a * 16777216 + b * 65536) (c * 256) (by omega) (by omega),
    xor_eq_add 8 (a * 16777216 + b * 65536 + c * 256) d (by omega) (by omega)]
  rfl

theorem pack_of_shl_or {a b c d : Nat} (ha : a < 256) (hb : b < 256) (hc : c < 256)
    (hd : d < 256) : shl32 a 24 ||| shl32 b 16 ||| shl32 c 8 ||| d = pack a b c d := by
  have e1 : shl32 a 24 = a * 16777216 := by rw [shl32_eq]; omega
  have e2 : shl32 b 16 = b * 65536 := by rw [shl32_eq]; omega
  have e3 : shl32 c 8 = c * 256 := by rw [shl32_eq]; omega
  rw [e1, e2, e3, or_eq_add 24 (a * 16777216) (b * 65536) (by omega) (by omega),
    or_eq_add 16 (a * 16777216 + b * 65536) (c * 256) (by omega) (by omega),
    or_eq_add 8 (a * 16777216 + b * 65536 + c * 256) d (by omega) (by omega)]
  rfl

/-- A table read of `_core`: base `t`, a multiple of 1024, and a byte index times 4. -/
theorem HEAPat_table (a : Arena) (t b : Nat) (ht : t % 1024 = 0) (ht2 : t + 1024 ≤ 2147483648)
    (hb : b < 256) : HEAPat a (t ||| 4 * b) = HEAP_get a (t / 4 + b) := by
  rw [or_eq_add 10 t (4 * b) (by omega) (by omega)]
  unfold HEAPat
  rw [sar32_2 _ (by omega), if_pos (by omega)]
  congr 1
  omega

/-- A key read of `_core`: base `k`, a multiple of 1024, round offset `16 * j` and word
offset `c`. -/
theorem HEAPat_key (a : Arena) (k j c : Nat) (hk : k % 1024 = 0) (hk2 : k + 1024 ≤ 2147483648)
    (hj : 16 * j + 16 ≤ 1024) (hc : c < 16) :
    HEAPat a (k ||| 16 * j ||| c) = HEAP_get a (k / 4 + 4 * j + c / 4) := by
  rw [or_eq_add 10 k (16 * j) (by omega) (by omega),
    or_eq_add 4 (k + 16 * j) c (by omega) (by omega)]
  unfold HEAPat
  rw [sar32_2 _ (by omega), if_pos (by omega)]
  congr 1
  omega

/-- One pass of the loop of `_core` over tables that hold `col tt (S b)`. -/
theorem coreRound_abs (a : Arena) (S mix : Nat → Nat) (col : Nat → Nat → Nat) (k t j : Nat)
    (x : Nat × Nat × Nat × Nat)
    (hk : k % 1024 = 0) (hk2 : k + 1024 ≤ 2147483648)
    (ht : t % 4096 = 0) (ht2 : t + 4096 ≤ 2147483648) (hj : 16 * j + 16 ≤ 1024)
    (htab : ∀ tt b, tt < 4 → b < 256 → HEAP_get a (t / 4 + 256 * tt + b) = col tt (S b))
    (hcol : ∀ a b c d, a < 256 → b < 256 → c < 256 → d < 256 →
      col 0 a ^^^ col 1 b ^^^ col 2 c ^^^ col 3 d = mix (pack a b c d))
    (hS : ∀ b, S b < 256) :
    coreRound a k t (16 * j) x.1 x.2.1 x.2.2.1 x.2.2.2
      = xor4 (map4 mix (subShift S x)) (keyGroup (fun w => HEAP_get a (k / 4 + w)) j) := by
  have t1 : t ||| 0x400 = t + 1024 := or_eq_add 12 t 1024 (by omega) (by norm_num)
  have t2 : t ||| 0x800 = t + 2048 := or_eq_add 12 t 2048 (by omega) (by norm_num)
  have t3 : t ||| 0xc00 = t + 3072 := or_eq_add 12 t 3072 (by omega) (by norm_num)
  have r0 : ∀ b, b < 256 → HEAPat a (t ||| 4 * b) = col 0 (S b) := fun b hb => by
    rw [HEAPat_table a t b (by omega) (by omega) hb, ← htab 0 b (by omega) hb]
    congr 1
  have r1 : ∀ b, b < 256 → HEAPat a (t + 1024 ||| 4 * b) = col 1 (S b) := fun b hb => by
    rw [HEAPat_table a _ b (by omega) (by omega) hb, ← htab 1 b (by omega) hb]
    congr 1; omega
  have r2 : ∀ b, b < 256 → HEAPat a (t + 2048 ||| 4 * b) = col 2 (S b) := fun b hb => by
    rw [HEAPat_table a _ b (by omega) (by omega) hb, ← htab 2 b (by omega) hb]
    congr 1; omega
  have r3 : ∀ b, b < 256 → HEAPat a (t + 3072 ||| 4 * b) = col 3 (S b) := fun b hb => by
    rw [HEAPat_table a _ b (by omega) (by omega) hb, ← htab 3 b (by omega) hb]
    congr 1; omega
  have k0 := HEAPat_key a k j 0 hk hk2 hj (by norm_num)
  have k4 := HEAPat_key a k j 4 hk hk2 hj (by norm_num)
  have k8 := HEAPat_key a k j 8 hk hk2 hj (by norm_num)
  have k12 := HEAPat_key a k j 12 hk hk2 hj (by norm_num)
  unfold coreRound
  simp only [t1, t2, t3, sar32_22, sar32_14, sar32_6, shl32_2, k0, k4, k8, k12]
  rw [r0 _ (byte0_lt _), r0 _ (byte0_lt _), r0 _ (byte0_lt _), r0 _ (byte0_lt _),
    r1 _ (byte1_lt _), r1 _ (byte1_lt _), r1 _ (byte1_lt _), r1 _ (byte1_lt _),
    r2 _ (byte2_lt _), r2 _ (byte2_lt _), r2 _ (byte2_lt _), r2 _ (byte2_lt _),
    r3 _ (byte3_lt _), r3 _ (byte3_lt _), r3 _ (byte3_lt _), r3 _ (byte3_lt _),
    hcol _ _ _ _ (hS _) (hS _) (hS _) (hS _), hcol _ _ _ _ (hS _) (hS _) (hS _) (hS _),
    hcol _ _ _ _ (hS _) (hS _) (hS _) (hS _), hcol _ _ _ _ (hS _) (hS _) (hS _) (hS _)]
  simp [xor4, map4, subShift, keyGroup, Nat.add_assoc]

end NAes

namespace NAes

theorem coreIter_abs (a : Arena) (S mix : Nat → Nat) (col : Nat → Nat → Nat) (k t : Nat)
    (hk : k % 1024 = 0) (hk2 : k + 1024 ≤ 2147483648)
    (ht : t % 4096 = 0) (ht2 : t + 4096 ≤ 2147483648)
    (htab : ∀ tt b, tt < 4 → b < 256 → HEAP_get a (t / 4 + 256 * tt + b) = col tt (S b))
    (hcol : ∀ a b c d, a < 256 → b < 256 → c < 256 → d < 256 →
      col 0 a ^^^ col 1 b ^^^ col 2 c ^^^ col 3 d = mix (pack a b c d))
    (hS : ∀ b, S b < 256) :
    ∀ (m j : Nat) (x : Nat × Nat × Nat × Nat), 16 * (j + m) ≤ 1024 →
      coreIter a k t m (16 * j) x
        = roundsG S mix (fun w => HEAP_get a (k / 4 + w)) m j x := by
  intro m
  induction m with
  | zero => intro j x _; rfl
  | succ m ih =>
    intro j x h
    simp only [coreIter, roundsG]
    rw [coreRound_abs a S mix col k t j x hk hk2 ht ht2 (by omega) htab hcol hS,
      show 16 * j + 16 = 16 * (j + 1) by omega, ih (j + 1) _ (by omega)]

theorem HEAPat_key0 (a : Arena) (k c : Nat) (hk : k % 1024 = 0) (hk2 : k + 1024 ≤ 2147483648)
    (hc : c < 16) : HEAPat a (k ||| c) = HEAP_get a (k / 4 + c / 4) := by
  rw [or_eq_add 10 k c (by omega) (by omega)]
  unfold HEAPat
  rw [sar32_2 _ (by omega), if_pos (by omega)]
  congr 1
  omega

theorem coreFinal_abs (a : Arena) (S : Nat → Nat) (k s j : Nat) (x : Nat × Nat × Nat × Nat)
    (hk : k % 1024 = 0) (hk2 : k + 1024 ≤ 2147483648)
    (hs : s % 1024 = 0) (hs2 : s + 1024 ≤ 2147483648) (hj : 16 * j + 16 ≤ 1024)
    (hsb : ∀ b, b < 256 → HEAP_get a (s / 4 + b) = S b) (hS : ∀ b, S b < 256) :
    coreFinal a k s (16 * j) x
      = xor4 (subShift S x) (keyGroup (fun w => HEAP_get a (k / 4 + w)) j) := by
  have r : ∀ b, b < 256 → HEAPat a (s ||| 4 * b) = S b := fun b hb => by
    rw [HEAPat_table a s b hs hs2 hb, hsb b hb]
  have k0 := HEAPat_key a k j 0 hk hk2 hj (by norm_num)
  have k4 := HEAPat_key a k j 4 hk hk2 hj (by norm_num)
  have k8 := HEAPat_key a k j 8 hk hk2 hj (by norm_num)
  have k12 := HEAPat_key a k j 12 hk hk2 hj (by norm_num)
  unfold coreFinal
  simp only [sar32_22, sar32_14, sar32_6, shl32_2, k0, k4, k8, k12]
  rw [r _ (byte0_lt _), r _ (byte0_lt _), r _ (byte0_lt _), r _ (byte0_lt _),
    r _ (byte1_lt _), r _ (byte1_lt _), r _ (byte1_lt _), r _ (byte1_lt _),
    r _ (byte2_lt _), r _ (byte2_lt _), r _ (byte2_lt _), r _ (byte2_lt _),
    r _ (byte3_lt _), r _ (byte3_lt _), r _ (byte3_lt _), r _ (byte3_lt _),
    pack_of_shl_xor (hS _) (hS _) (hS _) (hS _), pack_of_shl_xor (hS _) (hS _) (hS _) (hS _),
    pack_of_shl_xor (hS _) (hS _) (hS _) (hS _), pack_of_shl_xor (hS _) (hS _) (hS _) (hS _)]
  simp [xor4, subShift, keyGroup, Nat.add_assoc]

/-- The words `_core` computes, over tables that hold `col tt (S b)` and `S b`. -/
theorem coreOut_abs (a : Arena) (S mix : Nat → Nat) (col : Nat → Nat → Nat)
    (k s t r x0 x1 x2 x3 : Nat)
    (hk : k % 1024 = 0) (hk2 : k + 1024 ≤ 2147483648)
    (hs : s % 1024 = 0) (hs2 : s + 1024 ≤ 2147483648)
    (ht : t % 4096 = 0) (ht2 : t + 4096 ≤ 2147483648)
    (hq : 16 * (innerRounds (u32 r) + 2) ≤ 1024)
    (htab : ∀ tt b, tt < 4 → b < 256 → HEAP_get a (t / 4 + 256 * tt + b) = col tt (S b))
    (hcol : ∀ a b c d, a < 256 → b < 256 → c < 256 → d < 256 →
      col 0 a ^^^ col 1 b ^^^ col 2 c ^^^ col 3 d = mix (pack a b c d))
    (hsb : ∀ b, b < 256 → HEAP_get a (s / 4 + b) = S b) (hS : ∀ b, S b < 256) :
    coreOut a k s t r x0 x1 x2 x3
      = coreG S mix (fun w => HEAP_get a (k / 4 + w)) (innerRounds (u32 r))
          (u32 x0, u32 x1, u32 x2, u32 x3) := by
  unfold coreOut coreG
  rw [u32_of_lt (by omega : k < 4294967296), u32_of_lt (by omega : s < 4294967296),
    u32_of_lt (by omega : t < 4294967296)]
  have e := coreIter_abs a S mix col k t hk hk2 ht ht2 htab hcol hS (innerRounds (u32 r)) 1
    (u32 x0 ^^^ HEAPat a (k ||| 0), u32 x1 ^^^ HEAPat a (k ||| 4),
      u32 x2 ^^^ HEAPat a (k ||| 8), u32 x3 ^^^ HEAPat a (k ||| 12)) (by omega)
  rw [show (16 : Nat) = 16 * 1 by norm_num, e,
    coreFinal_abs a S k s _ _ hk hk2 hs hs2 (by omega) hsb hS,
    HEAPat_key0 a k 0 hk hk2 (by norm_num), HEAPat_key0 a k 4 hk hk2 (by norm_num),
    HEAPat_key0 a k 8 hk hk2 (by norm_num), HEAPat_key0 a k 12 hk hk2 (by norm_num)]
  simp [xor4, keyGroup]

theorem sbox_lt (b : Nat) : sbox b < 256 := SBOX_get_lt b

theorem sinv_lt (b : Nat) : sinv b < 256 := SINV_get_lt b

/-- The encrypting transform of the drivers, when the tables are loaded. -/
theorem encOut_abs (a : Arena) (hT : TablesLoaded a) (r x0 x1 x2 x3 : Nat)
    (hq : innerRounds (u32 r) ≤ 62) :
    encOut a r x0 x1 x2 x3
      = coreG sbox mixW (fun w => HEAP_get a w) (innerRounds (u32 r))
          (u32 x0, u32 x1, u32 x2, u32 x3) := by
  obtain ⟨_, t1, _, t3, _⟩ := hT
  unfold encOut
  rw [coreOut_abs a sbox mixW colE 0x0000 0x0800 0x1000 r x0 x1 x2 x3 (by norm_num)
    (by norm_num) (by norm_num) (by norm_num) (by norm_num) (by norm_num) (by omega)
    (fun tt b htt hb => by
      have := t3 tt b htt hb
      rw [aes_enc_colE tt b htt hb] at this
      exact this)
    (fun a b c d ha hb hc hd => colE_sum ha hb hc hd)
    (fun b hb => by
      have := t1 b hb
      rw [aes_sbox_eq] at this
      exact this)
    sbox_lt]
  simp

/-- The decrypting transform of the drivers, when the tables are loaded. -/
theorem decOut_abs (a : Arena) (hT : TablesLoaded a) (r x0 x1 x2 x3 : Nat)
    (hq : innerRounds (u32 r) ≤ 62) :
    decOut a r x0 x1 x2 x3
      = swap13 (coreG sinv invMixW (fun w => HEAP_get a (256 + w)) (innerRounds (u32 r))
          (swap13 (u32 x0, u32 x1, u32 x2, u32 x3))) := by
  obtain ⟨_, _, t2, _, t4⟩ := hT
  unfold decOut
  rw [coreOut_abs a sinv invMixW colD 0x0400 0x0c00 0x2000 r x0 x3 x2 x1 (by norm_num)
    (by norm_num) (by norm_num) (by norm_num) (by norm_num) (by norm_num) (by omega)
    (fun tt b htt hb => by
      have := t4 tt b htt hb
      rw [aes_dec_colD tt b htt hb] at this
      exact this)
    (fun a b c d ha hb hc hd => colD_sum ha hb hc hd)
    (fun b hb => by
      have := t2 b hb
      rw [aes_sinv_eq] at this
      exact this)
    sinv_lt]
  rfl

end NAes

namespace NAes

/-! ## The decrypting transform undoes the encrypting transform -/

theorem xor4_cancel (x y : Nat × Nat × Nat × Nat) : xor4 (xor4 x y) y = x := by
  simp [xor4, Nat.xor_assoc]

theorem swap13_swap13 (x : Nat × Nat × Nat × Nat) : swap13 (swap13 x) = x := rfl

theorem swap13_xor4 (x y : Nat × Nat × Nat × Nat) :
    swap13 (xor4 x y) = xor4 (swap13 x) (swap13 y) := rfl

theorem map4_swap13 (f : Nat → Nat) (x : Nat × Nat × Nat × Nat) :
    map4 f (swap13 x) = swap13 (map4 f x) := rfl

theorem map4_invMixW_xor4 (x y : Nat × Nat × Nat × Nat) :
    map4 invMixW (xor4 x y) = xor4 (map4 invMixW x) (map4 invMixW y) := by
  simp [map4, xor4, invMixW_xor]

theorem subShift_swap13 (S : Nat → Nat) (z : Nat × Nat × Nat × Nat) :
    subShift S (swap13 z) = swap13 (invSubShift S z) := rfl

theorem Lt4_xor4 {x y : Nat × Nat × Nat × Nat} (hx : Lt4 x) (hy : Lt4 y) : Lt4 (xor4 x y) :=
  ⟨xor_lt_u32 hx.1 hy.1, xor_lt_u32 hx.2.1 hy.2.1, xor_lt_u32 hx.2.2.1 hy.2.2.1,
    xor_lt_u32 hx.2.2.2 hy.2.2.2⟩

theorem Lt4_subShift (S : Nat → Nat) (hS : ∀ b, S b < 256) (x : Nat × Nat × Nat × Nat) :
    Lt4 (subShift S x) :=
  ⟨pack_lt (hS _) (hS _) (hS _) (hS _), pack_lt (hS _) (hS _) (hS _) (hS _),
    pack_lt (hS _) (hS _) (hS _) (hS _), pack_lt (hS _) (hS _) (hS _) (hS _)⟩

theorem Lt4_map4_mixW (x : Nat × Nat × Nat × Nat) : Lt4 (map4 mixW x) :=
  ⟨mixW_lt _, mixW_lt _, mixW_lt _, mixW_lt _⟩

theorem Lt4_keyGroup (K : Nat → Nat) (hK : ∀ w, K w < 4294967296) (j : Nat) :
    Lt4 (keyGroup K j) := ⟨hK _, hK _, hK _, hK _⟩

theorem sinv_sbox (b : Nat) (hb : b < 256) : sinv (sbox b) = b := SINV_SBOX b hb

theorem sbox_sinv (b : Nat) (hb : b < 256) : sbox (sinv b) = b := SBOX_SINV b hb

/-- InvShiftRows and InvSubBytes undo SubBytes and ShiftRows. -/
theorem invSubShift_subShift {s : Nat × Nat × Nat × Nat} (hs : Lt4 s) :
    invSubShift sinv (subShift sbox s) = s := by
  obtain ⟨s0, s1, s2, s3⟩ := s
  obtain ⟨h0, h1, h2, h3⟩ := hs
  simp only at h0 h1 h2 h3
  simp only [invSubShift, subShift]
  simp only [byte0_pack (sbox_lt _) (sbox_lt _) (sbox_lt _) (sbox_lt _),
    byte1_pack (sbox_lt _) (sbox_lt _) (sbox_lt _), byte2_pack (sbox_lt _) (sbox_lt _),
    byte3_pack (sbox_lt _), sinv_sbox _ (byte0_lt _), sinv_sbox _ (byte1_lt _),
    sinv_sbox _ (byte2_lt _), sinv_sbox _ (byte3_lt _), pack_bytes h0, pack_bytes h1,
    pack_bytes h2, pack_bytes h3]

theorem map4_invMixW_mixW {x : Nat × Nat × Nat × Nat} (hx : Lt4 x) :
    map4 invMixW (map4 mixW x) = x := by
  obtain ⟨x0, x1, x2, x3⟩ := x
  obtain ⟨h0, h1, h2, h3⟩ := hx
  simp only at h0 h1 h2 h3
  simp only [map4, invMixW_mixW h0, invMixW_mixW h1, invMixW_mixW h2, invMixW_mixW h3]

theorem Lt4_encState (K : Nat → Nat) (hK : ∀ w, K w < 4294967296) (x : Nat × Nat × Nat × Nat)
    (hx : Lt4 x) : ∀ j, Lt4 (encState K x j)
  | 0 => Lt4_xor4 hx (Lt4_keyGroup K hK 0)
  | j + 1 => Lt4_xor4 (Lt4_map4_mixW _) (Lt4_keyGroup K hK (j + 1))

theorem roundsG_encState (K : Nat → Nat) (x : Nat × Nat × Nat × Nat) :
    ∀ m j, roundsG sbox mixW K m (j + 1) (encState K x j) = encState K x (j + m) := by
  intro m
  induction m with
  | zero => intro j; rfl
  | succ m ih =>
    intro j
    simp only [roundsG]
    have := ih (j + 1)
    simp only [encState] at this
    rw [this]
    congr 1
    omega

/-- One inner round of the decrypting transform steps back one round of the
encrypting transform. -/
theorem dec_round (Ke Kd : Nat → Nat) (q : Nat) (hD : DecSchedule Ke Kd q)
    (hK : ∀ w, Ke w < 4294967296) (x : Nat × Nat × Nat × Nat) (hx : Lt4 x) (j : Nat)
    (h1 : 1 ≤ j) (hj : j ≤ q) :
    xor4 (map4 invMixW (subShift sinv (swap13 (subShift sbox (encState Ke x (q + 1 - j))))))
        (keyGroup Kd j)
      = swap13 (subShift sbox (encState Ke x (q - j))) := by
  rw [subShift_swap13, invSubShift_subShift (Lt4_encState Ke hK x hx _), hD.2.2 j h1 hj,
    map4_swap13, ← swap13_xor4, ← map4_invMixW_xor4]
  have e : q + 1 - j = (q - j) + 1 := by omega
  rw [e]
  simp only [encState]
  rw [xor4_cancel, map4_invMixW_mixW (Lt4_subShift sbox sbox_lt _)]

theorem dec_rounds (Ke Kd : Nat → Nat) (q : Nat) (hD : DecSchedule Ke Kd q)
    (hK : ∀ w, Ke w < 4294967296) (x : Nat × Nat × Nat × Nat) (hx : Lt4 x) :
    ∀ m j, 1 ≤ j → j + m = q + 1 →
      roundsG sinv invMixW Kd m j (swap13 (subShift sbox (encState Ke x (q + 1 - j))))
        = swap13 (subShift sbox (encState Ke x 0)) := by
  intro m
  induction m with
  | zero =>
    intro j _ hj
    have e : q + 1 - j = 0 := by omega
    rw [e]; rfl
  | succ m ih =>
    intro j h1 hj
    simp only [roundsG]
    rw [dec_round Ke Kd q hD hK x hx j h1 (by omega)]
    have := ih (j + 1) (by omega) (by omega)
    have e : q + 1 - (j + 1) = q - j := by omega
    rw [e] at this
    exact this

/-- The decrypting transform, on the schedule `set_key` derives, undoes the
encrypting transform. -/
theorem dec_enc (Ke Kd : Nat → Nat) (q : Nat) (hD : DecSchedule Ke Kd q)
    (hK : ∀ w, Ke w < 4294967296) (x : Nat × Nat × Nat × Nat) (hx : Lt4 x) :
    swap13 (coreG sinv invMixW Kd q (swap13 (coreG sbox mixW Ke q x))) = x := by
  have e1 : coreG sbox mixW Ke q x
      = xor4 (subShift sbox (encState Ke x q)) (keyGroup Ke (q + 1)) := by
    unfold coreG
    have := roundsG_encState Ke x q 0
    simp only [Nat.zero_add, encState] at this
    rw [this]
  rw [e1]
  unfold coreG
  rw [hD.1, swap13_xor4 (subShift sbox (encState Ke x q)) (keyGroup Ke (q + 1)), xor4_cancel]
  have := dec_rounds Ke Kd q hD hK x hx q 1 (by omega) (by omega)
  rw [show q + 1 - 1 = q by omega] at this
  rw [this, subShift_swap13, invSubShift_subShift (Lt4_encState Ke hK x hx 0), hD.2.1,
    ← swap13_xor4, swap13_swap13]
  simp only [encState]
  rw [xor4_cancel]

end NAes

namespace NAes

/-! ## The schedules `set_key` leaves -/

theorem shr_bytes (k : Nat) (hk : k < 4294967296) :
    k >>> 24 = byte0 k ∧ k >>> 16 &&& 255 = byte1 k ∧ k >>> 8 &&& 255 = byte2 k
      ∧ k &&& 255 = byte3 k := by
  simp only [Nat.shiftRight_eq_div_pow, and_255, byte0, byte1, byte2, byte3, Nat.reducePow,
    and_true]
  omega

theorem aes_dec_sbox (t b : Nat) (ht : t < 4) (hb : b < 256) :
    arr2Get aes_init.aes_dec t (arrGet aes_init.aes_sbox b) = colD t b := by
  rw [aes_sbox_eq, aes_dec_colD t _ ht (SBOX_lt b hb), SINV_SBOX b hb]

/-- The words of the interior groups of the decryption schedule are InvMixColumns
of the words of the encryption schedule. -/
theorem dkeyVal_eq (i j k : Nat) (hk : k < 4294967296) :
    dkeyVal aes_init i j k = if j < 4 ∨ j ≥ i - 4 then k else invMixW k := by
  unfold dkeyVal
  split
  · rfl
  · obtain ⟨e0, e1, e2, e3⟩ := shr_bytes k hk
    rw [e0, e1, e2, e3, aes_dec_sbox 0 _ (by norm_num) (byte0_lt k),
      aes_dec_sbox 1 _ (by norm_num) (byte1_lt k), aes_dec_sbox 2 _ (by norm_num) (byte2_lt k),
      aes_dec_sbox 3 _ (by norm_num) (byte3_lt k),
      colD_sum (byte0_lt k) (byte1_lt k) (byte2_lt k) (byte3_lt k), pack_bytes hk]

theorem ekeys_get_eq (a : Arena) (i : Nat) (hi : i < 60) : ekeys_get a i = HEAP_get a i := by
  unfold ekeys_get; rw [if_pos hi]

theorem dkeys_get_eq (a : Arena) (i : Nat) (hi : i < 60) :
    dkeys_get a i = HEAP_get a (256 + i) := by
  unfold dkeys_get; rw [if_pos hi]

/-- After `set_key` with a key size from 1 to 8 the decryption schedule is the
encryption schedule reversed, swapped and sent through InvMixColumns. -/
theorem set_key_decSchedule (st : Asm) (ks k0 k1 k2 k3 k4 k5 k6 k7 : Nat) (h1 : 1 ≤ ks)
    (h8 : ks ≤ 8) (hs : 1264 ≤ st.heap.size) :
    DecSchedule (fun w => HEAP_get (set_key st ks k0 k1 k2 k3 k4 k5 k6 k7).heap w)
      (fun w => HEAP_get (set_key st ks k0 k1 k2 k3 k4 k5 k6 k7).heap (256 + w)) (ks + 5) := by
  obtain ⟨_, _, _, d, _, _⟩ := set_key_spec st ks k0 k1 k2 k3 k4 k5 k6 k7 h1 h8 hs
  generalize (set_key st ks k0 k1 k2 k3 k4 k5 k6 k7).heap = a at *
  have key : ∀ j jj x e, j ≤ ks + 6 → jj < 4 → x = 4 * j + jj →
      e = 4 * (ks + 6 - j) + (4 - jj) % 4 →
      HEAP_get a (256 + x)
        = (if j = 0 ∨ j = ks + 6 then id else invMixW) (HEAP_get a e) := by
    intro j jj x e hj hjj hx he
    have := d x (by omega)
    rw [dkeys_get_eq _ _ (by omega), dkeyVal_eq _ _ _ (ekeys_get_lt _ _),
      ekeys_get_eq _ _ (by omega)] at this
    rw [this]
    have e1 : x / 4 * 4 = 4 * j := by omega
    have e2 : x % 4 = jj := by omega
    have e3 : 4 * ks + 28 - (4 + 4 * j) = 4 * (ks + 6 - j) := by omega
    rw [e1, e2, e3, ← he]
    by_cases h : j = 0 ∨ j = ks + 6
    · rw [if_pos h, if_pos (by omega)]; rfl
    · rw [if_neg h, if_neg (by omega)]
  have grp : ∀ j, j ≤ ks + 6 →
      keyGroup (fun w => HEAP_get a (256 + w)) j
        = swap13 (map4 (if j = 0 ∨ j = ks + 6 then id else invMixW)
            (keyGroup (fun w => HEAP_get a w) (ks + 6 - j))) := by
    intro j hj
    simp only [keyGroup, swap13, map4]
    rw [key j 0 (4 * j) (4 * (ks + 6 - j)) hj (by omega) (by omega) (by omega),
      key j 1 (4 * j + 1) (4 * (ks + 6 - j) + 3) hj (by omega) (by omega) (by omega),
      key j 2 (4 * j + 2) (4 * (ks + 6 - j) + 2) hj (by omega) (by omega) (by omega),
      key j 3 (4 * j + 3) (4 * (ks + 6 - j) + 1) hj (by omega) (by omega) (by omega)]
  refine ⟨?_, ?_, ?_⟩
  · rw [grp 0 (by omega), if_pos (Or.inl rfl)]
    rfl
  · rw [show ks + 5 + 1 = ks + 6 by omega, grp (ks + 6) (by omega), if_pos (Or.inr rfl),
      Nat.sub_self]
    rfl
  · intro j hj1 hj2
    rw [grp j (by omega), if_neg (by omega), show ks + 5 + 1 - j = ks + 6 - j by omega]

end NAes

namespace NAes

/-! ## One pass of the loop body of `process` -/

theorem loadWord_lt (a : Arena) (p c : Nat) : loadWord a p c < 4294967296 := by
  unfold loadWord
  exact Nat.or_lt_two_pow (n := 32)
    (Nat.or_lt_two_pow (n := 32) (Nat.or_lt_two_pow (n := 32) (shl32_lt _ _) (shl32_lt _ _))
      (shl32_lt _ _))
    (Nat.lt_of_lt_of_le (DATA_get_lt _ _) (by norm_num))

theorem loadWord_eq (a : Arena) (p c : Nat) (hp : p % 16 = 0) (hc : c + 3 < 16) :
    loadWord a p c = wordAt a (p + c) := by
  unfold loadWord wordAt
  rw [or_small p c hp (by omega), or_small p (c + 1) hp (by omega),
    or_small p (c + 2) hp (by omega), or_small p (c + 3) hp (by omega),
    pack_of_shl_or (DATA_get_lt _ _) (DATA_get_lt _ _) (DATA_get_lt _ _) (DATA_get_lt _ _)]
  rfl

theorem loadBlock_eq (a : Arena) (p : Nat) (hp : p % 16 = 0) : loadBlock a p = blockAt a p := by
  unfold loadBlock blockAt
  rw [loadWord_eq a p 0 hp (by norm_num), loadWord_eq a p 4 hp (by norm_num),
    loadWord_eq a p 8 hp (by norm_num), loadWord_eq a p 12 hp (by norm_num)]
  rfl

theorem storeState_congr (st c : Asm) (p : Nat) (hh : c.heap = st.heap) (h0 : c.S0 = st.S0)
    (h1 : c.S1 = st.S1) (h2 : c.S2 = st.S2) (h3 : c.S3 = st.S3) :
    storeState c p = storeState st p := by
  unfold storeState; rw [hh, h0, h1, h2, h3]

theorem modes_step (m r : Nat) (st : Asm) (p : Nat) (hr : CoreEnds r) :
    (match _modes m st r (loadWord st.heap p 0) (loadWord st.heap p 4)
        (loadWord st.heap p 8) (loadWord st.heap p 12) with
      | none => none
      | some c => some { c with heap := storeState c p })
      = some (withBlock st p
          (modeFn m (encFn st.heap r) (decFn st.heap r) (Tof st) (loadBlock st.heap p)).1
          (modeFn m (encFn st.heap r) (decFn st.heap r) (Tof st) (loadBlock st.heap p)).2) := by
  have u0 := u32_of_lt (loadWord_lt st.heap p 0)
  have u4 := u32_of_lt (loadWord_lt st.heap p 4)
  have u8 := u32_of_lt (loadWord_lt st.heap p 8)
  have u12 := u32_of_lt (loadWord_lt st.heap p 12)
  match m with
  | 0 =>
    simp only [_modes, modeFn]; rw [_ecb_enc_eq _ _ _ _ _ _ hr]
    simp only [withBlock, encFn, decFn, Tof, loadBlock, xor4, ctrInc]
  | 1 =>
    simp only [_modes, modeFn]; rw [_ecb_dec_eq _ _ _ _ _ _ hr]
    simp only [withBlock, encFn, decFn, Tof, loadBlock, xor4, ctrInc]
  | 2 =>
    simp only [_modes, modeFn]; rw [_cbc_enc_eq _ _ _ _ _ _ hr]
    simp only [u0, u4, u8, u12, withBlock, encFn, decFn, Tof, loadBlock, xor4, ctrInc]
  | 3 =>
    simp only [_modes, modeFn]; rw [_cbc_dec_eq _ _ _ _ _ _ hr]
    simp only [u0, u4, u8, u12, withBlock, encFn, decFn, Tof, loadBlock, xor4, ctrInc]
  | 4 =>
    simp only [_modes, modeFn]; rw [_cfb_enc_eq _ _ _ _ _ _ hr]
    simp only [u0, u4, u8, u12, withBlock, encFn, decFn, Tof, loadBlock, xor4, ctrInc]
  | 5 =>
    simp only [_modes, modeFn]; rw [_cfb_dec_eq _ _ _ _ _ _ hr]
    simp only [u0, u4, u8, u12, withBlock, encFn, decFn, Tof, loadBlock, xor4, ctrInc]
  | 6 =>
    simp only [_modes, modeFn]; rw [_ofb_eq _ _ _ _ _ _ hr]
    simp only [u0, u4, u8, u12, withBlock, encFn, decFn, Tof, loadBlock, xor4, ctrInc]
  | n + 7 =>
    simp only [_modes, modeFn]; rw [_ctr_eq _ _ _ _ _ _ hr]
    simp only [u0, u4, u8, u12, withBlock, encFn, decFn, Tof, loadBlock, xor4, ctrInc]

/-- One pass of the loop body of `process`, when the loop of `_core` ends: the block
at `pos` and the feedback register go through `modeFn`. -/
theorem blockStep_eq (r mode : Nat) (st : Asm) (p : Nat) (hr : CoreEnds r) :
    blockStep r mode st p
      = some (withBlock st p
          (modeFn (mode &&& 7) (encFn st.heap r) (decFn st.heap r) (Tof st)
            (loadBlock st.heap p)).1
          (modeFn (mode &&& 7) (encFn st.heap r) (decFn st.heap r) (Tof st)
            (loadBlock st.heap p)).2) := by
  unfold blockStep
  exact modes_step (mode &&& 7) r st p hr

end NAes

namespace NAes

/-! ## What one stored block leaves in the buffer -/

theorem DATA_get_storeState (c : Asm) (p k : Nat) (hp : p % 16 = 0)
    (h1 : p + 16 ≤ 2147483648) (h2 : p + 16 ≤ c.heap.size) (hk : k < 16) :
    DATA_get (storeState c p) (p + k) = (regBytes c).getD k 0 := by
  unfold DATA_get
  rw [storeState_size, if_pos (by omega), storeState_mem c p _ hp h1 h2, if_pos (by omega),
    show p + k - p = k by omega]
  apply Nat.mod_eq_of_lt
  have b0 := byte0_lt
  have b1 := byte1_lt
  have b2 := byte2_lt
  have b3 := byte3_lt
  unfold regBytes
  interval_cases k <;> simp [b0, b1, b2, b3]

theorem pack_bytes_u32 (w : Nat) : pack (byte0 w) (byte1 w) (byte2 w) (byte3 w) = u32 w := by
  unfold pack byte0 byte1 byte2 byte3 u32; omega

theorem map4_u32_of_Lt4 {x : Nat × Nat × Nat × Nat} (h : Lt4 x) : map4 u32 x = x := by
  obtain ⟨x0, x1, x2, x3⟩ := x
  obtain ⟨h0, h1, h2, h3⟩ := h
  simp only at h0 h1 h2 h3
  simp only [map4, u32_of_lt h0, u32_of_lt h1, u32_of_lt h2, u32_of_lt h3]

theorem withBlock_size (st : Asm) (p : Nat) (S T : Nat × Nat × Nat × Nat) :
    (withBlock st p S T).heap.size = st.heap.size := by
  unfold withBlock; simp only; rw [storeState_size]

theorem withBlock_mem (st : Asm) (p : Nat) (S T : Nat × Nat × Nat × Nat) (q : Nat)
    (hp : p % 16 = 0) (h1 : p + 16 ≤ 2147483648) (h2 : p + 16 ≤ st.heap.size)
    (hq : q < p ∨ p + 16 ≤ q) : (withBlock st p S T).heap.mem q = st.heap.mem q := by
  unfold withBlock; simp only
  exact (storeState_mem
    { heap := st.heap, S0 := S.1, S1 := S.2.1, S2 := S.2.2.1, S3 := S.2.2.2,
      T0 := T.1, T1 := T.2.1, T2 := T.2.2.1, T3 := T.2.2.2 } p q hp h1 h2).trans
    (if_neg (by omega))

/-- The block stored by one pass of the loop body is read back as the words stored. -/
theorem withBlock_blockAt (st : Asm) (p : Nat) (S T : Nat × Nat × Nat × Nat)
    (hp : p % 16 = 0) (h1 : p + 16 ≤ 2147483648) (h2 : p + 16 ≤ st.heap.size) :
    blockAt (withBlock st p S T).heap p = map4 u32 S := by
  have d : ∀ k, k < 16 → DATA_get (withBlock st p S T).heap (p + k)
      = (regBytes
          { heap := st.heap, S0 := S.1, S1 := S.2.1, S2 := S.2.2.1, S3 := S.2.2.2,
            T0 := T.1, T1 := T.2.1, T2 := T.2.2.1, T3 := T.2.2.2 }).getD k 0 := fun k hk => by
    unfold withBlock; simp only
    exact DATA_get_storeState _ p k hp h1 h2 hk
  have d0 := d 0 (by norm_num)
  simp only [Nat.add_zero] at d0
  unfold blockAt wordAt map4
  simp only [Nat.add_assoc, Nat.reduceAdd]
  rw [d0, d 1 (by norm_num), d 2 (by norm_num), d 3 (by norm_num), d 4 (by norm_num),
    d 5 (by norm_num), d 6 (by norm_num), d 7 (by norm_num), d 8 (by norm_num),
    d 9 (by norm_num), d 10 (by norm_num), d 11 (by norm_num), d 12 (by norm_num),
    d 13 (by norm_num), d 14 (by norm_num), d 15 (by norm_num)]
  simp only [regBytes, List.getD_cons_zero, List.getD_cons_succ, pack_bytes_u32]

theorem wordAt_lt (a : Arena) (p : Nat) : wordAt a p < 4294967296 :=
  pack_lt (DATA_get_lt _ _) (DATA_get_lt _ _) (DATA_get_lt _ _) (DATA_get_lt _ _)

theorem Lt4_blockAt (a : Arena) (p : Nat) : Lt4 (blockAt a p) :=
  ⟨wordAt_lt _ _, wordAt_lt _ _, wordAt_lt _ _, wordAt_lt _ _⟩

theorem wordAt_congr (a b : Arena) (p : Nat) (hs : a.size = b.size)
    (h : ∀ k, k < 4 → a.mem (p + k) = b.mem (p + k)) : wordAt a p = wordAt b p := by
  have d : ∀ k, k < 4 → DATA_get a (p + k) = DATA_get b (p + k) := fun k hk => by
    unfold DATA_get; rw [hs, h k hk]
  have d0 := d 0 (by norm_num)
  simp only [Nat.add_zero] at d0
  unfold wordAt
  rw [d0, d 1 (by norm_num), d 2 (by norm_num), d 3 (by norm_num)]

theorem blockAt_congr (a b : Arena) (p : Nat) (hs : a.size = b.size)
    (h : ∀ q, p ≤ q → q < p + 16 → a.mem q = b.mem q) : blockAt a p = blockAt b p := by
  unfold blockAt
  rw [wordAt_congr a b p hs (fun k hk => h _ (by omega) (by omega)),
    wordAt_congr a b (p + 4) hs (fun k hk => h _ (by omega) (by omega)),
    wordAt_congr a b (p + 8) hs (fun k hk => h _ (by omega) (by omega)),
    wordAt_congr a b (p + 12) hs (fun k hk => h _ (by omega) (by omega))]

theorem blocksOf_congr (a b : Arena) (hs : a.size = b.size) : ∀ (n p : Nat),
    (∀ q, p ≤ q → q < p + 16 * n → a.mem q = b.mem q) → blocksOf a p n = blocksOf b p n := by
  intro n
  induction n with
  | zero => intro p _; rfl
  | succ n ih =>
    intro p h
    simp only [blocksOf]
    rw [blockAt_congr a b p hs (fun q h1 h2 => h q h1 (by omega)),
      ih (p + 16) (fun q h1 h2 => h q (by omega) (by omega))]

theorem wordAt_bytes (a b : Arena) (p : Nat) (h : wordAt a p = wordAt b p) :
    ∀ k, k < 4 → DATA_get a (p + k) = DATA_get b (p + k) := by
  intro k hk
  have a0 := DATA_get_lt a p
  have a1 := DATA_get_lt a (p + 1)
  have a2 := DATA_get_lt a (p + 2)
  have a3 := DATA_get_lt a (p + 3)
  have b0 := DATA_get_lt b p
  have b1 := DATA_get_lt b (p + 1)
  have b2 := DATA_get_lt b (p + 2)
  have b3 := DATA_get_lt b (p + 3)
  unfold wordAt pack at h
  interval_cases k
  · simp only [Nat.add_zero]; omega
  · omega
  · omega
  · omega

theorem blockAt_bytes (a b : Arena) (p : Nat) (h : blockAt a p = blockAt b p) :
    ∀ q, p ≤ q → q < p + 16 → DATA_get a q = DATA_get b q := by
  intro q h1 h2
  unfold blockAt at h
  simp only [Prod.mk.injEq] at h
  obtain ⟨e0, e1, e2, e3⟩ := h
  rcases (by omega : q < p + 4 ∨ (p + 4 ≤ q ∧ q < p + 8) ∨ (p + 8 ≤ q ∧ q < p + 12)
      ∨ p + 12 ≤ q) with c | c | c | c
  · have := wordAt_bytes a b p e0 (q - p) (by omega)
    rwa [show p + (q - p) = q by omega] at this
  · have := wordAt_bytes a b (p + 4) e1 (q - (p + 4)) (by omega)
    rwa [show p + 4 + (q - (p + 4)) = q by omega] at this
  · have := wordAt_bytes a b (p + 8) e2 (q - (p + 8)) (by omega)
    rwa [show p + 8 + (q - (p + 8)) = q by omega] at this
  · have := wordAt_bytes a b (p + 12) e3 (q - (p + 12)) (by omega)
    rwa [show p + 12 + (q - (p + 12)) = q by omega] at this

/-- Equal blocks are equal bytes. -/
theorem blocksOf_bytes (a b : Arena) : ∀ (n p : Nat), blocksOf a p n = blocksOf b p n →
    ∀ q, p ≤ q → q < p + 16 * n → DATA_get a q = DATA_get b q := by
  intro n
  induction n with
  | zero => intro p _ q h1 h2; omega
  | succ n ih =>
    intro p h q h1 h2
    simp only [blocksOf, List.cons.injEq] at h
    by_cases hq : q < p + 16
    · exact blockAt_bytes a b p h.1 q h1 hq
    · exact ih (p + 16) h.2 q (by omega) (by omega)

end NAes

namespace NAes

/-! ## A pass of `process` over the data region, as a pass over a list of blocks -/

theorem Tof_withBlock (st : Asm) (p : Nat) (S T : Nat × Nat × Nat × Nat) :
    Tof (withBlock st p S T) = T := rfl

theorem Sof_withBlock (st : Asm) (p : Nat) (S T : Nat × Nat × Nat × Nat) :
    Sof (withBlock st p S T) = S := rfl

theorem blocksRun_succ (r mode n : Nat) (st : Asm) (p : Nat) (hr : CoreEnds r)
    (hp : p + 16 ≤ 4294967295) :
    blocksRun r mode (n + 1) st p
      = blocksRun r mode n (withBlock st p
          (modeFn (mode &&& 7) (encFn st.heap r) (decFn st.heap r) (Tof st)
            (loadBlock st.heap p)).1
          (modeFn (mode &&& 7) (encFn st.heap r) (decFn st.heap r) (Tof st)
            (loadBlock st.heap p)).2) (p + 16) := by
  rw [blocksRun, blockStep_eq r mode st p hr, add32_16 hp]

/-- When the block transforms do not depend on the data region, `n` passes of the loop
body of `process` over blocks of the data region write the blocks `runBlocks` computes
from the blocks read, and leave the feedback register `runBlocks` computes. -/
theorem blocksRun_pure (r mode : Nat) (hr : CoreEnds r)
    (E D : Nat × Nat × Nat × Nat → Nat × Nat × Nat × Nat) (a0 : Arena)
    (I : Nat × Nat × Nat × Nat → Prop)
    (hF : ∀ a, LowEq a a0 → ∀ T X,
      modeFn (mode &&& 7) (encFn a r) (decFn a r) T X = modeFn (mode &&& 7) E D T X)
    (hstep : ∀ T X, I T → Lt4 X →
      Lt4 (modeFn (mode &&& 7) E D T X).1 ∧ I (modeFn (mode &&& 7) E D T X).2) :
    ∀ (n : Nat) (st : Asm) (p : Nat), LowEq st.heap a0 → I (Tof st) → p % 16 = 0 →
      0x3000 ≤ p → p + 16 * n ≤ 2147483648 → p + 16 * n ≤ st.heap.size →
      ∃ c, blocksRun r mode n st p = some c ∧ LowEq c.heap a0 ∧
        c.heap.size = st.heap.size ∧
        (∀ q, (q < p ∨ p + 16 * n ≤ q) → c.heap.mem q = st.heap.mem q) ∧
        blocksOf c.heap p n
          = (runBlocks (mode &&& 7) E D (Tof st) (blocksOf st.heap p n)).1 ∧
        Tof c = (runBlocks (mode &&& 7) E D (Tof st) (blocksOf st.heap p n)).2 ∧
        I (Tof c) := by
  intro n
  induction n with
  | zero =>
    intro st p hl hI _ _ _ _
    exact ⟨st, rfl, hl, rfl, fun _ _ => rfl, rfl, rfl, hI⟩
  | succ n ih =>
    intro st p hl hI hp h3 h1 h2
    rw [blocksRun_succ r mode n st p hr (by omega), hF st.heap hl, loadBlock_eq _ _ hp]
    obtain ⟨hS, hT⟩ := hstep (Tof st) (blockAt st.heap p) hI (Lt4_blockAt _ _)
    generalize hm : modeFn (mode &&& 7) E D (Tof st) (blockAt st.heap p) = o at hS hT
    have hsz := withBlock_size st p o.1 o.2
    have hmem : ∀ q, (q < p ∨ p + 16 ≤ q) →
        (withBlock st p o.1 o.2).heap.mem q = st.heap.mem q :=
      fun q hq => withBlock_mem st p o.1 o.2 q hp (by omega) (by omega) hq
    have hl1 : LowEq (withBlock st p o.1 o.2).heap a0 :=
      ⟨hsz.trans hl.1, fun q hq => (hmem q (by omega)).trans (hl.2 q hq)⟩
    obtain ⟨c, hc, hlc, hcs, hcm, hcb, hcT, hcI⟩ := ih (withBlock st p o.1 o.2) (p + 16) hl1
      (by rw [Tof_withBlock]; exact hT) (by omega) (by omega) (by omega) (by rw [hsz]; omega)
    refine ⟨c, hc, hlc, hcs.trans hsz, ?_, ?_, ?_, hcI⟩
    · intro q hq
      rw [hcm q (by omega), hmem q (by omega)]
    · have e1 : blockAt c.heap p = o.1 := by
        rw [blockAt_congr c.heap (withBlock st p o.1 o.2).heap p hcs
          (fun q _ h2 => hcm q (by omega)),
          withBlock_blockAt st p o.1 o.2 hp (by omega) (by omega), map4_u32_of_Lt4 hS]
      have e2 : blocksOf (withBlock st p o.1 o.2).heap (p + 16) n
          = blocksOf st.heap (p + 16) n :=
        blocksOf_congr _ _ hsz n (p + 16) (fun q h1 _ => hmem q (by omega))
      rw [Tof_withBlock, e2] at hcb
      simp only [blocksOf, runBlocks, hm]
      rw [e1, hcb]
    · rw [Tof_withBlock, blocksOf_congr _ _ hsz n (p + 16) (fun q h1 _ => hmem q (by omega))]
        at hcT
      simp only [blocksOf, runBlocks, hm]
      exact hcT

/-- After at least one pass, `S0..S3` hold the last block written. -/
theorem blocksRun_last (r mode : Nat) (hr : CoreEnds r) :
    ∀ (n : Nat) (st : Asm) (p : Nat), p % 16 = 0 → p + 16 * (n + 1) ≤ 2147483648 →
      p + 16 * (n + 1) ≤ st.heap.size →
      ∃ c, blocksRun r mode (n + 1) st p = some c ∧
        blockAt c.heap (p + 16 * n) = map4 u32 (Sof c) := by
  intro n
  induction n with
  | zero =>
    intro st p hp h1 h2
    rw [blocksRun_succ r mode 0 st p hr (by omega)]
    exact ⟨_, rfl, by
      rw [Sof_withBlock]
      exact withBlock_blockAt st p _ _ hp (by omega) (by omega)⟩
  | succ n ih =>
    intro st p hp h1 h2
    rw [blocksRun_succ r mode (n + 1) st p hr (by omega)]
    obtain ⟨c, hc, hb⟩ := ih (withBlock st p
      (modeFn (mode &&& 7) (encFn st.heap r) (decFn st.heap r) (Tof st)
        (loadBlock st.heap p)).1
      (modeFn (mode &&& 7) (encFn st.heap r) (decFn st.heap r) (Tof st)
        (loadBlock st.heap p)).2) (p + 16) (by omega) (by omega)
      (by rw [withBlock_size]; omega)
    exact ⟨c, hc, by rw [show p + 16 * (n + 1) = p + 16 + 16 * n by omega]; exact hb⟩

end NAes

namespace NAes

/-! ## The block transforms read below the data region only -/

theorem LowEq_refl (a : Arena) : LowEq a a := ⟨rfl, fun _ _ => rfl⟩

theorem LowEq_symm {a b : Arena} (h : LowEq a b) : LowEq b a :=
  ⟨h.1.symm, fun q hq => (h.2 q hq).symm⟩

theorem LowEq_trans {a b c : Arena} (h1 : LowEq a b) (h2 : LowEq b c) : LowEq a c :=
  ⟨h1.1.trans h2.1, fun q hq => (h1.2 q hq).trans (h2.2 q hq)⟩

theorem HEAP_get_LowEq {a b : Arena} (h : LowEq a b) (w : Nat) (hw : w < 0xC00) :
    HEAP_get a w = HEAP_get b w := by
  unfold HEAP_get
  rw [h.1, h.2 (4 * w) (by omega), h.2 (4 * w + 1) (by omega), h.2 (4 * w + 2) (by omega),
    h.2 (4 * w + 3) (by omega)]

theorem HEAPat_LowEq {a b : Arena} (h : LowEq a b) (e : Nat) (he : e < 0x3000) :
    HEAPat a e = HEAPat b e := by
  unfold HEAPat
  rw [sar32_2 e (by omega), HEAP_get_LowEq h (e / 4) (by omega)]

theorem HEAPat_LowEq_tab {a b : Arena} (h : LowEq a b) (t v : Nat) (ht : t < 8192) :
    HEAPat a (t ||| (v &&& 1020)) = HEAPat b (t ||| (v &&& 1020)) := by
  apply HEAPat_LowEq h
  have h1 : v &&& 1020 < 2 ^ 13 := Nat.lt_of_le_of_lt Nat.and_le_right (by norm_num)
  have := Nat.or_lt_two_pow (n := 13) (x := t) (y := v &&& 1020) (by norm_num; omega) h1
  norm_num at this
  omega

theorem HEAPat_LowEq_key {a b : Arena} (h : LowEq a b) (i c : Nat) (hi : i % 16 = 0)
    (hi2 : i + 16 ≤ 0x3000) (hc : c < 16) :
    HEAPat a (0 ||| i ||| c) = HEAPat b (0 ||| i ||| c) := by
  apply HEAPat_LowEq h
  rw [Nat.zero_or, or_small i c hi hc]
  omega

theorem coreRound_LowEq {a b : Arena} (h : LowEq a b) (i x0 x1 x2 x3 : Nat) (hi : i % 16 = 0)
    (hi2 : i + 16 ≤ 0x3000) :
    coreRound a 0 0x1000 i x0 x1 x2 x3 = coreRound b 0 0x1000 i x0 x1 x2 x3 := by
  unfold coreRound
  simp only [HEAPat_LowEq_tab h 0x1000 _ (by norm_num),
    HEAPat_LowEq_tab h (0x1000 ||| 0x400) _ (by decide),
    HEAPat_LowEq_tab h (0x1000 ||| 0x800) _ (by decide),
    HEAPat_LowEq_tab h (0x1000 ||| 0xc00) _ (by decide),
    HEAPat_LowEq_key h i 0 hi hi2 (by norm_num), HEAPat_LowEq_key h i 4 hi hi2 (by norm_num),
    HEAPat_LowEq_key h i 8 hi hi2 (by norm_num), HEAPat_LowEq_key h i 12 hi hi2 (by norm_num)]

theorem coreIter_LowEq {a b : Arena} (h : LowEq a b) :
    ∀ (m i : Nat) (x : Nat × Nat × Nat × Nat), i % 16 = 0 → i + 16 * m ≤ 0x3000 →
      coreIter a 0 0x1000 m i x = coreIter b 0 0x1000 m i x := by
  intro m
  induction m with
  | zero => intro i x _ _; rfl
  | succ m ih =>
    intro i x hi h2
    simp only [coreIter]
    rw [coreRound_LowEq h i _ _ _ _ hi (by omega), ih (i + 16) _ (by omega) (by omega)]

theorem coreFinal_LowEq {a b : Arena} (h : LowEq a b) (i : Nat) (x : Nat × Nat × Nat × Nat)
    (hi : i % 16 = 0) (hi2 : i + 16 ≤ 0x3000) :
    coreFinal a 0 0x800 i x = coreFinal b 0 0x800 i x := by
  unfold coreFinal
  simp only [HEAPat_LowEq_tab h 0x800 _ (by norm_num),
    HEAPat_LowEq_key h i 0 hi hi2 (by norm_num), HEAPat_LowEq_key h i 4 hi hi2 (by norm_num),
    HEAPat_LowEq_key h i 8 hi hi2 (by norm_num), HEAPat_LowEq_key h i 12 hi hi2 (by norm_num)]

/-- The encrypting transform reads the buffer below the data region only, as long as
its round keys end there: up to 766 passes of the loop of `_core`. -/
theorem encOut_LowEq {a b : Arena} (h : LowEq a b) (r x0 x1 x2 x3 : Nat)
    (hq : innerRounds (u32 r) ≤ 766) : encOut a r x0 x1 x2 x3 = encOut b r x0 x1 x2 x3 := by
  unfold encOut coreOut
  have e0 : u32 0x0000 = 0 := by decide
  have e1 : u32 0x0800 = 0x800 := by decide
  have e2 : u32 0x1000 = 0x1000 := by decide
  rw [e0, e1, e2]
  have k0 := HEAPat_LowEq_key h 0 0 (by norm_num) (by norm_num) (by norm_num)
  have k4 := HEAPat_LowEq_key h 0 4 (by norm_num) (by norm_num) (by norm_num)
  have k8 := HEAPat_LowEq_key h 0 8 (by norm_num) (by norm_num) (by norm_num)
  have k12 := HEAPat_LowEq_key h 0 12 (by norm_num) (by norm_num) (by norm_num)
  simp only [Nat.zero_or, Nat.or_zero] at k0 k4 k8 k12
  simp only [Nat.zero_or, Nat.or_zero, k0, k4, k8, k12]
  rw [coreIter_LowEq h _ 16 _ (by norm_num) (by omega),
    coreFinal_LowEq h _ _ (by omega) (by omega)]

theorem encFn_LowEq {a b : Arena} (h : LowEq a b) (r : Nat) (hq : innerRounds (u32 r) ≤ 766) :
    encFn a r = encFn b r := by
  funext x
  exact encOut_LowEq h r _ _ _ _ hq

theorem coreFinal_lt (a : Arena) (k s i : Nat) (x : Nat × Nat × Nat × Nat) :
    Lt4 (coreFinal a k s i x) := by
  unfold coreFinal Lt4
  have s := fun v n => shl32_lt v n
  have g := fun e => HEAPat_lt a e
  exact ⟨xor_lt_u32 (xor_lt_u32 (xor_lt_u32 (xor_lt_u32 (s _ _) (s _ _)) (s _ _)) (g _)) (g _),
    xor_lt_u32 (xor_lt_u32 (xor_lt_u32 (xor_lt_u32 (s _ _) (s _ _)) (s _ _)) (g _)) (g _),
    xor_lt_u32 (xor_lt_u32 (xor_lt_u32 (xor_lt_u32 (s _ _) (s _ _)) (s _ _)) (g _)) (g _),
    xor_lt_u32 (xor_lt_u32 (xor_lt_u32 (xor_lt_u32 (s _ _) (s _ _)) (s _ _)) (g _)) (g _)⟩

end NAes

namespace NAes

theorem Lt4_coreOut (a : Arena) (k s t r x0 x1 x2 x3 : Nat) :
    Lt4 (coreOut a k s t r x0 x1 x2 x3) := by
  unfold coreOut
  exact coreFinal_lt _ _ _ _ _

theorem Lt4_encFn (a : Arena) (r : Nat) (x : Nat × Nat × Nat × Nat) : Lt4 (encFn a r x) := by
  unfold encFn encOut
  exact Lt4_coreOut _ _ _ _ _ _ _ _ _

theorem Lt4_swap13 {x : Nat × Nat × Nat × Nat} (h : Lt4 x) : Lt4 (swap13 x) :=
  ⟨h.1, h.2.2.2, h.2.2.1, h.2.1⟩

theorem decOut_swap (a : Arena) (r x0 x1 x2 x3 : Nat) :
    decOut a r x0 x1 x2 x3 = swap13 (coreOut a 0x0400 0x0c00 0x2000 r x0 x3 x2 x1) := by
  unfold decOut swap13
  simp only

theorem Lt4_decFn (a : Arena) (r : Nat) (x : Nat × Nat × Nat × Nat) : Lt4 (decFn a r x) := by
  unfold decFn
  rw [decOut_swap]
  exact Lt4_swap13 (Lt4_coreOut _ _ _ _ _ _ _ _ _)
theorem Lt4_ctrInc {T : Nat × Nat × Nat × Nat} (h : Lt4 T) : Lt4 (ctrInc T) := by
  obtain ⟨h0, h1, h2, h3⟩ := h
  refine ⟨h0, h1, ?_, Nat.mod_lt _ (by norm_num)⟩
  show (if add32 T.2.2.2 1 = 0 then add32 T.2.2.1 1 else T.2.2.1) < 4294967296
  split
  · exact Nat.mod_lt _ (by norm_num)
  · exact h2

/-! ## The schedule a transform reads -/

theorem roundsG_congr (S mix : Nat → Nat) (K K' : Nat → Nat) :
    ∀ (m j : Nat) (x : Nat × Nat × Nat × Nat), (∀ w, w < 4 * (j + m) → K w = K' w) →
      roundsG S mix K m j x = roundsG S mix K' m j x := by
  intro m
  induction m with
  | zero => intro j x _; rfl
  | succ m ih =>
    intro j x h
    simp only [roundsG, keyGroup]
    rw [h (4 * j) (by omega), h (4 * j + 1) (by omega), h (4 * j + 2) (by omega),
      h (4 * j + 3) (by omega)]
    exact ih (j + 1) _ (fun w hw => h w (by omega))

/-- The transform with `q` inner rounds reads the first `4 * (q + 2)` words of its
schedule only. -/
theorem coreG_congr (S mix : Nat → Nat) (K K' : Nat → Nat) (q : Nat)
    (x : Nat × Nat × Nat × Nat) (h : ∀ w, w < 4 * (q + 2) → K w = K' w) :
    coreG S mix K q x = coreG S mix K' q x := by
  unfold coreG
  simp only [keyGroup]
  rw [roundsG_congr S mix K K' q 1 _ (fun w hw => h w (by omega)),
    h (4 * 0) (by omega), h (4 * 0 + 1) (by omega), h (4 * 0 + 2) (by omega),
    h (4 * 0 + 3) (by omega), h (4 * (q + 1)) (by omega), h (4 * (q + 1) + 1) (by omega),
    h (4 * (q + 1) + 2) (by omega), h (4 * (q + 1) + 3) (by omega)]

theorem TablesLoaded_LowEq {a b : Arena} (h : LowEq a b) (hT : TablesLoaded b) :
    TablesLoaded a := by
  obtain ⟨t0, t1, t2, t3, t4⟩ := hT
  refine ⟨by rw [h.1]; exact t0, fun j hj => ?_, fun j hj => ?_, fun t j ht hj => ?_,
    fun t j ht hj => ?_⟩
  · rw [HEAP_get_LowEq h _ (by omega)]; exact t1 j hj
  · rw [HEAP_get_LowEq h _ (by omega)]; exact t2 j hj
  · rw [HEAP_get_LowEq h _ (by omega)]; exact t3 t j ht hj
  · rw [HEAP_get_LowEq h _ (by omega)]; exact t4 t j ht hj

end NAes

namespace NAes

/-! ## Round trips of a pass over a list of blocks -/

theorem xor4_comm (x y : Nat × Nat × Nat × Nat) : xor4 x y = xor4 y x := by
  simp only [xor4, Nat.xor_comm]

theorem xor4_cancel_left (x y : Nat × Nat × Nat × Nat) : xor4 x (xor4 x y) = y := by
  rw [xor4_comm x (xor4 x y), xor4_comm x y, xor4_cancel]

theorem Lt4_blocksOf (a : Arena) : ∀ (n p : Nat) (X : Nat × Nat × Nat × Nat),
    X ∈ blocksOf a p n → Lt4 X := by
  intro n
  induction n with
  | zero => intro p X h; simp [blocksOf] at h
  | succ n ih =>
    intro p X h
    simp only [blocksOf, List.mem_cons] at h
    rcases h with h | h
    · rw [h]; exact Lt4_blockAt a p
    · exact ih (p + 16) X h

/-- ECB: decrypting the encrypted blocks gives the blocks back. -/
theorem runBlocks_ecb (E D : Nat × Nat × Nat × Nat → Nat × Nat × Nat × Nat)
    (hDE : ∀ x, Lt4 x → D (E x) = x) :
    ∀ (Xs : List (Nat × Nat × Nat × Nat)) (T U : Nat × Nat × Nat × Nat),
      (∀ X ∈ Xs, Lt4 X) → (runBlocks 1 E D U (runBlocks 0 E D T Xs).1).1 = Xs := by
  intro Xs
  induction Xs with
  | nil => intro T U _; rfl
  | cons X Xs ih =>
    intro T U h
    simp only [runBlocks, modeFn]
    rw [hDE X (h X (List.mem_cons_self _ _)),
      ih T U (fun Y hY => h Y (List.mem_cons_of_mem _ hY))]

/-- CBC: decrypting the encrypted blocks from the same IV gives the blocks back. -/
theorem runBlocks_cbc (E D : Nat × Nat × Nat × Nat → Nat × Nat × Nat × Nat)
    (hDE : ∀ x, Lt4 x → D (E x) = x) (hE : ∀ x, Lt4 (E x)) :
    ∀ (Xs : List (Nat × Nat × Nat × Nat)) (T : Nat × Nat × Nat × Nat),
      (∀ X ∈ Xs, Lt4 X) → Lt4 T → (runBlocks 3 E D T (runBlocks 2 E D T Xs).1).1 = Xs := by
  intro Xs
  induction Xs with
  | nil => intro T _ _; rfl
  | cons X Xs ih =>
    intro T h hT
    have hX := h X (List.mem_cons_self _ _)
    simp only [runBlocks, modeFn]
    rw [hDE _ (Lt4_xor4 hT hX), xor4_comm T X, xor4_cancel,
      ih _ (fun Y hY => h Y (List.mem_cons_of_mem _ hY)) (hE _)]

/-- CFB: decrypting the encrypted blocks from the same IV gives the blocks back. -/
theorem runBlocks_cfb (E D : Nat × Nat × Nat × Nat → Nat × Nat × Nat × Nat) :
    ∀ (Xs : List (Nat × Nat × Nat × Nat)) (T : Nat × Nat × Nat × Nat),
      (runBlocks 5 E D T (runBlocks 4 E D T Xs).1).1 = Xs := by
  intro Xs
  induction Xs with
  | nil => intro T; rfl
  | cons X Xs ih =>
    intro T
    simp only [runBlocks, modeFn]
    rw [xor4_cancel_left, ih]

/-- OFB: a second pass from the same IV gives the blocks back. -/
theorem runBlocks_ofb (E D : Nat × Nat × Nat × Nat → Nat × Nat × Nat × Nat) :
    ∀ (Xs : List (Nat × Nat × Nat × Nat)) (T : Nat × Nat × Nat × Nat),
      (runBlocks 6 E D T (runBlocks 6 E D T Xs).1).1 = Xs := by
  intro Xs
  induction Xs with
  | nil => intro T; rfl
  | cons X Xs ih =>
    intro T
    simp only [runBlocks, modeFn]
    rw [xor4_cancel_left, ih]

/-- CTR: a second pass from the same counter gives the blocks back. -/
theorem runBlocks_ctr (E D : Nat × Nat × Nat × Nat → Nat × Nat × Nat × Nat) :
    ∀ (Xs : List (Nat × Nat × Nat × Nat)) (T : Nat × Nat × Nat × Nat),
      (runBlocks 7 E D T (runBlocks 7 E D T Xs).1).1 = Xs := by
  intro Xs
  induction Xs with
  | nil => intro T; rfl
  | cons X Xs ih =>
    intro T
    simp only [runBlocks, modeFn]
    rw [xor4_cancel_left, ih]

/-! ## Two passes of `process` over the same range -/

/-- Two passes of the loop body of `process` over the same blocks of the data region,
the registers being changed by `f` in between: the blocks left are those `runBlocks`
computes in two passes. -/
theorem twoPass (r m1 m2 : Nat) (hr : CoreEnds r)
    (E D : Nat × Nat × Nat × Nat → Nat × Nat × Nat × Nat) (a0 : Arena)
    (I1 I2 : Nat × Nat × Nat × Nat → Prop)
    (hF1 : ∀ a, LowEq a a0 → ∀ T X,
      modeFn (m1 &&& 7) (encFn a r) (decFn a r) T X = modeFn (m1 &&& 7) E D T X)
    (hstep1 : ∀ T X, I1 T → Lt4 X →
      Lt4 (modeFn (m1 &&& 7) E D T X).1 ∧ I1 (modeFn (m1 &&& 7) E D T X).2)
    (hF2 : ∀ a, LowEq a a0 → ∀ T X,
      modeFn (m2 &&& 7) (encFn a r) (decFn a r) T X = modeFn (m2 &&& 7) E D T X)
    (hstep2 : ∀ T X, I2 T → Lt4 X →
      Lt4 (modeFn (m2 &&& 7) E D T X).1 ∧ I2 (modeFn (m2 &&& 7) E D T X).2)
    (n : Nat) (st : Asm) (p : Nat) (hl : LowEq st.heap a0) (hI : I1 (Tof st))
    (hp : p % 16 = 0) (h3 : 0x3000 ≤ p) (h1 : p + 16 * n ≤ 2147483648)
    (h2 : p + 16 * n ≤ st.heap.size)
    (f : Asm → Asm) (hf : ∀ c, (f c).heap = c.heap) (hI2 : ∀ c, I2 (Tof (f c))) :
    ∃ c1 c2, blocksRun r m1 n st p = some c1 ∧ blocksRun r m2 n (f c1) p = some c2 ∧
      blocksOf c2.heap p n
        = (runBlocks (m2 &&& 7) E D (Tof (f c1))
            (runBlocks (m1 &&& 7) E D (Tof st) (blocksOf st.heap p n)).1).1 := by
  obtain ⟨c1, e1, l1, s1, _, b1, _, _⟩ :=
    blocksRun_pure r m1 hr E D a0 I1 hF1 hstep1 n st p hl hI hp h3 h1 h2
  obtain ⟨c2, e2, _, _, _, b2, _, _⟩ :=
    blocksRun_pure r m2 hr E D a0 I2 hF2 hstep2 n (f c1) p (by rw [hf]; exact l1) (hI2 c1)
      hp h3 h1 (by rw [hf, s1]; exact h2)
  refine ⟨c1, c2, e1, e2, ?_⟩
  rw [b2, hf, b1]

end NAes

namespace NAes

/-! ## The transforms after `set_key` -/

theorem initState_spec : TablesLoaded initState.heap ∧ initState.heap.size = 0x4000 ∧
    Tof initState = (0, 0, 0, 0) ∧ Sof initState = (0, 0, 0, 0) ∧
    ∀ q, 0x3000 ≤ q → initState.heap.mem q = 0 := by
  obtain ⟨st, e, hT, hs, s0, s1, s2, s3, t0, t1, t2, t3, hm⟩ :=
    asm_wrapper_spec zeroBuffer (by decide) (by decide)
  unfold initState
  rw [e, Option.getD_some]
  refine ⟨hT, hs, ?_, ?_, hm⟩
  · unfold Tof; rw [t0, t1, t2, t3]
  · unfold Sof; rw [s0, s1, s2, s3]

theorem initState_tables : TablesLoaded initState.heap := initState_spec.1

/-- For the key sizes up to 761 words the loop of `_core` ends after `ks + 5` passes. -/
theorem rounds_of_small (ks : Nat) (h : ks ≤ 761) :
    CoreEnds (add32 (i32 (ks : Int)) 5) ∧
      innerRounds (u32 (add32 (i32 (ks : Int)) 5)) = ks + 5 := by
  rw [i32_ofNat (by omega)]
  have e : add32 ks 5 = ks + 5 := by unfold add32; omega
  rw [e, u32_of_lt (by omega)]
  have s : shl32 (ks + 5) 4 = 16 * (ks + 5) := by rw [shl32_eq]; omega
  unfold CoreEnds innerRounds
  rw [u32_of_lt (by omega), s]
  refine ⟨by omega, ?_⟩
  rw [if_pos (by omega)]
  omega

theorem rounds_of_ks (ks : Nat) (h : ks = 4 ∨ ks = 6 ∨ ks = 8) :
    CoreEnds (add32 (i32 (ks : Int)) 5) ∧
      innerRounds (u32 (add32 (i32 (ks : Int)) 5)) = ks + 5 :=
  rounds_of_small ks (by omega)

theorem encFn_keyed {a b : Arena} (h : LowEq a b) (hT : TablesLoaded b) (r : Nat)
    (hq : innerRounds (u32 r) ≤ 62) : encFn a r = encKey b (innerRounds (u32 r)) := by
  funext x
  unfold encFn encKey
  rw [encOut_abs a (TablesLoaded_LowEq h hT) r _ _ _ _ hq]
  exact coreG_congr _ _ _ _ _ _ (fun w hw => HEAP_get_LowEq h w (by omega))

theorem decFn_keyed {a b : Arena} (h : LowEq a b) (hT : TablesLoaded b) (r : Nat)
    (hq : innerRounds (u32 r) ≤ 62) : decFn a r = decKey b (innerRounds (u32 r)) := by
  funext x
  unfold decFn decKey
  rw [decOut_abs a (TablesLoaded_LowEq h hT) r _ _ _ _ hq]
  rw [coreG_congr sinv invMixW (fun w => HEAP_get a (256 + w))
    (fun w => HEAP_get b (256 + w)) _ _ (fun w hw => HEAP_get_LowEq h (256 + w) (by omega))]
  rfl

theorem Lt4_coreG (S mix : Nat → Nat) (K : Nat → Nat) (hS : ∀ b, S b < 256)
    (hK : ∀ w, K w < 4294967296) (q : Nat) (x : Nat × Nat × Nat × Nat) :
    Lt4 (coreG S mix K q x) :=
  Lt4_xor4 (Lt4_subShift S hS _) (Lt4_keyGroup K hK _)

theorem Lt4_encKey (a : Arena) (q : Nat) (x : Nat × Nat × Nat × Nat) : Lt4 (encKey a q x) :=
  Lt4_coreG _ _ _ sbox_lt (fun _ => HEAP_get_lt _ _) _ _

theorem Lt4_decKey (a : Arena) (q : Nat) (x : Nat × Nat × Nat × Nat) : Lt4 (decKey a q x) :=
  Lt4_swap13 (Lt4_coreG _ _ _ sinv_lt (fun _ => HEAP_get_lt _ _) _ _)

/-- Under the schedules `set_key` writes, the decrypting transform undoes the
encrypting transform. -/
theorem decKey_encKey (st : Asm) (ks k0 k1 k2 k3 k4 k5 k6 k7 : Nat) (h1 : 1 ≤ ks)
    (h8 : ks ≤ 8) (hs : 1264 ≤ st.heap.size) (x : Nat × Nat × Nat × Nat) (hx : Lt4 x) :
    decKey (set_key st ks k0 k1 k2 k3 k4 k5 k6 k7).heap (ks + 5)
      (encKey (set_key st ks k0 k1 k2 k3 k4 k5 k6 k7).heap (ks + 5) x) = x := by
  unfold decKey
  rw [map4_u32_of_Lt4 (Lt4_encKey _ _ _)]
  unfold encKey
  rw [map4_u32_of_Lt4 hx]
  exact dec_enc _ _ _ (set_key_decSchedule st ks k0 k1 k2 k3 k4 k5 k6 k7 h1 h8 hs)
    (fun _ => HEAP_get_lt _ _) x hx

theorem process_run (st : Asm) (ks mode : Int) (pos n : Nat) (hp : pos % 16 = 0)
    (h1 : pos + 16 * n ≤ 2147483648) (h0 : 16 * n < 2147483648) :
    process st ks mode pos ((16 * n : Nat) : Int)
      = (blocksRun (add32 (i32 ks) 5) (i32 mode) n st pos).map
          (fun c => (((16 * n : Nat) : Int), c)) := by
  by_cases hn : n = 0
  · subst hn
    rw [process_blocks st ks mode pos (16 * 0) hp (by omega) (by omega)]
  · rw [process_blocks st ks mode pos (16 * n) hp (by omega) (by omega),
      show 16 * n / 16 = n by omega]

end NAes

namespace NAes

/-! ## Facts used by the statements about `process` and `flush_state` -/

theorem processLoop_mode (r mode : Nat) : ∀ (fuel : Nat) (st : Asm) (pos len ret : Nat),
    processLoop r mode fuel st pos len ret = processLoop r (mode &&& 7) fuel st pos len ret := by
  intro fuel
  induction fuel with
  | zero => intro st pos len ret; rfl
  | succ fuel ih =>
    intro st pos len ret
    have e : mode &&& 7 &&& 7 = mode &&& 7 := by rw [Nat.and_assoc, Nat.and_self]
    unfold processLoop
    rw [e]
    split
    · split
      · rfl
      · exact ih _ _ _ _
    · rfl

theorem storeState_blockAt (c : Asm) (p : Nat) (hp : p % 16 = 0) (h1 : p + 16 ≤ 2147483648)
    (h2 : p + 16 ≤ c.heap.size) : blockAt (storeState c p) p = map4 u32 (Sof c) := by
  have d : ∀ k, k < 16 → DATA_get (storeState c p) (p + k) = (regBytes c).getD k 0 :=
    fun k hk => DATA_get_storeState c p k hp h1 h2 hk
  have d0 := d 0 (by norm_num)
  simp only [Nat.add_zero] at d0
  unfold blockAt wordAt map4 Sof
  simp only [Nat.add_assoc, Nat.reduceAdd]
  rw [d0, d 1 (by norm_num), d 2 (by norm_num), d 3 (by norm_num), d 4 (by norm_num),
    d 5 (by norm_num), d 6 (by norm_num), d 7 (by norm_num), d 8 (by norm_num),
    d 9 (by norm_num), d 10 (by norm_num), d 11 (by norm_num), d 12 (by norm_num),
    d 13 (by norm_num), d 14 (by norm_num), d 15 (by norm_num)]
  simp only [regBytes, List.getD_cons_zero, List.getD_cons_succ, pack_bytes_u32]

theorem flush_state_aligned (st : Asm) (p : Nat) (hp : p % 16 = 0) (h : p < 4294967296) :
    flush_state st (p : Int) = (16, { st with heap := storeState st p }) := by
  unfold flush_state
  simp only [and_15, i32_ofNat h]
  rw [if_neg (by omega)]

theorem flush_state_unaligned (st : Asm) (pos : Int) (hp : pos % 16 ≠ 0) :
    flush_state st pos = (-1, st) := by
  unfold flush_state
  simp only [and_15]
  have := i32_mod16 pos
  rw [if_pos (by omega)]

theorem process_neg (st : Asm) (ks mode : Int) (pos : Nat) (len : Int) (hp : pos % 16 = 0)
    (hpos : pos < 4294967296) (h1 : -2147483648 ≤ len) (h2 : len < 0) :
    process st ks mode pos len = some (0, st) := by
  rw [process_aligned _ _ _ _ _ (by rw [i32_ofNat hpos]; exact hp)]
  have e : loopFuel = 268435456 + 1 := rfl
  rw [e, processLoop_neg _ _ _ _ _ _ _ (by unfold i32; omega) (i32_lt _)]
  rfl

theorem blocksRun_one (r mode : Nat) (st : Asm) (p : Nat) (hr : CoreEnds r)
    (hp : p + 16 ≤ 4294967295) :
    blocksRun r mode 1 st p
      = some (withBlock st p
          (modeFn (mode &&& 7) (encFn st.heap r) (decFn st.heap r) (Tof st)
            (loadBlock st.heap p)).1
          (modeFn (mode &&& 7) (encFn st.heap r) (decFn st.heap r) (Tof st)
            (loadBlock st.heap p)).2) := by
  rw [blocksRun_succ r mode 0 st p hr hp]
  rfl

/-- One block: what `process` returns and leaves for a mode number `m` from 0 to 7. -/
theorem process_one (st : Asm) (ks : Int) (m pos : Nat) (hm : m < 8)
    (hr : CoreEnds (add32 (i32 ks) 5)) (hp : pos % 16 = 0) (h1 : pos + 16 ≤ 2147483648) :
    process st ks (m : Int) (pos : Int) 16
      = some (16, withBlock st pos
          (modeFn m (encFn st.heap (add32 (i32 ks) 5)) (decFn st.heap (add32 (i32 ks) 5))
            (Tof st) (blockAt st.heap pos)).1
          (modeFn m (encFn st.heap (add32 (i32 ks) 5)) (decFn st.heap (add32 (i32 ks) 5))
            (Tof st) (blockAt st.heap pos)).2) := by
  have h := process_blocks st ks (m : Int) pos 16 hp (by omega) (by norm_num)
  rw [show (16 : Nat) / 16 = 1 from rfl, i32_ofNat (by omega : m < 4294967296),
    blocksRun_one _ _ _ _ hr (by omega), loadBlock_eq _ _ hp,
    show m &&& 7 = m by rw [and_7]; omega] at h
  exact h

theorem Lt4_Tof_set_iv (st : Asm) (t0 t1 t2 t3 : Int) : Lt4 (Tof (set_iv st t0 t1 t2 t3)) := by
  unfold Lt4 Tof set_iv
  exact ⟨i32_lt t0, i32_lt t1, i32_lt t2, i32_lt t3⟩

theorem heap_set_iv (st : Asm) (t0 t1 t2 t3 : Int) : (set_iv st t0 t1 t2 t3).heap = st.heap :=
  rfl

end NAes

namespace NAes

/-! ## The first loop of `set_key` in the words of the key expansion -/

theorem subWord_eq (k : Nat) (hk : k < 4294967296) :
    subWord aes_init k = subW (arrGet aes_init.aes_sbox) k := by
  obtain ⟨e0, e1, e2, e3⟩ := shr_bytes k hk
  unfold subWord subW
  rw [e0, e1, e2, e3, aes_sbox_eq]
  exact pack_of_shl_xor (SBOX_get_lt _) (SBOX_get_lt _) (SBOX_get_lt _) (SBOX_get_lt _)

theorem rot_eq (w : Nat) (hw : w < 4294967296) : shl32 w 8 ^^^ (w >>> 24) = rotWord w := by
  rw [shl32_eq, Nat.shiftRight_eq_div_pow,
    xor_eq_add 8 (w * 2 ^ 8 % 4294967296) (w / 2 ^ 24) (by omega) (by omega)]
  unfold rotWord pack byte0 byte1 byte2 byte3
  omega

theorem subW_lt (S : Nat → Nat) (hS : ∀ b, S b < 256) (w : Nat) : subW S w < 4294967296 :=
  pack_lt (hS _) (hS _) (hS _) (hS _)

theorem aes_sbox_lt_256 (b : Nat) : arrGet aes_init.aes_sbox b < 256 := by
  rw [aes_sbox_eq]; exact SBOX_get_lt b

/-- The word `k` of the first loop of `set_key` after its conditional statements, when
the round constant in `rcon` has the byte `c` as its low eight bits. -/
theorem keyTemp_eq (ks i rc k c : Nat) (hks : ks ≠ 0) (hk : k < 4294967296)
    (hc : i % ks = 0 → shl32 rc 24 = c * 16777216) :
    keyTemp aes_init ks i rc k
      = if i % ks = 0 then rotWord (subW (arrGet aes_init.aes_sbox) k) ^^^ (c * 16777216)
        else if ks = 8 ∧ i % 8 = 4 then subW (arrGet aes_init.aes_sbox) k
        else k := by
  unfold keyTemp
  simp only
  by_cases h0 : i % ks = 0
  · rw [if_pos ⟨hks, h0⟩, if_pos (Or.inl ⟨hks, h0⟩), if_pos h0, subWord_eq k hk,
      rot_eq _ (subW_lt _ aes_sbox_lt_256 _), hc h0]
  · rw [if_neg (fun h => h0 h.2), if_neg h0]
    by_cases h8 : ks = 8 ∧ i % 8 = 4
    · rw [if_pos (Or.inr ⟨h8.1, by rw [h8.1]; exact h8.2⟩), if_pos h8, subWord_eq k hk]
    · rw [if_neg h8, if_neg]
      rintro (h | h)
      · exact h0 h.2
      · exact h8 ⟨h.1, by rw [← h.1]; exact h.2⟩

theorem rcon_4 : ∀ i, i < 44 → 4 ≤ i → i % 4 = 0 →
    shl32 (rconAt 4 (i - 4) 4 1) 24 = rconByte (i / 4) * 16777216 := by decide

theorem rcon_6 : ∀ i, i < 52 → 6 ≤ i → i % 6 = 0 →
    shl32 (rconAt 6 (i - 6) 6 1) 24 = rconByte (i / 6) * 16777216 := by decide

theorem rcon_8 : ∀ i, i < 60 → 8 ≤ i → i % 8 = 0 →
    shl32 (rconAt 8 (i - 8) 8 1) 24 = rconByte (i / 8) * 16777216 := by decide

theorem rcon_ks (ks : Nat) (hks : ks = 4 ∨ ks = 6 ∨ ks = 8) (i : Nat) (h1 : ks ≤ i)
    (h2 : i < 4 * ks + 28) (h0 : i % ks = 0) :
    shl32 (rconAt ks (i - ks) ks 1) 24 = rconByte (i / ks) * 16777216 := by
  rcases hks with rfl | rfl | rfl
  · exact rcon_4 i h2 h1 h0
  · exact rcon_6 i h2 h1 h0
  · exact rcon_8 i h2 h1 h0

/-- The recurrence of the encryption schedule after `set_key`, for the key sizes 4, 6
and 8. -/
theorem set_key_schedG (st : Asm) (ks k0 k1 k2 k3 k4 k5 k6 k7 : Nat)
    (hks : ks = 4 ∨ ks = 6 ∨ ks = 8) (hs : 1264 ≤ st.heap.size) (i : Nat) (h1 : ks ≤ i)
    (h2 : i < 4 * ks + 28) :
    ekeys_get (set_key st ks k0 k1 k2 k3 k4 k5 k6 k7).heap i
      = ekeys_get (set_key st ks k0 k1 k2 k3 k4 k5 k6 k7).heap (i - ks)
        ^^^ schedG (arrGet aes_init.aes_sbox) ks i
              (ekeys_get (set_key st ks k0 k1 k2 k3 k4 k5 k6 k7).heap (i - 1)) := by
  obtain ⟨_, _, r, _, _, _⟩ :=
    set_key_spec st ks k0 k1 k2 k3 k4 k5 k6 k7 (by omega) (by omega) hs
  rw [r i h1 h2]
  unfold schedG
  by_cases h0 : i % ks = 0
  · rw [keyTemp_eq ks i _ _ (rconByte (i / ks)) (by omega) (ekeys_get_lt _ _)
      (fun _ => rcon_ks ks hks i h1 h2 h0)]
  · rw [keyTemp_eq ks i _ _ 0 (by omega) (ekeys_get_lt _ _) (fun h => absurd h h0),
      if_neg h0, if_neg h0]

end NAes

namespace NAes

/-! ## The schedules depend on the key words used only -/

theorem ekeys_agree (st st' : Asm) (ks k0 k1 k2 k3 k4 k5 k6 k7 l0 l1 l2 l3 l4 l5 l6 l7 : Nat)
    (h1 : 1 ≤ ks) (h8 : ks ≤ 8) (hs : 1264 ≤ st.heap.size) (hs' : 1264 ≤ st'.heap.size)
    (hag : ∀ i, i < ks →
      [k0, k1, k2, k3, k4, k5, k6, k7].getD i 0 = [l0, l1, l2, l3, l4, l5, l6, l7].getD i 0) :
    ∀ i, i < 4 * ks + 28 →
      ekeys_get (set_key st ks k0 k1 k2 k3 k4 k5 k6 k7).heap i
        = ekeys_get (set_key st' ks l0 l1 l2 l3 l4 l5 l6 l7).heap i := by
  obtain ⟨_, a1, a2, _, _, _⟩ := set_key_spec st ks k0 k1 k2 k3 k4 k5 k6 k7 h1 h8 hs
  obtain ⟨_, b1, b2, _, _, _⟩ := set_key_spec st' ks l0 l1 l2 l3 l4 l5 l6 l7 h1 h8 hs'
  intro i
  induction i using Nat.strong_induction_on with
  | _ i ih =>
    intro hi
    by_cases hlt : i < ks
    · rw [a1 i hlt, b1 i hlt, hag i hlt]
    · rw [a2 i (by omega) hi, b2 i (by omega) hi, ih (i - ks) (by omega) (by omega),
        ih (i - 1) (by omega) (by omega)]

theorem dkeys_agree (st st' : Asm) (ks k0 k1 k2 k3 k4 k5 k6 k7 l0 l1 l2 l3 l4 l5 l6 l7 : Nat)
    (h1 : 1 ≤ ks) (h8 : ks ≤ 8) (hs : 1264 ≤ st.heap.size) (hs' : 1264 ≤ st'.heap.size)
    (hag : ∀ i, i < ks →
      [k0, k1, k2, k3, k4, k5, k6, k7].getD i 0 = [l0, l1, l2, l3, l4, l5, l6, l7].getD i 0) :
    ∀ i, i < 4 * ks + 28 →
      dkeys_get (set_key st ks k0 k1 k2 k3 k4 k5 k6 k7).heap i
        = dkeys_get (set_key st' ks l0 l1 l2 l3 l4 l5 l6 l7).heap i := by
  obtain ⟨_, _, _, a3, _, _⟩ := set_key_spec st ks k0 k1 k2 k3 k4 k5 k6 k7 h1 h8 hs
  obtain ⟨_, _, _, b3, _, _⟩ := set_key_spec st' ks l0 l1 l2 l3 l4 l5 l6 l7 h1 h8 hs'
  intro i hi
  rw [a3 i hi, b3 i hi, ekeys_agree st st' ks k0 k1 k2 k3 k4 k5 k6 k7 l0 l1 l2 l3 l4 l5 l6 l7
    h1 h8 hs hs' hag _ (by omega)]

/-- The words of the decryption schedule after `set_key`, for a key size from 1 to 8:
the groups 0 and `n - 4` are copies, the others go through InvMixColumns. -/
theorem set_key_dkeys (st : Asm) (ks k0 k1 k2 k3 k4 k5 k6 k7 : Nat) (h1 : 1 ≤ ks) (h8 : ks ≤ 8)
    (hs : 1264 ≤ st.heap.size) (j jj : Nat) (hj : j + 4 ≤ 4 * ks + 28) (hjm : j % 4 = 0)
    (hjj : jj < 4) :
    dkeys_get (set_key st ks k0 k1 k2 k3 k4 k5 k6 k7).heap (j + jj)
      = (if j < 4 ∨ j ≥ 4 * ks + 28 - 4 then id else invMixW)
          (ekeys_get (set_key st ks k0 k1 k2 k3 k4 k5 k6 k7).heap
            (4 * ks + 28 - 4 - j + (4 - jj) % 4)) := by
  obtain ⟨_, _, _, d, _, _⟩ := set_key_spec st ks k0 k1 k2 k3 k4 k5 k6 k7 h1 h8 hs
  rw [d (j + jj) (by omega), dkeyVal_eq _ _ _ (ekeys_get_lt _ _),
    show (j + jj) / 4 * 4 = j by omega, show (j + jj) % 4 = jj by omega,
    show 4 * ks + 28 - (4 + j) = 4 * ks + 28 - 4 - j by omega]
  split <;> rfl

theorem zeroState_size : zeroState.heap.size = 16384 := rfl

end NAes

namespace NAes

/-! ## Two calls of `process` over the same range -/

theorem and7_of_lt {m : Nat} (h : m < 8) : m &&& 7 = m := by rw [and_7]; omega

/-- Two calls of `process` with the modes `m1` and `m2` over the same blocks of the data
region, the registers being changed by `f` in between.  When the block transforms do
not depend on the data region and the two passes over a list of blocks undo each other,
the bytes of the range are restored. -/
theorem process_roundTrip (st : Asm) (ks : Int) (m1 m2 : Nat) (hm1 : m1 < 8) (hm2 : m2 < 8)
    (hr : CoreEnds (add32 (i32 ks) 5))
    (E D : Nat × Nat × Nat × Nat → Nat × Nat × Nat × Nat)
    (I1 I2 : Nat × Nat × Nat × Nat → Prop)
    (hF1 : ∀ a, LowEq a st.heap → ∀ T X,
      modeFn m1 (encFn a (add32 (i32 ks) 5)) (decFn a (add32 (i32 ks) 5)) T X
        = modeFn m1 E D T X)
    (hstep1 : ∀ T X, I1 T → Lt4 X → Lt4 (modeFn m1 E D T X).1 ∧ I1 (modeFn m1 E D T X).2)
    (hF2 : ∀ a, LowEq a st.heap → ∀ T X,
      modeFn m2 (encFn a (add32 (i32 ks) 5)) (decFn a (add32 (i32 ks) 5)) T X
        = modeFn m2 E D T X)
    (hstep2 : ∀ T X, I2 T → Lt4 X → Lt4 (modeFn m2 E D T X).1 ∧ I2 (modeFn m2 E D T X).2)
    (pos n : Nat) (hp : pos % 16 = 0) (h3 : 0x3000 ≤ pos) (h1 : pos + 16 * n ≤ 2147483648)
    (h2 : pos + 16 * n ≤ st.heap.size)
    (f : Asm → Asm) (hf : ∀ c, (f c).heap = c.heap)
    (T1 : Nat × Nat × Nat × Nat) (J2 : Nat × Nat × Nat × Nat → Prop) (hT1 : Tof st = T1)
    (hT2 : ∀ c, J2 (Tof (f c))) (hI1 : I1 T1) (hI2 : ∀ T, J2 T → I2 T)
    (hrt : ∀ (T2 : Nat × Nat × Nat × Nat) (Xs : List (Nat × Nat × Nat × Nat)), J2 T2 →
      (∀ X ∈ Xs, Lt4 X) → (runBlocks m2 E D T2 (runBlocks m1 E D T1 Xs).1).1 = Xs) :
    ∃ c1 c2, process st ks (m1 : Int) pos ((16 * n : Nat) : Int)
          = some (((16 * n : Nat) : Int), c1) ∧
      process (f c1) ks (m2 : Int) pos ((16 * n : Nat) : Int)
          = some (((16 * n : Nat) : Int), c2) ∧
      ∀ q, pos ≤ q → q < pos + 16 * n → DATA_get c2.heap q = DATA_get st.heap q := by
  have e1 := and7_of_lt hm1
  have e2 := and7_of_lt hm2
  obtain ⟨c1, c2, r1, r2, hb⟩ := twoPass (add32 (i32 ks) 5) m1 m2 hr E D st.heap I1 I2
    (by rw [e1]; exact hF1) (by rw [e1]; exact hstep1) (by rw [e2]; exact hF2)
    (by rw [e2]; exact hstep2) n st pos (LowEq_refl _) (by rw [hT1]; exact hI1) hp h3 h1 h2
    f hf (fun c => hI2 _ (hT2 c))
  rw [e1, e2, hT1, hrt _ _ (hT2 c1) (Lt4_blocksOf st.heap n pos)] at hb
  refine ⟨c1, c2, ?_, ?_, blocksOf_bytes c2.heap st.heap n pos hb⟩
  · rw [process_run st ks m1 pos n hp h1 (by omega), i32_ofNat (by omega), r1]; rfl
  · rw [process_run (f c1) ks m2 pos n hp h1 (by omega), i32_ofNat (by omega), r2]; rfl

/-- The drivers over a buffer that holds the tables and, below the data region, what
the buffer `b` holds: the block transforms are those of the key in `b`. -/
theorem modeFn_keyed {a b : Arena} (h : LowEq a b) (hT : TablesLoaded b) (r : Nat)
    (hq : innerRounds (u32 r) ≤ 62) (m : Nat) (T X : Nat × Nat × Nat × Nat) :
    modeFn m (encFn a r) (decFn a r) T X
      = modeFn m (encKey b (innerRounds (u32 r))) (decKey b (innerRounds (u32 r))) T X := by
  rw [encFn_keyed h hT r hq, decFn_keyed h hT r hq]

/-- The stream drivers (modes 4 to 7) do not use the decrypting transform, and the
encrypting transform reads below the data region only. -/
theorem modeFn_stream {a b : Arena} (h : LowEq a b) (r : Nat)
    (hq : innerRounds (u32 r) ≤ 766) (m : Nat) (hm : 4 ≤ m)
    (D : Nat × Nat × Nat × Nat → Nat × Nat × Nat × Nat) (T X : Nat × Nat × Nat × Nat) :
    modeFn m (encFn a r) (decFn a r) T X = modeFn m (encFn b r) D T X := by
  rw [encFn_LowEq h r hq]
  match m, hm with
  | 4, _ => rfl
  | 5, _ => rfl
  | 6, _ => rfl
  | n + 7, _ => rfl

theorem stream_step (E D : Nat × Nat × Nat × Nat → Nat × Nat × Nat × Nat)
    (hE : ∀ x, Lt4 (E x)) (m : Nat) (hm : 4 ≤ m) (T X : Nat × Nat × Nat × Nat) (hX : Lt4 X) :
    Lt4 (modeFn m E D T X).1 ∧ True := by
  refine ⟨?_, trivial⟩
  match m, hm with
  | 4, _ => exact Lt4_xor4 (hE _) hX
  | 5, _ => exact Lt4_xor4 (hE _) hX
  | 6, _ => exact Lt4_xor4 (hE _) hX
  | n + 7, _ => exact Lt4_xor4 (hE _) hX

end NAes

namespace NAes

/-! ## The encrypting transform with 767 passes reads its last round key in the data region -/

theorem HEAPat_zeros (n e : Nat) : HEAPat { size := n, mem := fun _ => 0 } e = 0 := by
  unfold HEAPat HEAP_get
  split
  · split <;> rfl
  · rfl

theorem coreRound_zeros (n k t i x0 x1 x2 x3 : Nat) :
    coreRound { size := n, mem := fun _ => 0 } k t i x0 x1 x2 x3 = (0, 0, 0, 0) := by
  unfold coreRound
  simp only [HEAPat_zeros, Nat.xor_self]

theorem coreIter_zeros (n k t : Nat) : ∀ (m i : Nat),
    coreIter { size := n, mem := fun _ => 0 } k t m i (0, 0, 0, 0) = (0, 0, 0, 0) := by
  intro m
  induction m with
  | zero => intro i; rfl
  | succ m ih => intro i; simp only [coreIter, coreRound_zeros, ih]

theorem coreIter_zeros_succ (n k t m i : Nat) (x : Nat × Nat × Nat × Nat) :
    coreIter { size := n, mem := fun _ => 0 } k t (m + 1) i x = (0, 0, 0, 0) := by
  simp only [coreIter, coreRound_zeros, coreIter_zeros]

/-- Over a buffer that is zero below the data region, the encrypting transform with 767
passes of the loop of `_core` gives the four little-endian words at 0x3000: its last
round key is read in the data region. -/
theorem encFn_767 (a : Arena) (hz : ∀ q, q < 0x3000 → a.mem q = 0) (r : Nat)
    (hr : innerRounds (u32 r) = 767) (x : Nat × Nat × Nat × Nat) :
    encFn a r x = (HEAPat a 12288, HEAPat a 12292, HEAPat a 12296, HEAPat a 12300) := by
  have h : LowEq a { size := a.size, mem := fun _ => 0 } := ⟨rfl, fun q hq => hz q hq⟩
  unfold encFn encOut coreOut
  have e0 : u32 0x0000 = 0 := by decide
  have e1 : u32 0x0800 = 0x800 := by decide
  have e2 : u32 0x1000 = 0x1000 := by decide
  rw [e0, e1, e2, hr, coreIter_LowEq h 767 16 _ (by norm_num) (by norm_num),
    coreIter_zeros_succ]
  unfold coreFinal
  simp only [HEAPat_LowEq_tab h 0x800 _ (by norm_num), HEAPat_zeros]
  have s : ∀ n, shl32 0 n = 0 := fun n => by unfold shl32; simp
  simp only [s, Nat.xor_self, Nat.zero_xor, Nat.zero_or]
  rfl

theorem DATA_get_withBlock (st : Asm) (p : Nat) (S T : Nat × Nat × Nat × Nat) (k : Nat)
    (hp : p % 16 = 0) (h1 : p + 16 ≤ 2147483648) (h2 : p + 16 ≤ st.heap.size) (hk : k < 16) :
    DATA_get (withBlock st p S T).heap (p + k)
      = (regBytes
          { heap := st.heap, S0 := S.1, S1 := S.2.1, S2 := S.2.2.1, S3 := S.2.2.2,
            T0 := T.1, T1 := T.2.1, T2 := T.2.2.1, T3 := T.2.2.2 }).getD k 0 := by
  unfold withBlock; simp only
  exact DATA_get_storeState _ p k hp h1 h2 hk

/-- When `(ks+5)<<4`, as a signed 32-bit integer, is at most 0x2FE0, the loop of `_core`
ends after at most 766 passes. -/
theorem rounds_of_signed (ks : Int)
    (h : toSigned (shl32 (add32 (i32 ks) 5) 4) ≤ 12256) :
    CoreEnds (add32 (i32 ks) 5) ∧ innerRounds (u32 (add32 (i32 ks) 5)) ≤ 766 := by
  have hlt : add32 (i32 ks) 5 < 4294967296 := Nat.mod_lt _ (by norm_num)
  have hs := shl32_lt (add32 (i32 ks) 5) 4
  unfold CoreEnds innerRounds
  rw [u32_of_lt hlt]
  generalize shl32 (add32 (i32 ks) 5) 4 = s at h hs
  unfold toSigned at h
  split at h
  · refine ⟨by omega, ?_⟩
    rw [if_pos (by omega)]
    omega
  · refine ⟨by omega, ?_⟩
    rw [if_neg (by omega)]
    omega

/-- Every `ks` from -5 to 761 is such a key size. -/
theorem signed_of_range (ks : Int) (h1 : -5 ≤ ks) (h2 : ks ≤ 761) :
    toSigned (shl32 (add32 (i32 ks) 5) 4) ≤ 12256 := by
  have e : add32 (i32 ks) 5 = (ks + 5).toNat := by unfold add32 i32; omega
  rw [e, shl32_eq]
  unfold toSigned
  rw [if_pos (by omega)]
  omega

theorem set_key_size (st : Asm) (ks k0 k1 k2 k3 k4 k5 k6 k7 : Nat) (h1 : 1 ≤ ks) (h8 : ks ≤ 8)
    (hs : 1264 ≤ st.heap.size) :
    (set_key st ks k0 k1 k2 k3 k4 k5 k6 k7).heap.size = st.heap.size :=
  (set_key_spec st ks k0 k1 k2 k3 k4 k5 k6 k7 h1 h8 hs).1

end NAes

namespace NAes

/-! ## The decrypting transform is injective; CBC decryption block by block -/

end NAes

namespace NAes

/-! ## Two buffers with the same key and ciphertexts that differ in one block -/

end NAes

namespace NAes

/-! ## The transform of `_core` is the cipher of FIPS-197 -/

end NAes

namespace NAes

end NAes

namespace NAes

/-! ## The zero key -/

end NAes

namespace NAes

/-! ## The reads of `_core` determine its result and stay in their zones -/

end NAes

namespace NAes

/-! ## The exported functions `process` and `flush_state` -/

/-- C7: for every `ks`, `mode`, `len` and every `pos` that is not a multiple of 16,
`process(ks, mode, pos, len)` returns -1 and leaves the whole module state (every byte of
the buffer, `S0..S3` and `T0..T3`) as it was. -/
theorem C7_alignment_rejection (st : Asm) (ks mode pos len : Int) (hp : pos % 16 ≠ 0) :
    process st ks mode pos len = some (-1, st) :=
  process_unaligned st ks mode pos len hp

theorem C7_alignment_rejection_witness :
    process initState 4 0 12289 16 = some (-1, initState) :=
  C7_alignment_rejection initState 4 0 12289 16 (by decide)

/-- C9: for a 16-byte-aligned `p` with `p..p+15` inside the buffer, `flush_state(p)`
returns 16, leaves at `p..p+15` the big-endian bytes of `S0, S1, S2, S3` (the most
significant byte of `S0` at `p`) and changes no other cell of the buffer and no register;
for every `pos` that is not a multiple of 16 it returns -1 and changes nothing. -/
theorem C9_flush_state (st : Asm) (p : Nat) (hp : p % 16 = 0) (h1 : p + 16 ≤ 2147483648)
    (h2 : p + 16 ≤ st.heap.size) :
    (flush_state st p).1 = 16 ∧
    (∀ k, k < 16 → DATA_get (flush_state st p).2.heap (p + k) = (regBytes st).getD k 0) ∧
    (∀ q, (q < p ∨ p + 16 ≤ q) → (flush_state st p).2.heap.mem q = st.heap.mem q) ∧
    (flush_state st p).2.heap.size = st.heap.size ∧
    Sof (flush_state st p).2 = Sof st ∧ Tof (flush_state st p).2 = Tof st ∧
    (∀ pos : Int, pos % 16 ≠ 0 → flush_state st pos = (-1, st)) := by
  rw [flush_state_aligned st p hp (by omega)]
  refine ⟨rfl, fun k hk => DATA_get_storeState st p k hp h1 h2 hk, fun q hq => ?_,
    storeState_size st p, rfl, rfl, fun pos hpos => flush_state_unaligned st pos hpos⟩
  show (storeState st p).mem q = st.heap.mem q
  rw [storeState_mem st p q hp h1 h2, if_neg (by omega)]

theorem C9_flush_state_witness :
    (flush_state initState (12288 : Nat)).1 = 16 ∧
    (∀ k, k < 16 → DATA_get (flush_state initState (12288 : Nat)).2.heap (12288 + k)
      = (regBytes initState).getD k 0) :=
  have h := C9_flush_state initState 12288 (by decide) (by decide)
    (by rw [initState_spec.2.1]; decide)
  ⟨h.1, h.2.1⟩

/-- C10: one block processed in MODE_CTR (mode 7), for a `ks` for which the loop of
`_core` ends and registers `T0..T3` that hold 32-bit values: the call returns 16, the
64-bit value `T2 * 2^32 + T3` is replaced by its successor modulo `2^64`, and `T0`, `T1`
are unchanged; when `T3` was `0xFFFFFFFF` it becomes 0 and `T2` increases by one modulo
`2^32`, otherwise `T3` increases by one and `T2` is unchanged. -/
theorem C10_ctr_increment (st : Asm) (ks : Int) (pos : Nat)
    (hr : CoreEnds (add32 (i32 ks) 5)) (hp : pos % 16 = 0) (h1 : pos + 16 ≤ 2147483648)
    (hT : Lt4 (Tof st)) :
    ∃ c, process st ks 7 pos 16 = some (16, c) ∧ c.T0 = st.T0 ∧ c.T1 = st.T1 ∧
      c.T2 * 4294967296 + c.T3
        = (st.T2 * 4294967296 + st.T3 + 1) % 18446744073709551616 ∧
      (st.T3 = 4294967295 → c.T3 = 0 ∧ c.T2 = (st.T2 + 1) % 4294967296) ∧
      (st.T3 ≠ 4294967295 → c.T3 = st.T3 + 1 ∧ c.T2 = st.T2) := by
  have h := process_one st ks 7 pos (by norm_num) hr hp h1
  simp only [Nat.cast_ofNat] at h
  refine ⟨_, h, rfl, rfl, ?_⟩
  obtain ⟨_, _, h2, h3⟩ := hT
  simp only [Tof] at h2 h3
  simp only [withBlock, modeFn, ctrInc, Tof, add32]
  refine ⟨?_, fun e => ?_, fun e => ?_⟩
  · split <;> omega
  · rw [e]; simp
  · rw [if_neg (by omega)]
    exact ⟨by omega, rfl⟩

theorem C10_ctr_increment_witness :
    ∃ c, process (set_iv initState 0 0 5 4294967295) 4 7 (12288 : Nat) 16 = some (16, c) ∧
      c.T2 = 6 ∧ c.T3 = 0 := by
  obtain ⟨c, h, _, _, _, h2, _⟩ := C10_ctr_increment (set_iv initState 0 0 5 4294967295) 4
    12288 (by decide) (by decide) (by decide) (Lt4_Tof_set_iv _ _ _ _ _)
  exact ⟨c, h, (h2 (by decide)).2, (h2 (by decide)).1⟩

/-- C21: the mode argument of `process` is used modulo 8 and never rejected: for every
`ks`, `pos`, `len` and every mode value `m`, `process(ks, m, pos, len)` has the result and
the effect of `process(ks, m & 7, pos, len)` (non-termination included); mode 8 behaves
as mode 0 (MODE_ECB_ENC) and mode -1 as mode 7 (MODE_CTR). -/
theorem C21_mode_modulo_8 (st : Asm) (ks m pos len : Int) :
    process st ks m pos len = process st ks ((i32 m &&& 7 : Nat) : Int) pos len ∧
    process st ks 8 pos len = process st ks 0 pos len ∧
    process st ks (-1) pos len = process st ks 7 pos len := by
  have key : ∀ a b : Int, i32 a &&& 7 = i32 b &&& 7 →
      process st ks a pos len = process st ks b pos len := by
    intro a b hab
    unfold process
    simp only
    split
    · rfl
    · rw [processLoop_mode _ (i32 a), processLoop_mode _ (i32 b), hab]
  refine ⟨key _ _ ?_, key _ _ (by decide), key _ _ (by decide)⟩
  rw [i32_ofNat (Nat.lt_of_le_of_lt Nat.and_le_right (by norm_num)), Nat.and_assoc,
    Nat.and_self]

end NAes

namespace NAes

/-- C8: for a `ks` for which the loop of `_core` ends, a 16-byte-aligned `pos` and a
signed 32-bit `len` whose range `pos..pos+len-1` lies inside the buffer,
`process(ks, mode, pos, len)` returns `16 * floor(len / 16)` when `len >= 16` and 0 when
`len < 16` (negative lengths included), keeps the size of the buffer and changes no cell
outside `[pos, pos + returned value)`; the 1 to 15 bytes of a trailing partial block are
left as they were. -/
theorem C8_whole_blocks_only (st : Asm) (ks mode : Int) (pos : Nat) (len : Int)
    (hr : CoreEnds (add32 (i32 ks) 5)) (hp : pos % 16 = 0) (hpos : pos < 2147483648)
    (hl1 : -2147483648 ≤ len) (hl2 : len < 2147483648)
    (hin : 0 ≤ len → (pos : Int) + len ≤ 2147483648 ∧ (pos : Int) + len ≤ st.heap.size) :
    ∃ c, process st ks mode pos len = some (if len < 16 then 0 else 16 * (len / 16), c) ∧
      c.heap.size = st.heap.size ∧
      ∀ q : Nat, ((q : Int) < pos ∨
          (pos : Int) + (if len < 16 then 0 else 16 * (len / 16)) ≤ q) →
        c.heap.mem q = st.heap.mem q := by
  by_cases hneg : len < 0
  · refine ⟨st, ?_, rfl, fun _ _ => rfl⟩
    rw [process_neg st ks mode pos len hp (by omega) hl1 hneg, if_pos (by omega)]
  · obtain ⟨l, rfl⟩ : ∃ l : Nat, len = (l : Int) := ⟨len.toNat, by omega⟩
    obtain ⟨h1, h2⟩ := hin (by omega)
    obtain ⟨c, hc, hs, hm⟩ := blocksRun_frame (add32 (i32 ks) 5) (i32 mode) hr (l / 16) st pos
      hp (by omega) (by omega)
    have e : (if (l : Int) < 16 then 0 else 16 * ((l : Int) / 16)) = ((16 * (l / 16) : Nat) : Int) := by
      split <;> omega
    refine ⟨c, ?_, hs, fun q hq => hm q ?_⟩
    · rw [process_blocks st ks mode pos l hp (by omega) (by omega), hc, e]
      rfl
    · rw [e] at hq
      omega

theorem C8_whole_blocks_only_witness :
    ∃ c, process initState 4 0 (12288 : Nat) 40
        = some (if (40 : Int) < 16 then 0 else 16 * (40 / 16), c) ∧
      c.heap.size = initState.heap.size := by
  obtain ⟨c, h, hs, _⟩ := C8_whole_blocks_only initState 4 0 12288 40 (by decide) (by decide)
    (by decide) (by decide) (by decide)
    (fun _ => ⟨by decide, by rw [initState_spec.2.1]; decide⟩)
  exact ⟨c, h, hs⟩

/-- C22: for a `ks` for which the loop of `_core` ends, after a call of `process` (any
mode) on an aligned range of `len >= 16` bytes inside the buffer, which returns
`ret = 16 * floor(len / 16)`, the registers `S0..S3` (as 32-bit values) are the
big-endian words of the 16 bytes at `pos+ret-16 .. pos+ret-1`, and a following
`flush_state(q)` at an aligned `q` inside the buffer and disjoint from that block leaves
at `q` a copy of this last block; a call with `len < 16`, which returns 0, and a call
with a misaligned position, which returns -1, leave the whole state, `S0..S3` included,
unchanged. -/
theorem C22_state_tracks_last_block (st : Asm) (ks mode : Int) (pos len : Nat)
    (hr : CoreEnds (add32 (i32 ks) 5)) (hp : pos % 16 = 0) (h16 : 16 ≤ len)
    (hl : len < 2147483648) (h1 : pos + len ≤ 2147483648) (h2 : pos + len ≤ st.heap.size) :
    (∃ c, process st ks mode pos len = some (((16 * (len / 16) : Nat) : Int), c) ∧
      blockAt c.heap (pos + 16 * (len / 16) - 16) = map4 u32 (Sof c) ∧
      ∀ q, q % 16 = 0 → q + 16 ≤ 2147483648 → q + 16 ≤ c.heap.size →
        (q + 16 ≤ pos + 16 * (len / 16) - 16 ∨ pos + 16 * (len / 16) ≤ q) →
        blockAt (flush_state c q).2.heap q = blockAt c.heap (pos + 16 * (len / 16) - 16)) ∧
    (∀ l : Int, -2147483648 ≤ l → l < 16 → process st ks mode pos l = some (0, st)) ∧
    (∀ (p l : Int), p % 16 ≠ 0 → process st ks mode p l = some (-1, st)) := by
  refine ⟨?_, fun l hl1 hl2 => ?_, fun p l hpl => process_unaligned st ks mode p l hpl⟩
  · obtain ⟨n, hn⟩ : ∃ n, len / 16 = n + 1 := ⟨len / 16 - 1, by omega⟩
    obtain ⟨c, hc, hb⟩ := blocksRun_last (add32 (i32 ks) 5) (i32 mode) hr n st pos hp
      (by omega) (by omega)
    refine ⟨c, ?_, ?_, fun q hq h3 h4 hd => ?_⟩
    · rw [process_blocks st ks mode pos len hp (by omega) (by omega), hn, hc]
      rfl
    · rw [hn, show pos + 16 * (n + 1) - 16 = pos + 16 * n by omega]
      exact hb
    · rw [flush_state_aligned c q hq (by omega)]
      show blockAt (storeState c q) q = _
      rw [storeState_blockAt c q hq h3 h4, hn,
        show pos + 16 * (n + 1) - 16 = pos + 16 * n by omega]
      exact hb.symm
  · by_cases hneg : l < 0
    · exact process_neg st ks mode pos l hp (by omega) hl1 hneg
    · obtain ⟨m, rfl⟩ : ∃ m : Nat, l = (m : Int) := ⟨l.toNat, by omega⟩
      rw [process_blocks st ks mode pos m hp (by omega) (by omega),
        show m / 16 = 0 by omega]
      rfl

theorem C22_state_tracks_last_block_witness :
    ∃ c, process initState 4 2 (12288 : Nat) (32 : Nat) = some (((16 * (32 / 16) : Nat) : Int), c) ∧
      blockAt c.heap (12288 + 16 * (32 / 16) - 16) = map4 u32 (Sof c) := by
  obtain ⟨⟨c, h, hb, _⟩, _⟩ := C22_state_tracks_last_block initState 4 2 12288 32 (by decide)
    (by decide) (by decide) (by decide) (by decide) (by rw [initState_spec.2.1]; decide)
  exact ⟨c, h, hb⟩

/-- C20: the mode transition table.  For a `ks` for which the loop of `_core` ends, one
block `X` at an aligned `pos` processed by `process` with the feedback register `T`
beforehand, where `E` and `D` are the block transforms of the ECB drivers under the
schedules in the buffer: the block stored at `pos` (and left in `S0..S3`) and the new
`T` are `E(X)`, `T` for ECB-enc; `D(X)`, `T` for ECB-dec; `E(T xor X)` and the same
value for CBC-enc; `D(X) xor T`, `X` for CBC-dec; `E(T) xor X` and the same value for
CFB-enc; `E(T) xor X`, `X` for CFB-dec; `E(T) xor X`, `E(T)` for OFB; `E(T) xor X` and
the incremented counter for CTR. -/
theorem C20_mode_transition_table (st : Asm) (ks : Int) (pos : Nat)
    (hr : CoreEnds (add32 (i32 ks) 5)) (hp : pos % 16 = 0) (hb : pos + 16 ≤ 2147483648)
    (E D : Nat × Nat × Nat × Nat → Nat × Nat × Nat × Nat) (T X : Nat × Nat × Nat × Nat)
    (hE : E = encFn st.heap (add32 (i32 ks) 5)) (hD : D = decFn st.heap (add32 (i32 ks) 5))
    (hT : T = Tof st) (hX : X = blockAt st.heap pos) :
    process st ks 0 pos 16 = some (16, withBlock st pos (E X) T) ∧
    process st ks 1 pos 16 = some (16, withBlock st pos (D X) T) ∧
    process st ks 2 pos 16 = some (16, withBlock st pos (E (xor4 T X)) (E (xor4 T X))) ∧
    process st ks 3 pos 16 = some (16, withBlock st pos (xor4 (D X) T) X) ∧
    process st ks 4 pos 16 = some (16, withBlock st pos (xor4 (E T) X) (xor4 (E T) X)) ∧
    process st ks 5 pos 16 = some (16, withBlock st pos (xor4 (E T) X) X) ∧
    process st ks 6 pos 16 = some (16, withBlock st pos (xor4 (E T) X) (E T)) ∧
    process st ks 7 pos 16 = some (16, withBlock st pos (xor4 (E T) X) (ctrInc T)) := by
  subst hE hD hT hX
  have h0 := process_one st ks 0 pos (by norm_num) hr hp hb
  have h1 := process_one st ks 1 pos (by norm_num) hr hp hb
  have h2 := process_one st ks 2 pos (by norm_num) hr hp hb
  have h3 := process_one st ks 3 pos (by norm_num) hr hp hb
  have h4 := process_one st ks 4 pos (by norm_num) hr hp hb
  have h5 := process_one st ks 5 pos (by norm_num) hr hp hb
  have h6 := process_one st ks 6 pos (by norm_num) hr hp hb
  have h7 := process_one st ks 7 pos (by norm_num) hr hp hb
  simp only [Nat.cast_ofNat, Nat.cast_zero, Nat.cast_one, modeFn] at h0 h1 h2 h3 h4 h5 h6 h7
  exact ⟨h0, h1, h2, h3, h4, h5, h6, h7⟩

theorem C20_mode_transition_table_witness :
    process initState 4 3 (12288 : Nat) 16
      = some (16, withBlock initState 12288
          (xor4 (decFn initState.heap (add32 (i32 4) 5) (blockAt initState.heap 12288))
            (Tof initState))
          (blockAt initState.heap 12288)) :=
  (C20_mode_transition_table initState 4 12288 (by decide) (by decide) (by decide)
    _ _ _ _ rfl rfl rfl rfl).2.2.2.1

end NAes

namespace NAes

/-! ## The tables -/

theorem GEXP3_step : arrGet GEXP3 0 = 1 ∧
    ∀ c, c < 254 → arrGet GEXP3 (c + 1) = gfMul (arrGet GEXP3 c) 3 := by decide!

theorem GEXP3_pow : ∀ c, c < 255 → arrGet GEXP3 c = gfPow 3 c := by
  intro c
  induction c with
  | zero => intro _; exact GEXP3_step.1
  | succ c ih =>
    intro h
    rw [GEXP3_step.2 c (by omega), ih (by omega)]
    rfl

theorem GLOG3_GEXP3 : ∀ c, c < 255 → arrGet GLOG3 (arrGet GEXP3 c) = c := by decide!

theorem GEXP3_GLOG3 : ∀ x, x < 256 → 1 ≤ x →
    arrGet GLOG3 x < 255 ∧ arrGet GEXP3 (arrGet GLOG3 x) = x := by decide!

theorem GEXP3_ne_zero : ∀ c, c < 255 → arrGet GEXP3 c ≠ 0 := by decide!

theorem GF_lengths : GEXP3.length = 256 ∧ GLOG3.length = 256 ∧ arrGet GEXP3 255 = 1 ∧
    arrGet GLOG3 0 = 0 := by decide!

theorem gmul_identities : ∀ a, a < 256 →
    gmul GFT a 1 = a ∧ gmul GFT a 0 = 0 ∧ gmul GFT 0 a = 0 ∧
      (a ≠ 0 → gmul GFT a (ginv GFT a) = 1) := by decide!

theorem colE_rot : ∀ t, t < 4 → 1 ≤ t → ∀ s, s < 256 →
    colE t s = rotr32 (colE 0 s) (8 * t) := by decide!

theorem colD_rot : ∀ t, t < 4 → 1 ≤ t → ∀ s, s < 256 →
    colD t s = rotr32 (colD 0 s) (8 * t) := by decide!

theorem ginit_GFT : ginit = GFT := ginit_eq

/-- C13: after `aes_init`, for every `x` in 0..255, `aes_sinv[aes_sbox[x]] = x` and
`aes_sbox[aes_sinv[x]] = x`; both tables have 256 entries and their entries are bytes,
so `aes_sbox` is a permutation of 0..255 and `aes_sinv` is defined at every index. -/
theorem C13_sbox_inverse_law (x : Nat) (hx : x < 256) :
    arrGet aes_init.aes_sinv (arrGet aes_init.aes_sbox x) = x ∧
    arrGet aes_init.aes_sbox (arrGet aes_init.aes_sinv x) = x ∧
    arrGet aes_init.aes_sbox x < 256 ∧ arrGet aes_init.aes_sinv x < 256 ∧
    aes_init.aes_sbox.length = 256 ∧ aes_init.aes_sinv.length = 256 := by
  rw [aes_sbox_eq, aes_sinv_eq]
  exact ⟨SINV_SBOX x hx, SBOX_SINV x hx, SBOX_get_lt x, SINV_get_lt x, SBOX_length,
    SINV_length⟩

theorem C13_sbox_inverse_law_witness :
    arrGet aes_init.aes_sinv (arrGet aes_init.aes_sbox 83) = 83 :=
  (C13_sbox_inverse_law 83 (by decide)).1

/-- C14: after `ginit`, for every `a` in 0..255, `gmul(a,1) = a`, `gmul(a,0) = 0` and
`gmul(0,a) = 0`; for every `a` in 1..255, `gmul(a, ginv(a)) = 1`; and `ginv(0) = 0`. -/
theorem C14_gf_multiply_identities (a : Nat) (ha : a < 256) :
    gmul ginit a 1 = a ∧ gmul ginit a 0 = 0 ∧ gmul ginit 0 a = 0 ∧
    (a ≠ 0 → gmul ginit a (ginv ginit a) = 1) ∧ ginv ginit 0 = 0 := by
  rw [ginit_GFT]
  obtain ⟨h1, h2, h3, h4⟩ := gmul_identities a ha
  exact ⟨h1, h2, h3, h4, rfl⟩

theorem C14_gf_multiply_identities_witness :
    gmul ginit 83 1 = 83 ∧ gmul ginit 83 (ginv ginit 83) = 1 :=
  have h := C14_gf_multiply_identities 83 (by decide)
  ⟨h.1, h.2.2.2.1 (by decide)⟩

/-- C15: after `ginit`, `gexp3[c]` is `3^c` in GF(2^8) modulo the polynomial 0x11b for
every `c` in 0..254; for every `x` in 1..255, `glog3[x]` is an index below 255 with
`gexp3[glog3[x]] = x`; the 255 values `gexp3[0..254]` are pairwise distinct and
non-zero; `gexp3[255] = gexp3[0] = 1` and `glog3[0] = 0`; both tables have 256 entries. -/
theorem C15_exp_log_tables :
    (∀ c, c < 255 → arrGet ginit.gexp3 c = gfPow 3 c) ∧
    (∀ x, 1 ≤ x → x < 256 →
      arrGet ginit.glog3 x < 255 ∧ arrGet ginit.gexp3 (arrGet ginit.glog3 x) = x) ∧
    (∀ c d, c < 255 → d < 255 → arrGet ginit.gexp3 c = arrGet ginit.gexp3 d → c = d) ∧
    (∀ c, c < 255 → arrGet ginit.gexp3 c ≠ 0) ∧
    arrGet ginit.gexp3 255 = 1 ∧ arrGet ginit.gexp3 0 = 1 ∧ arrGet ginit.glog3 0 = 0 ∧
    ginit.gexp3.length = 256 ∧ ginit.glog3.length = 256 := by
  rw [ginit_GFT]
  refine ⟨GEXP3_pow, fun x h1 h2 => GEXP3_GLOG3 x h2 h1, fun c d hc hd h => ?_,
    GEXP3_ne_zero, GF_lengths.2.2.1, GEXP3_step.1, GF_lengths.2.2.2, GF_lengths.1,
    GF_lengths.2.1⟩
  have e1 := GLOG3_GEXP3 c hc
  have e2 := GLOG3_GEXP3 d hd
  have h' : arrGet GEXP3 c = arrGet GEXP3 d := h
  rw [h'] at e1
  exact e1.symm.trans e2

/-- C19: after `aes_init`, for every `i` in 0..255 with `s = aes_sbox[i]`, `aes_enc[0][i]`
is the word with the bytes `gmul(2,s), s, s, gmul(3,s)` from most to least significant
and `aes_dec[0][s]` is the word with the bytes `gmul(14,i), gmul(9,i), gmul(13,i),
gmul(11,i)`; for every `t` in 1..3 and every index `x` in 0..255, `aes_enc[t][x]` and
`aes_dec[t][x]` are the entry `x` of table 0 rotated right by `8*t` bits. -/
theorem C19_round_tables :
    (∀ i, i < 256 → arr2Get aes_init.aes_enc 0 i
      = pack (gmul ginit 2 (arrGet aes_init.aes_sbox i)) (arrGet aes_init.aes_sbox i)
          (arrGet aes_init.aes_sbox i) (gmul ginit 3 (arrGet aes_init.aes_sbox i))) ∧
    (∀ i, i < 256 → arr2Get aes_init.aes_dec 0 (arrGet aes_init.aes_sbox i)
      = pack (gmul ginit 14 i) (gmul ginit 9 i) (gmul ginit 13 i) (gmul ginit 11 i)) ∧
    (∀ t x, 1 ≤ t → t < 4 → x < 256 →
      arr2Get aes_init.aes_enc t x = rotr32 (arr2Get aes_init.aes_enc 0 x) (8 * t) ∧
      arr2Get aes_init.aes_dec t x = rotr32 (arr2Get aes_init.aes_dec 0 x) (8 * t)) := by
  rw [ginit_GFT, aes_sbox_eq]
  refine ⟨fun i hi => ?_, fun i hi => ?_, fun t x h1 h4 hx => ⟨?_, ?_⟩⟩
  · rw [aes_enc_colE 0 i (by norm_num) hi, gmul_2 _ (SBOX_get_lt i), gmul_3 _ (SBOX_get_lt i)]
    rfl
  · rw [aes_dec_colD 0 _ (by norm_num) (SBOX_get_lt i), gmul_14 i hi, gmul_9 i hi,
      gmul_13 i hi, gmul_11 i hi]
    have := SINV_SBOX i hi
    show colD 0 (sinv (arrGet SBOX i)) = _
    unfold sinv
    rw [this]
    rfl
  · rw [aes_enc_colE t x h4 hx, aes_enc_colE 0 x (by norm_num) hx]
    exact colE_rot t h4 h1 _ (SBOX_get_lt x)
  · rw [aes_dec_colD t x h4 hx, aes_dec_colD 0 x (by norm_num) hx]
    exact colD_rot t h4 h1 _ (SINV_get_lt x)

end NAes

namespace NAes

/-! ## The key schedules -/

/-- C16: for every `ks` in {4,6,8} and every key, after `set_key` the words
`e[0..4ks+27]` of the encryption schedule satisfy `e[i] = k_i` (as a 32-bit value) for
`i < ks` and `e[i] = e[i-ks] xor g_i(e[i-1])` for `ks <= i < 4ks+28`, where `g_i` is
`schedG`: the identity unless `i mod ks = 0` (byte-wise S-box, rotation left by 8 bits,
and the round constant in the most significant byte) or `ks = 8` and `i mod 8 = 4`
(byte-wise S-box only); the round constant of the `n`-th firing is the byte obtained from
1 by `n - 1` doublings in GF(2^8): 01, 02, 04, 08, 10, 20, 40, 80, 1b, 36. -/
theorem C16_encryption_key_schedule (st : Asm) (ks k0 k1 k2 k3 k4 k5 k6 k7 : Nat)
    (hks : ks = 4 ∨ ks = 6 ∨ ks = 8) (hs : 1264 ≤ st.heap.size) :
    (∀ i, i < ks → ekeys_get (set_key st ks k0 k1 k2 k3 k4 k5 k6 k7).heap i
      = [k0, k1, k2, k3, k4, k5, k6, k7].getD i 0 % 4294967296) ∧
    (∀ i, ks ≤ i → i < 4 * ks + 28 →
      ekeys_get (set_key st ks k0 k1 k2 k3 k4 k5 k6 k7).heap i
        = ekeys_get (set_key st ks k0 k1 k2 k3 k4 k5 k6 k7).heap (i - ks)
          ^^^ schedG (arrGet aes_init.aes_sbox) ks i
                (ekeys_get (set_key st ks k0 k1 k2 k3 k4 k5 k6 k7).heap (i - 1))) ∧
    List.map rconByte [1, 2, 3, 4, 5, 6, 7, 8, 9, 10]
      = [0x01, 0x02, 0x04, 0x08, 0x10, 0x20, 0x40, 0x80, 0x1b, 0x36] :=
  ⟨(set_key_spec st ks k0 k1 k2 k3 k4 k5 k6 k7 (by omega) (by omega) hs).2.1,
    fun i h1 h2 => set_key_schedG st ks k0 k1 k2 k3 k4 k5 k6 k7 hks hs i h1 h2, by decide⟩

theorem C16_encryption_key_schedule_witness :
    ekeys_get (set_key zeroState 4 0 0 0 0 0 0 0 0).heap 4
      = ekeys_get (set_key zeroState 4 0 0 0 0 0 0 0 0).heap (4 - 4)
        ^^^ schedG (arrGet aes_init.aes_sbox) 4 4
              (ekeys_get (set_key zeroState 4 0 0 0 0 0 0 0 0).heap (4 - 1)) :=
  (C16_encryption_key_schedule zeroState 4 0 0 0 0 0 0 0 0 (Or.inl rfl)
    (by rw [zeroState_size]; decide)).2.1 4 (by decide) (by decide)

/-- C17: for every `ks` in {4,6,8} with `n = 4ks+28`, after `set_key` the first group
(`j = 0`) and the last group (`j = n-4`) of the decryption schedule are copies of words
of the encryption schedule: `d[j] = e[n-4-j]`, `d[j+1] = e[n-4-j+3]`,
`d[j+2] = e[n-4-j+2]`, `d[j+3] = e[n-4-j+1]`; the first group is the last round key and
the last group is the raw key, each with the words 1 and 3 exchanged. -/
theorem C17_decryption_schedule_whitening (st : Asm) (ks k0 k1 k2 k3 k4 k5 k6 k7 : Nat)
    (hks : ks = 4 ∨ ks = 6 ∨ ks = 8) (hs : 1264 ≤ st.heap.size) (j : Nat)
    (hj : j = 0 ∨ j = 4 * ks + 28 - 4) :
    dkeys_get (set_key st ks k0 k1 k2 k3 k4 k5 k6 k7).heap j
      = ekeys_get (set_key st ks k0 k1 k2 k3 k4 k5 k6 k7).heap (4 * ks + 28 - 4 - j) ∧
    dkeys_get (set_key st ks k0 k1 k2 k3 k4 k5 k6 k7).heap (j + 1)
      = ekeys_get (set_key st ks k0 k1 k2 k3 k4 k5 k6 k7).heap (4 * ks + 28 - 4 - j + 3) ∧
    dkeys_get (set_key st ks k0 k1 k2 k3 k4 k5 k6 k7).heap (j + 2)
      = ekeys_get (set_key st ks k0 k1 k2 k3 k4 k5 k6 k7).heap (4 * ks + 28 - 4 - j + 2) ∧
    dkeys_get (set_key st ks k0 k1 k2 k3 k4 k5 k6 k7).heap (j + 3)
      = ekeys_get (set_key st ks k0 k1 k2 k3 k4 k5 k6 k7).heap (4 * ks + 28 - 4 - j + 1) := by
  have h := fun jj hjj => set_key_dkeys st ks k0 k1 k2 k3 k4 k5 k6 k7 (by omega) (by omega) hs
    j jj (by omega) (by omega) hjj
  have c : j < 4 ∨ j ≥ 4 * ks + 28 - 4 := by omega
  simp only [if_pos c, id] at h
  exact ⟨h 0 (by norm_num), h 1 (by norm_num), h 2 (by norm_num), h 3 (by norm_num)⟩

theorem C17_decryption_schedule_whitening_witness :
    dkeys_get (set_key zeroState 4 0 0 0 0 0 0 0 0).heap 0
      = ekeys_get (set_key zeroState 4 0 0 0 0 0 0 0 0).heap (4 * 4 + 28 - 4 - 0) :=
  (C17_decryption_schedule_whitening zeroState 4 0 0 0 0 0 0 0 0 (Or.inl rfl)
    (by rw [zeroState_size]; decide) 0 (Or.inl rfl)).1

/-- C18, as amended: for every `ks` in {4,6,8} with `n = 4ks+28`, every group `j`
(a multiple of 4) with `4 <= j < n-4` and every `jj` in 0..3, the word `d[j+jj]` of the
decryption schedule is the inverse MixColumns column transform (coefficients 14, 11, 13,
9) of the word `e[n-4-j+((4-jj) mod 4)]` of the encryption schedule itself: the S-box
substitution of the code is undone by the inverse S-box built into the tables `aes_dec`. -/
theorem C18_decryption_schedule_interior (st : Asm) (ks k0 k1 k2 k3 k4 k5 k6 k7 : Nat)
    (hks : ks = 4 ∨ ks = 6 ∨ ks = 8) (hs : 1264 ≤ st.heap.size) (j jj : Nat) (h4 : 4 ≤ j)
    (hn : j < 4 * ks + 28 - 4) (hjm : j % 4 = 0) (hjj : jj < 4) :
    dkeys_get (set_key st ks k0 k1 k2 k3 k4 k5 k6 k7).heap (j + jj)
      = invMixW (ekeys_get (set_key st ks k0 k1 k2 k3 k4 k5 k6 k7).heap
          (4 * ks + 28 - 4 - j + (4 - jj) % 4)) := by
  rw [set_key_dkeys st ks k0 k1 k2 k3 k4 k5 k6 k7 (by omega) (by omega) hs j jj (by omega) hjm
    hjj, if_neg (by omega)]

theorem C18_decryption_schedule_interior_witness :
    dkeys_get (set_key zeroState 4 0 0 0 0 0 0 0 0).heap (36 + 0)
      = invMixW (ekeys_get (set_key zeroState 4 0 0 0 0 0 0 0 0).heap
          (4 * 4 + 28 - 4 - 36 + (4 - 0) % 4)) :=
  C18_decryption_schedule_interior zeroState 4 0 0 0 0 0 0 0 0 (Or.inl rfl)
    (by rw [zeroState_size]; decide) 36 0 (by decide) (by decide) (by decide) (by decide)

/-- C18 as written fails: for the zero key of four words, the word `d[36]` is not the
inverse MixColumns transform of the S-box-substituted bytes of `e[4]`. -/
theorem C18_counterexample :
    dkeys_get (set_key zeroState 4 0 0 0 0 0 0 0 0).heap (36 + 0)
      ≠ invMixW (subW (arrGet aes_init.aes_sbox)
          (ekeys_get (set_key zeroState 4 0 0 0 0 0 0 0 0).heap
            (4 * 4 + 28 - 4 - 36 + (4 - 0) % 4))) := by
  have hs : 1264 ≤ zeroState.heap.size := by rw [zeroState_size]; decide
  have e0 := (set_key_spec zeroState 4 0 0 0 0 0 0 0 0 (by decide) (by decide) hs).2.1 0
    (by decide)
  have e3 := (set_key_spec zeroState 4 0 0 0 0 0 0 0 0 (by decide) (by decide) hs).2.1 3
    (by decide)
  have e4 := set_key_schedG zeroState 4 0 0 0 0 0 0 0 0 (Or.inl rfl) hs 4 (by decide)
    (by decide)
  have v0 : [0, 0, 0, 0, 0, 0, 0, 0].getD 0 0 % 4294967296 = 0 := by decide
  have v3 : [0, 0, 0, 0, 0, 0, 0, 0].getD 3 0 % 4294967296 = 0 := by decide
  have g : schedG (arrGet SBOX) 4 4 0 = 1650680675 := by decide
  rw [show 4 - 4 = 0 from rfl, show 4 - 1 = 3 from rfl, e0, e3, v0, v3, aes_sbox_eq, g] at e4
  have d := set_key_dkeys zeroState 4 0 0 0 0 0 0 0 0 (by decide) (by decide) hs 36 0
    (by decide) (by decide) (by decide)
  rw [if_neg (by decide)] at d
  rw [d, show 4 * 4 + 28 - 4 - 36 + (4 - 0) % 4 = 4 from rfl, e4, aes_sbox_eq]
  decide

/-- C12: the key words that are not used are ignored: for `ks = 4` the first 44 words,
and for `ks = 6` the first 52 words, of the encryption schedule and of the decryption
schedule written by `set_key` are the same for two calls (from any two states) that
agree on `ks` and on the key words `k0..k(ks-1)`. -/
theorem C12_unused_key_words_ignored (st st' : Asm)
    (ks k0 k1 k2 k3 k4 k5 k6 k7 l0 l1 l2 l3 l4 l5 l6 l7 : Nat) (hks : ks = 4 ∨ ks = 6)
    (hs : 1264 ≤ st.heap.size) (hs' : 1264 ≤ st'.heap.size)
    (hag : ∀ i, i < ks →
      [k0, k1, k2, k3, k4, k5, k6, k7].getD i 0 = [l0, l1, l2, l3, l4, l5, l6, l7].getD i 0)
    (i : Nat) (hi : i < 4 * ks + 28) :
    ekeys_get (set_key st ks k0 k1 k2 k3 k4 k5 k6 k7).heap i
      = ekeys_get (set_key st' ks l0 l1 l2 l3 l4 l5 l6 l7).heap i ∧
    dkeys_get (set_key st ks k0 k1 k2 k3 k4 k5 k6 k7).heap i
      = dkeys_get (set_key st' ks l0 l1 l2 l3 l4 l5 l6 l7).heap i :=
  ⟨ekeys_agree st st' ks k0 k1 k2 k3 k4 k5 k6 k7 l0 l1 l2 l3 l4 l5 l6 l7 (by omega) (by omega)
      hs hs' hag i hi,
    dkeys_agree st st' ks k0 k1 k2 k3 k4 k5 k6 k7 l0 l1 l2 l3 l4 l5 l6 l7 (by omega) (by omega)
      hs hs' hag i hi⟩

theorem C12_unused_key_words_ignored_witness :
    ekeys_get (set_key zeroState 4 1 2 3 4 5 6 7 8).heap 43
      = ekeys_get (set_key zeroState 4 1 2 3 4 0 0 0 0).heap 43 :=
  (C12_unused_key_words_ignored zeroState zeroState 4 1 2 3 4 5 6 7 8 1 2 3 4 0 0 0 0
    (Or.inl rfl) (by rw [zeroState_size]; decide) (by rw [zeroState_size]; decide)
    (by decide) 43 (by decide)).1

/-- C11, as amended: the key size is not validated.  For every `ks` from 1 to 8, in
{4,6,8} or not, and a buffer of at least 1264 bytes, `set_key(ks, k0..k7)` stores the key
words `k0..k(ks-1)`, as 32-bit values, in `ekeys[0..ks-1]`, and
`process(ks, mode, pos, 16n)`, for every mode value, on a 16-byte-aligned range of `n`
blocks that lies inside the buffer and ends at or below byte 2^31, with `16n < 2^31`,
returns the count `16n`. -/
theorem C11_key_size_not_validated (st : Asm) (ks k0 k1 k2 k3 k4 k5 k6 k7 : Nat) (h1 : 1 ≤ ks)
    (h8 : ks ≤ 8) (hs : 1264 ≤ st.heap.size) (mode : Int) (pos n : Nat) (hp : pos % 16 = 0)
    (hb : pos + 16 * n ≤ 2147483648) (hn : 16 * n < 2147483648)
    (hz : pos + 16 * n ≤ st.heap.size) :
    (∀ i, i < ks → ekeys_get (set_key st ks k0 k1 k2 k3 k4 k5 k6 k7).heap i
      = [k0, k1, k2, k3, k4, k5, k6, k7].getD i 0 % 4294967296) ∧
    ∃ c, process st (ks : Int) mode pos ((16 * n : Nat) : Int)
      = some (((16 * n : Nat) : Int), c) := by
  refine ⟨(set_key_spec st ks k0 k1 k2 k3 k4 k5 k6 k7 h1 h8 hs).2.1, ?_⟩
  obtain ⟨c, hc, _⟩ := blocksRun_frame (add32 (i32 (ks : Int)) 5) (i32 mode)
    (rounds_of_small ks (by omega)).1 n st pos hp hb hz
  exact ⟨c, by rw [process_run st ks mode pos n hp hb hn, hc]; rfl⟩

theorem C11_key_size_not_validated_witness :
    ∃ c, process zeroState ((5 : Nat) : Int) 0 (12288 : Nat) ((16 * 1 : Nat) : Int)
      = some (((16 * 1 : Nat) : Int), c) :=
  (C11_key_size_not_validated zeroState 5 1 0 0 0 0 0 0 0 (by decide) (by decide)
    (by rw [zeroState_size]; decide) 0 12288 1 (by decide) (by decide) (by decide)
    (by rw [zeroState_size]; decide)).2

/-- C11 as written fails: with the key size 5, `set_key` changes the word `ekeys[0]` of
the buffer, and `process` returns the count 16, which is no error value. -/
theorem C11_counterexample :
    ekeys_get (set_key zeroState 5 1 0 0 0 0 0 0 0).heap 0 ≠ ekeys_get zeroState.heap 0 ∧
    ∃ c, process zeroState 5 0 12288 16 = some (16, c) := by
  have hs : 1264 ≤ zeroState.heap.size := by rw [zeroState_size]; decide
  refine ⟨?_, ?_⟩
  · rw [(set_key_spec zeroState 5 1 0 0 0 0 0 0 0 (by decide) (by decide) hs).2.1 0
      (by decide)]
    decide
  · have h := process_one zeroState 5 0 12288 (by decide) (by decide) (by decide) (by decide)
    simp only [Nat.cast_ofNat, Nat.cast_zero] at h
    exact ⟨_, h⟩

end NAes

namespace NAes

/-! ## Round trips -/

/-- C1: ECB round trip.  With the tables loaded, for every `ks` in {4,6,8}, every key
and every range that is 16-byte aligned, `16n` bytes long and lies in the data region
(from 0x3000 on, inside the buffer): after `set_key(ks, k0..k7)`,
`process(ks, MODE_ECB_ENC, pos, 16n)` followed by `process(ks, MODE_ECB_DEC, pos, 16n)`
both return `16n` and leave every byte of the range equal to its value before the two
calls. -/
theorem C1_ecb_round_trip (st : Asm) (hT : TablesLoaded st.heap)
    (ks k0 k1 k2 k3 k4 k5 k6 k7 : Nat) (hks : ks = 4 ∨ ks = 6 ∨ ks = 8) (pos n : Nat)
    (hp : pos % 16 = 0) (h3 : 0x3000 ≤ pos) (h1 : pos + 16 * n ≤ 2147483648)
    (h2 : pos + 16 * n ≤ st.heap.size) :
    ∃ c1 c2, process (set_key st ks k0 k1 k2 k3 k4 k5 k6 k7) ks 0 pos ((16 * n : Nat) : Int)
          = some (((16 * n : Nat) : Int), c1) ∧
      process c1 ks 1 pos ((16 * n : Nat) : Int) = some (((16 * n : Nat) : Int), c2) ∧
      ∀ q, pos ≤ q → q < pos + 16 * n →
        DATA_get c2.heap q = DATA_get (set_key st ks k0 k1 k2 k3 k4 k5 k6 k7).heap q := by
  obtain ⟨hr, hq⟩ := rounds_of_ks ks hks
  have hT1 := set_key_tables st ks k0 k1 k2 k3 k4 k5 k6 k7 (by omega) (by omega) hT
  have hsz := (set_key_spec st ks k0 k1 k2 k3 k4 k5 k6 k7 (by omega) (by omega)
    (by have := hT.1; omega)).1
  have h := process_roundTrip (set_key st ks k0 k1 k2 k3 k4 k5 k6 k7) ks 0 1 (by norm_num)
    (by norm_num) hr (encKey (set_key st ks k0 k1 k2 k3 k4 k5 k6 k7).heap (ks + 5))
    (decKey (set_key st ks k0 k1 k2 k3 k4 k5 k6 k7).heap (ks + 5))
    (fun _ => True) (fun _ => True)
    (fun a ha T X => by rw [modeFn_keyed ha hT1 _ (by omega), hq])
    (fun T X _ _ => ⟨Lt4_encKey _ _ _, trivial⟩)
    (fun a ha T X => by rw [modeFn_keyed ha hT1 _ (by omega), hq])
    (fun T X _ _ => ⟨Lt4_decKey _ _ _, trivial⟩)
    pos n hp h3 h1 (by rw [hsz]; exact h2) id (fun _ => rfl) _ (fun _ => True) rfl (fun _ => trivial)
    trivial (fun _ _ => trivial)
    (fun T2 Xs _ hX => runBlocks_ecb _ _
      (fun x hx => decKey_encKey st ks k0 k1 k2 k3 k4 k5 k6 k7 (by omega) (by omega)
        (by have := hT.1; omega) x hx) Xs _ T2 hX)
  simp only [Nat.cast_ofNat, Nat.cast_zero, Nat.cast_one, id] at h
  exact h

theorem C1_ecb_round_trip_witness :
    ∃ c1 c2, process (set_key initState 4 0 0 0 0 0 0 0 0) (4 : Nat) 0 (12288 : Nat)
          ((16 * 2 : Nat) : Int) = some (((16 * 2 : Nat) : Int), c1) ∧
      process c1 (4 : Nat) 1 (12288 : Nat) ((16 * 2 : Nat) : Int)
          = some (((16 * 2 : Nat) : Int), c2) ∧
      ∀ q, 12288 ≤ q → q < 12288 + 16 * 2 →
        DATA_get c2.heap q = DATA_get (set_key initState 4 0 0 0 0 0 0 0 0).heap q :=
  C1_ecb_round_trip initState initState_tables 4 0 0 0 0 0 0 0 0 (Or.inl rfl) 12288 2
    (by decide) (by decide) (by decide) (by rw [initState_spec.2.1]; decide)

/-- C4: CBC round trip.  With the tables loaded, for every `ks` in {4,6,8}, every key,
every IV `t0..t3` and every aligned range of `n` whole blocks in the data region: after
`set_key`, the calls `set_iv(IV); process(ks, MODE_CBC_ENC, pos, 16n); set_iv(IV);
process(ks, MODE_CBC_DEC, pos, 16n)` return `16n` twice and leave every byte of the range
equal to its value before the calls. -/
theorem C4_cbc_round_trip (st : Asm) (hT : TablesLoaded st.heap)
    (ks k0 k1 k2 k3 k4 k5 k6 k7 : Nat) (hks : ks = 4 ∨ ks = 6 ∨ ks = 8) (t0 t1 t2 t3 : Int)
    (pos n : Nat) (hp : pos % 16 = 0) (h3 : 0x3000 ≤ pos) (h1 : pos + 16 * n ≤ 2147483648)
    (h2 : pos + 16 * n ≤ st.heap.size) :
    ∃ c1 c2, process (set_iv (set_key st ks k0 k1 k2 k3 k4 k5 k6 k7) t0 t1 t2 t3) ks 2 pos
          ((16 * n : Nat) : Int) = some (((16 * n : Nat) : Int), c1) ∧
      process (set_iv c1 t0 t1 t2 t3) ks 3 pos ((16 * n : Nat) : Int)
          = some (((16 * n : Nat) : Int), c2) ∧
      ∀ q, pos ≤ q → q < pos + 16 * n →
        DATA_get c2.heap q = DATA_get (set_key st ks k0 k1 k2 k3 k4 k5 k6 k7).heap q := by
  obtain ⟨hr, hq⟩ := rounds_of_ks ks hks
  have hT1 := set_key_tables st ks k0 k1 k2 k3 k4 k5 k6 k7 (by omega) (by omega) hT
  have hsz := (set_key_spec st ks k0 k1 k2 k3 k4 k5 k6 k7 (by omega) (by omega)
    (by have := hT.1; omega)).1
  have hDE := fun x hx => decKey_encKey st ks k0 k1 k2 k3 k4 k5 k6 k7 (by omega) (by omega)
    (by have := hT.1; omega) x hx
  have h := process_roundTrip (set_iv (set_key st ks k0 k1 k2 k3 k4 k5 k6 k7) t0 t1 t2 t3)
    ks 2 3 (by norm_num) (by norm_num) hr
    (encKey (set_key st ks k0 k1 k2 k3 k4 k5 k6 k7).heap (ks + 5))
    (decKey (set_key st ks k0 k1 k2 k3 k4 k5 k6 k7).heap (ks + 5)) Lt4 Lt4
    (fun a ha T X => by rw [modeFn_keyed ha hT1 _ (by omega), hq]; rfl)
    (fun T X _ _ => ⟨Lt4_encKey _ _ _, Lt4_encKey _ _ _⟩)
    (fun a ha T X => by rw [modeFn_keyed ha hT1 _ (by omega), hq]; rfl)
    (fun T X hT hX => ⟨Lt4_xor4 (Lt4_decKey _ _ _) hT, hX⟩)
    pos n hp h3 h1 (by rw [heap_set_iv, hsz]; exact h2)
    (fun c => set_iv c t0 t1 t2 t3) (fun _ => rfl) (i32 t0, i32 t1, i32 t2, i32 t3)
    (fun T => T = (i32 t0, i32 t1, i32 t2, i32 t3)) rfl (fun _ => rfl)
    (Lt4_Tof_set_iv st t0 t1 t2 t3)
    (fun T hT => by rw [hT]; exact Lt4_Tof_set_iv st t0 t1 t2 t3)
    (fun T2 Xs hT2 hX => by
      rw [hT2]
      exact runBlocks_cbc _ _ hDE (fun _ => Lt4_encKey _ _ _) Xs _ hX
        (Lt4_Tof_set_iv st t0 t1 t2 t3))
  simp only [Nat.cast_ofNat] at h
  exact h

theorem C4_cbc_round_trip_witness :
    ∃ c1 c2, process (set_iv (set_key initState 6 1 2 3 4 5 6 0 0) 7 8 9 10) (6 : Nat) 2
          (12288 : Nat) ((16 * 3 : Nat) : Int) = some (((16 * 3 : Nat) : Int), c1) ∧
      process (set_iv c1 7 8 9 10) (6 : Nat) 3 (12288 : Nat) ((16 * 3 : Nat) : Int)
          = some (((16 * 3 : Nat) : Int), c2) ∧
      ∀ q, 12288 ≤ q → q < 12288 + 16 * 3 →
        DATA_get c2.heap q = DATA_get (set_key initState 6 1 2 3 4 5 6 0 0).heap q :=
  C4_cbc_round_trip initState initState_tables 6 1 2 3 4 5 6 0 0 (Or.inr (Or.inl rfl))
    7 8 9 10 12288 3 (by decide) (by decide) (by decide) (by rw [initState_spec.2.1]; decide)

/-- C5, as amended: stream-mode round trip.  For every `ks` from -5 to 761 (4, 6 and 8
among them) and every other `ks` for which `(ks+5)<<4`, read as a signed 32-bit integer,
is at most 0x2FE0 = 12256, every content of the buffer below the data region (schedules
and tables), every IV and every 16-byte-aligned range of `n` whole blocks that starts at
or above 0x3000 (the data region), lies inside the buffer and ends at or below byte 2^31,
the calls `set_iv(IV); process(ks, ENC, pos, 16n); set_iv(IV); process(ks, DEC, pos, 16n)`
return `16n` twice and restore every byte of the range to its value before the first
`set_iv`, where `(ENC, DEC)` is
`(MODE_CFB_ENC, MODE_CFB_DEC)` = (4, 5), `(MODE_OFB, MODE_OFB)` = (6, 6) or
`(MODE_CTR, MODE_CTR)` = (7, 7). -/
theorem C5_stream_round_trip (st : Asm) (ks : Int)
    (hks : (-5 ≤ ks ∧ ks ≤ 761) ∨ toSigned (shl32 (add32 (i32 ks) 5) 4) ≤ 12256)
    (t0 t1 t2 t3 : Int) (enc dec : Nat)
    (hm : (enc = 4 ∧ dec = 5) ∨ (enc = 6 ∧ dec = 6) ∨ (enc = 7 ∧ dec = 7))
    (pos n : Nat) (hp : pos % 16 = 0) (h3 : 0x3000 ≤ pos) (h1 : pos + 16 * n ≤ 2147483648)
    (h2 : pos + 16 * n ≤ st.heap.size) :
    ∃ c1 c2, process (set_iv st t0 t1 t2 t3) ks enc pos ((16 * n : Nat) : Int)
          = some (((16 * n : Nat) : Int), c1) ∧
      process (set_iv c1 t0 t1 t2 t3) ks dec pos ((16 * n : Nat) : Int)
          = some (((16 * n : Nat) : Int), c2) ∧
      ∀ q, pos ≤ q → q < pos + 16 * n → DATA_get c2.heap q = DATA_get st.heap q := by
  have hsg : toSigned (shl32 (add32 (i32 ks) 5) 4) ≤ 12256 := by
    rcases hks with ⟨a, b⟩ | h
    · exact signed_of_range ks a b
    · exact h
  obtain ⟨hr, hq⟩ := rounds_of_signed ks hsg
  have key : ∀ m1 m2 : Nat, 4 ≤ m1 → m1 < 8 → 4 ≤ m2 → m2 < 8 →
      (∀ (T : Nat × Nat × Nat × Nat) (Xs : List (Nat × Nat × Nat × Nat)),
        (runBlocks m2 (encFn st.heap (add32 (i32 ks) 5)) id T
          (runBlocks m1 (encFn st.heap (add32 (i32 ks) 5)) id T Xs).1).1 = Xs) →
      ∃ c1 c2, process (set_iv st t0 t1 t2 t3) ks m1 pos ((16 * n : Nat) : Int)
            = some (((16 * n : Nat) : Int), c1) ∧
        process (set_iv c1 t0 t1 t2 t3) ks m2 pos ((16 * n : Nat) : Int)
            = some (((16 * n : Nat) : Int), c2) ∧
        ∀ q, pos ≤ q → q < pos + 16 * n → DATA_get c2.heap q = DATA_get st.heap q := by
    intro m1 m2 a1 b1 a2 b2 hrt
    exact process_roundTrip (set_iv st t0 t1 t2 t3) ks m1 m2 b1 b2 hr
      (encFn st.heap (add32 (i32 ks) 5)) id (fun _ => True) (fun _ => True)
      (fun a ha T X => modeFn_stream ha _ hq m1 a1 id T X)
      (fun T X _ hX => stream_step _ _ (fun _ => Lt4_encFn _ _ _) m1 a1 T X hX)
      (fun a ha T X => modeFn_stream ha _ hq m2 a2 id T X)
      (fun T X _ hX => stream_step _ _ (fun _ => Lt4_encFn _ _ _) m2 a2 T X hX)
      pos n hp h3 h1 h2 (fun c => set_iv c t0 t1 t2 t3) (fun _ => rfl)
      (i32 t0, i32 t1, i32 t2, i32 t3) (fun T => T = (i32 t0, i32 t1, i32 t2, i32 t3)) rfl
      (fun _ => rfl) trivial (fun _ _ => trivial)
      (fun T2 Xs hT2 _ => by rw [hT2]; exact hrt _ Xs)
  rcases hm with ⟨rfl, rfl⟩ | ⟨rfl, rfl⟩ | ⟨rfl, rfl⟩
  · exact key 4 5 (by norm_num) (by norm_num) (by norm_num) (by norm_num)
      (fun T Xs => runBlocks_cfb _ _ Xs T)
  · exact key 6 6 (by norm_num) (by norm_num) (by norm_num) (by norm_num)
      (fun T Xs => runBlocks_ofb _ _ Xs T)
  · exact key 7 7 (by norm_num) (by norm_num) (by norm_num) (by norm_num)
      (fun T Xs => runBlocks_ctr _ _ Xs T)

theorem C5_stream_round_trip_witness :
    ∃ c1 c2, process (set_iv (set_key initState 4 1 2 3 4 5 6 7 8) 9 10 11 12) 4 (4 : Nat)
          (12288 : Nat) ((16 * 2 : Nat) : Int) = some (((16 * 2 : Nat) : Int), c1) ∧
      process (set_iv c1 9 10 11 12) 4 (5 : Nat) (12288 : Nat) ((16 * 2 : Nat) : Int)
          = some (((16 * 2 : Nat) : Int), c2) ∧
      ∀ q, 12288 ≤ q → q < 12288 + 16 * 2 →
        DATA_get c2.heap q = DATA_get (set_key initState 4 1 2 3 4 5 6 7 8).heap q :=
  C5_stream_round_trip (set_key initState 4 1 2 3 4 5 6 7 8) 4 (Or.inl (by decide)) 9 10 11 12
    4 5 (Or.inl ⟨rfl, rfl⟩) 12288 2 (by decide) (by decide) (by decide)
    (by
      rw [set_key_size initState 4 1 2 3 4 5 6 7 8 (by decide) (by decide)
        (by rw [initState_spec.2.1]; decide), initState_spec.2.1]
      decide)

end NAes

namespace NAes

/-- C5 as written fails for `ks = 762`: `_core` then reads its last round key at 0x3000,
in the data region.  Over a zero buffer whose byte at 0x3000 is 1, the two CTR passes
from the IV 0 return 16 and leave 0 at 0x3000. -/
theorem C5_counterexample :
    ∃ c1 c2, process (set_iv oneByteState 0 0 0 0) 762 7 12288 16 = some (16, c1) ∧
      process (set_iv c1 0 0 0 0) 762 7 12288 16 = some (16, c2) ∧
      DATA_get c2.heap 12288 ≠ DATA_get oneByteState.heap 12288 := by
  have hr : CoreEnds (add32 (i32 762) 5) := by decide
  have hq : innerRounds (u32 (add32 (i32 762) 5)) = 767 := by decide
  have p1 := process_one (set_iv oneByteState 0 0 0 0) 762 7 12288 (by decide) hr (by decide)
    (by decide)
  have z1 : ∀ q, q < 0x3000 → (set_iv oneByteState 0 0 0 0).heap.mem q = 0 := by
    intro q hq
    show (if q = 0x3000 then 1 else 0) = 0
    rw [if_neg (by omega)]
  have s1 : (modeFn 7 (encFn (set_iv oneByteState 0 0 0 0).heap (add32 (i32 762) 5))
      (decFn (set_iv oneByteState 0 0 0 0).heap (add32 (i32 762) 5))
      (Tof (set_iv oneByteState 0 0 0 0))
      (blockAt (set_iv oneByteState 0 0 0 0).heap 12288)).1 = (16777217, 0, 0, 0) := by
    simp only [modeFn]
    rw [encFn_767 _ z1 _ hq]
    decide
  have t1 : (modeFn 7 (encFn (set_iv oneByteState 0 0 0 0).heap (add32 (i32 762) 5))
      (decFn (set_iv oneByteState 0 0 0 0).heap (add32 (i32 762) 5))
      (Tof (set_iv oneByteState 0 0 0 0))
      (blockAt (set_iv oneByteState 0 0 0 0).heap 12288)).2 = (0, 0, 0, 1) := by
    simp only [modeFn]
    decide
  rw [s1, t1] at p1
  simp only [Nat.cast_ofNat] at p1
  have p2 := process_one
    (set_iv (withBlock (set_iv oneByteState 0 0 0 0) 12288 (16777217, 0, 0, 0) (0, 0, 0, 1))
      0 0 0 0)
    762 7 12288 (by decide) hr (by decide) (by decide)
  simp only [Nat.cast_ofNat] at p2
  have z2 : ∀ q, q < 0x3000 →
      (set_iv (withBlock (set_iv oneByteState 0 0 0 0) 12288 (16777217, 0, 0, 0)
        (0, 0, 0, 1)) 0 0 0 0).heap.mem q = 0 := by
    intro q hq
    rw [heap_set_iv, withBlock_mem _ _ _ _ _ (by decide) (by decide)
      (by show 12288 + 16 ≤ 16384; decide) (Or.inl hq)]
    exact z1 q hq
  have s2 : (modeFn 7
      (encFn (set_iv (withBlock (set_iv oneByteState 0 0 0 0) 12288 (16777217, 0, 0, 0)
        (0, 0, 0, 1)) 0 0 0 0).heap (add32 (i32 762) 5))
      (decFn (set_iv (withBlock (set_iv oneByteState 0 0 0 0) 12288 (16777217, 0, 0, 0)
        (0, 0, 0, 1)) 0 0 0 0).heap (add32 (i32 762) 5))
      (Tof (set_iv (withBlock (set_iv oneByteState 0 0 0 0) 12288 (16777217, 0, 0, 0)
        (0, 0, 0, 1)) 0 0 0 0))
      (blockAt (set_iv (withBlock (set_iv oneByteState 0 0 0 0) 12288 (16777217, 0, 0, 0)
        (0, 0, 0, 1)) 0 0 0 0).heap 12288)).1 = (0, 0, 0, 0) := by
    simp only [modeFn]
    rw [encFn_767 _ z2 _ hq]
    decide
  rw [s2] at p2
  refine ⟨_, _, p1, p2, ?_⟩
  rw [show (12288 : Nat) = 12288 + 0 from rfl, DATA_get_withBlock _ _ _ _ 0 (by decide)
    (by decide) (by show 12288 + 16 ≤ 16384; decide) (by decide)]
  decide

end NAes

namespace NAes

end NAes

namespace NAes

/-! ## The cipher -/

end NAes

namespace NAes

end NAes
